import Mathlib

/-!
Verification development for the nimbus build-and-deploy orchestrator.

Text is modelled as `Str := List Char` (JavaScript strings; the UTF-16 /
scalar-value distinction is immaterial to everything proved here).
`JSON.parse` / `JSON.stringify(·, null, 2)` are modelled by an executable
parser and printer over the `Json` type below; JSON numbers are modelled
as exact decimals `m·10^e` (JavaScript's binary-double rounding never
matters here because the code performs no arithmetic on parsed numbers).
RFC-3339 timestamp strings are modelled by their epoch-millisecond value;
the rendering is injective and order-preserving, so equality and `<=`
comparisons transfer.
-/

/-! ## Basic text model -/

abbrev Str := List Char

def txt (s : String) : Str := s.toList

/-- The double-quote character. -/
def qmark : Char := Char.ofNat 34

/-- The single-quote character. -/
def squote : Char := Char.ofNat 39

def lbrace : Char := Char.ofNat 123

def rbrace : Char := Char.ofNat 125

def bslash : Char := Char.ofNat 92

/-- Carriage return. -/
def crChar : Char := Char.ofNat 13

/-- JSON insignificant whitespace (space, tab, newline, carriage return). -/
def isJsonWs (c : Char) : Bool :=
  c = ' ' || c = '\t' || c = '\n' || c = crChar

/-- JavaScript whitespace as used by `trim()` and `\s` (ASCII portion). -/
def isJsWs (c : Char) : Bool :=
  c = ' ' || c = '\t' || c = '\n' || c = crChar || c = Char.ofNat 11 || c = Char.ofNat 12

/-- JavaScript regex word character `\w`. -/
def isWordChar (c : Char) : Bool :=
  (97 ≤ c.toNat && c.toNat ≤ 122) || (65 ≤ c.toNat && c.toNat ≤ 90) ||
    (48 ≤ c.toNat && c.toNat ≤ 57) || c = '_'

def isDigitCh (c : Char) : Bool := 48 ≤ c.toNat && c.toNat ≤ 57

/-- `String.prototype.toLowerCase` (ASCII portion, which is all the code relies on). -/
def lowerS (s : Str) : Str := s.map Char.toLower

/-- `String.prototype.includes`: `containsS s pat` is true iff `pat` occurs in `s`. -/
def containsS : Str → Str → Bool
  | s, pat =>
    if pat.isPrefixOf s then true
    else
      match s with
      | [] => false
      | _ :: t => containsS t pat

/-- `String.prototype.trim()`. -/
def trimJs (s : Str) : Str :=
  ((s.dropWhile isJsWs).reverse.dropWhile isJsWs).reverse

/-- `stdout?.trim() || null`: empty text collapses to null. -/
def trimToNull (s : Str) : Option Str :=
  let t := trimJs s
  if t = [] then none else some t

/-! ## Decimal digits -/

def digitChar (d : Nat) : Char := Char.ofNat (48 + d)

def digitVal (c : Char) : Nat := c.toNat - 48

def toDecGo (n : Nat) (acc : Str) : Str :=
  if h : n = 0 then acc else toDecGo (n / 10) (digitChar (n % 10) :: acc)
termination_by n
decreasing_by exact Nat.div_lt_self (Nat.pos_of_ne_zero h) (by norm_num)

def natToStr (n : Nat) : Str :=
  if n = 0 then [digitChar 0] else toDecGo n []

def intToStr (m : Int) : Str :=
  if m < 0 then '-' :: natToStr m.natAbs else natToStr m.natAbs

def ofDecDigits (s : Str) : Nat := s.foldl (fun a c => a * 10 + digitVal c) 0

def hexDigitChar (d : Nat) : Char :=
  if d < 10 then digitChar d else Char.ofNat (87 + d)

def isHexDigit (c : Char) : Bool :=
  (48 ≤ c.toNat && c.toNat ≤ 57) || (97 ≤ c.toNat && c.toNat ≤ 102) ||
    (65 ≤ c.toNat && c.toNat ≤ 70)

def hexVal (c : Char) : Nat :=
  if 48 ≤ c.toNat && c.toNat ≤ 57 then c.toNat - 48
  else if 97 ≤ c.toNat && c.toNat ≤ 102 then c.toNat - 87
  else if 65 ≤ c.toNat && c.toNat ≤ 70 then c.toNat - 55
  else 0

/-! ## JSON data model -/

inductive Json where
  | jnull : Json
  | jbool (b : Bool) : Json
  | jnum (m : Int) (e : Int) : Json
  | jstr (s : Str) : Json
  | jarr (elts : List Json) : Json
  | jobj (fields : List (Str × Json)) : Json

instance : Inhabited Json := ⟨Json.jnull⟩

/-- A canonical decimal: nonpositive exponent, zero is `0·10^0`, and a strictly
negative exponent means the mantissa has no trailing zero. Every number the
parser produces is canonical, which is what makes printing a right inverse. -/
def canonNum (m e : Int) : Bool :=
  e ≤ 0 && (decide (m = 0) → decide (e = 0)) && (decide (e < 0) → decide (m % 10 ≠ 0))

/-! ## JSON printer, `JSON.stringify(v, null, 2)` -/

/-- Newline followed by the two-space indentation of depth `d`. -/
def nlIndent (d : Nat) : Str := '\n' :: List.replicate (2 * d) ' '

/-- Escape one character inside a JSON string literal, as `JSON.stringify` does. -/
def escChar (c : Char) : Str :=
  if c = qmark then [bslash, qmark]
  else if c = bslash then [bslash, bslash]
  else if c = '\n' then [bslash, 'n']
  else if c = crChar then [bslash, 'r']
  else if c = '\t' then [bslash, 't']
  else if c = Char.ofNat 8 then [bslash, 'b']
  else if c = Char.ofNat 12 then [bslash, 'f']
  else if c.toNat < 32 then
    [bslash, 'u', '0', '0', hexDigitChar (c.toNat / 16), hexDigitChar (c.toNat % 16)]
  else [c]

def escStr (s : Str) : Str := s.flatMap escChar

def quoteStr (s : Str) : Str := qmark :: escStr s ++ [qmark]

/-- Print a canonical decimal the way `JSON.stringify` renders the number. -/
def printNum (m e : Int) : Str :=
  if e = 0 then intToStr m
  else if 0 < e then intToStr m ++ List.replicate e.toNat '0'
  else
    let d := (-e).toNat
    let digs := natToStr m.natAbs
    let digs := if digs.length ≤ d then List.replicate (d + 1 - digs.length) '0' ++ digs else digs
    let sign : Str := if m < 0 then ['-'] else []
    sign ++ digs.take (digs.length - d) ++ '.' :: digs.drop (digs.length - d)

mutual

def pv (d : Nat) : Json → Str
  | Json.jnull => txt "null"
  | Json.jbool b => if b then txt "true" else txt "false"
  | Json.jnum m e => printNum m e
  | Json.jstr s => quoteStr s
  | Json.jarr [] => txt "[]"
  | Json.jarr (x :: xs) =>
    '[' :: (nlIndent (d + 1) ++ pv (d + 1) x ++ pvTail (d + 1) xs ++ nlIndent d ++ [']'])
  | Json.jobj [] => [lbrace, rbrace]
  | Json.jobj ((k, v) :: fs) =>
    lbrace :: (nlIndent (d + 1) ++ quoteStr k ++ ':' :: ' ' :: pv (d + 1) v ++
      pvFTail (d + 1) fs ++ nlIndent d ++ [rbrace])

def pvTail (d : Nat) : List Json → Str
  | [] => []
  | x :: xs => ',' :: (nlIndent d ++ pv d x) ++ pvTail d xs

def pvFTail (d : Nat) : List (Str × Json) → Str
  | [] => []
  | (k, v) :: fs => ',' :: (nlIndent d ++ quoteStr k ++ ':' :: ' ' :: pv d v) ++ pvFTail d fs

end

/-- `JSON.stringify(v, null, 2)`. -/
def stringify2 (v : Json) : Str := pv 0 v

/-! ## JSON parser, `JSON.parse` -/

def skipWs (s : Str) : Str := s.dropWhile isJsonWs

/-- Parse the body of a string literal after the opening quote. -/
def pStr : Str → Option (Str × Str)
  | [] => none
  | c :: t =>
    if c = qmark then some ([], t)
    else if c = bslash then
      match t with
      | [] => none
      | e :: t2 =>
        if e = qmark then (pStr t2).map (fun (r, rest) => (qmark :: r, rest))
        else if e = bslash then (pStr t2).map (fun (r, rest) => (bslash :: r, rest))
        else if e = '/' then (pStr t2).map (fun (r, rest) => ('/' :: r, rest))
        else if e = 'n' then (pStr t2).map (fun (r, rest) => ('\n' :: r, rest))
        else if e = 'r' then (pStr t2).map (fun (r, rest) => (crChar :: r, rest))
        else if e = 't' then (pStr t2).map (fun (r, rest) => ('\t' :: r, rest))
        else if e = 'b' then (pStr t2).map (fun (r, rest) => (Char.ofNat 8 :: r, rest))
        else if e = 'f' then (pStr t2).map (fun (r, rest) => (Char.ofNat 12 :: r, rest))
        else if e = 'u' then
          match t2 with
          | h1 :: h2 :: h3 :: h4 :: t3 =>
            if isHexDigit h1 && isHexDigit h2 && isHexDigit h3 && isHexDigit h4 then
              let n := ((hexVal h1 * 16 + hexVal h2) * 16 + hexVal h3) * 16 + hexVal h4
              if n < 55296 then (pStr t3).map (fun (r, rest) => (Char.ofNat n :: r, rest))
              else if 57344 ≤ n then (pStr t3).map (fun (r, rest) => (Char.ofNat n :: r, rest))
              else none
            else none
          | _ => none
        else none
    else (pStr t).map (fun (r, rest) => (c :: r, rest))

/-- Drop trailing zeros of the fractional part: `stripZeros m k` divides `m` by 10
while the remaining fraction width `k` is positive and `m` ends in zero. -/
def stripZeros (m : Int) : Nat → Int × Nat
  | 0 => (m, 0)
  | k + 1 => if m % 10 = 0 then stripZeros (m / 10) k else (m, k + 1)

/-- Normalize a parsed decimal `m·10^e` to canonical form. -/
def normNum (m e : Int) : Int × Int :=
  if m = 0 then (0, 0)
  else if 0 ≤ e then (m * 10 ^ e.toNat, 0)
  else
    let (m2, k2) := stripZeros m (-e).toNat
    (m2, -(k2 : Int))

/-- Parse a JSON number token at the head of the input. -/
def pNum (s : Str) : Option (Json × Str) :=
  let (neg, s1) : Bool × Str := match s with
    | c :: t => if c = '-' then (true, t) else (false, s)
    | [] => (false, s)
  let intDigs := s1.takeWhile isDigitCh
  if intDigs = [] then none
  else
    let s2 := s1.drop intDigs.length
    let (fracDigs, s3) : Str × Str := match s2 with
      | c :: t => if c = '.' then (t.takeWhile isDigitCh, t.drop (t.takeWhile isDigitCh).length)
          else ([], s2)
      | [] => ([], s2)
    if s2 ≠ [] ∧ s2.head? = some '.' ∧ fracDigs = [] then none
    else
      let (expv, s4) : Option Int × Str := match s3 with
        | c :: t =>
          if c = 'e' ∨ c = 'E' then
            let (esgn, t1) : Int × Str := match t with
              | d :: t2 => if d = '-' then (-1, t2) else if d = '+' then (1, t2) else (1, t)
              | [] => (1, t)
            let eDigs := t1.takeWhile isDigitCh
            if eDigs = [] then (none, s3)
            else (some (esgn * (ofDecDigits eDigs : Int)), t1.drop eDigs.length)
          else (some 0, s3)
        | [] => (some 0, s3)
      match expv with
      | none => none
      | some ex =>
        let mag : Int := (ofDecDigits (intDigs ++ fracDigs) : Int)
        let m0 : Int := if neg then -mag else mag
        let (m, e) := normNum m0 (ex - (fracDigs.length : Int))
        some (Json.jnum m e, s4)

/-- Object-field accumulation with JavaScript property semantics: a repeated
name keeps its first position and takes the last value. -/
def insertField (fs : List (Str × Json)) (k : Str) (v : Json) : List (Str × Json) :=
  match fs with
  | [] => [(k, v)]
  | (k0, v0) :: rest => if k0 = k then (k0, v) :: rest else (k0, v0) :: insertField rest k v

mutual

def pVal : Nat → Str → Option (Json × Str)
  | 0, _ => none
  | fuel + 1, s =>
    match skipWs s with
    | [] => none
    | c :: t =>
      if c = qmark then (pStr t).map (fun (r, rest) => (Json.jstr r, rest))
      else if c = '[' then
        match skipWs t with
        | [] => none
        | c2 :: t2 =>
          if c2 = ']' then some (Json.jarr [], t2)
          else (pElems fuel (c2 :: t2)).map (fun (vs, rest) => (Json.jarr vs, rest))
      else if c = lbrace then
        match skipWs t with
        | [] => none
        | c2 :: t2 =>
          if c2 = rbrace then some (Json.jobj [], t2)
          else (pFields fuel (c2 :: t2) []).map (fun (fs, rest) => (Json.jobj fs, rest))
      else if c = 't' then
        if (txt "rue").isPrefixOf t then some (Json.jbool true, t.drop 3) else none
      else if c = 'f' then
        if (txt "alse").isPrefixOf t then some (Json.jbool false, t.drop 4) else none
      else if c = 'n' then
        if (txt "ull").isPrefixOf t then some (Json.jnull, t.drop 3) else none
      else pNum (c :: t)
termination_by structural fuel s => fuel

def pElems : Nat → Str → Option (List Json × Str)
  | 0, _ => none
  | fuel + 1, s =>
    match pVal fuel s with
    | none => none
    | some (v, r) =>
      match skipWs r with
      | [] => none
      | c :: t =>
        if c = ',' then (pElems fuel t).map (fun (vs, rest) => (v :: vs, rest))
        else if c = ']' then some ([v], t)
        else none
termination_by structural fuel s => fuel

def pFields : Nat → Str → List (Str × Json) → Option (List (Str × Json) × Str)
  | 0, _, _ => none
  | fuel + 1, s, acc =>
    match skipWs s with
    | [] => none
    | c :: t =>
      if c = qmark then
        match pStr t with
        | none => none
        | some (k, r1) =>
          match skipWs r1 with
          | [] => none
          | c2 :: t2 =>
            if c2 = ':' then
              match pVal fuel t2 with
              | none => none
              | some (v, r2) =>
                let acc2 := insertField acc k v
                match skipWs r2 with
                | [] => none
                | c3 :: t3 =>
                  if c3 = ',' then pFields fuel t3 acc2
                  else if c3 = rbrace then some (acc2, t3)
                  else none
            else none
      else none
termination_by structural fuel s acc => fuel

end

/-- `JSON.parse`: parse one value and require only whitespace after it. -/
def parseJson (s : Str) : Option Json :=
  match pVal (2 * s.length + 2) s with
  | none => none
  | some (v, r) => if skipWs r = [] then some v else none

/-! ## JavaScript value helpers over `Json` -/

/-- Property access `v[k]` restricted to what the code relies on: own
properties of plain objects. Arrays, strings and primitives have no
string-named own data properties the code ever reads. -/
def jGet (v : Json) (k : Str) : Option Json :=
  match v with
  | Json.jobj fs => (fs.find? (fun p => p.1 = k)).map Prod.snd
  | _ => none

/-- JavaScript truthiness of a JSON value. -/
def truthy (v : Json) : Bool :=
  match v with
  | Json.jnull => false
  | Json.jbool b => b
  | Json.jnum m _ => m ≠ 0
  | Json.jstr s => s ≠ []
  | Json.jarr _ => true
  | Json.jobj _ => true

/-- `v === "lit"` for a JSON value. -/
def jsStrEq (v : Option Json) (lit : Str) : Bool :=
  match v with
  | some (Json.jstr s) => s = lit
  | _ => false

/-- Spread `{...v}` of a JSON value into an object member list. -/
def jsSpread (v : Json) : List (Str × Json) :=
  match v with
  | Json.jobj fs => fs
  | Json.jarr xs => (xs.enum.map fun (i, x) => (natToStr i, x))
  | Json.jstr s => (s.enum.map fun (i, c) => (natToStr i, Json.jstr [c]))
  | _ => []

/-- Property assignment `o[k] = v` on a member list (replace in place or append). -/
def setProp (fs : List (Str × Json)) (k : Str) (v : Json) : List (Str × Json) :=
  insertField fs k v

/-- `delete o[k]` on a member list. -/
def delProp (fs : List (Str × Json)) (k : Str) : List (Str × Json) :=
  fs.filter (fun p => ¬ p.1 = k)

/-- Spread-merge `{...a, ...b}` of two member lists. -/
def mergeProps (a b : List (Str × Json)) : List (Str × Json) :=
  (a ++ b).foldl (fun acc p => insertField acc p.1 p.2) []

/-! ## Job store (`db.ts`, migrations 0001–0003)

The `jobs` table row. Timestamp columns are TEXT in the schema; they are
modelled by their epoch-millisecond value (the RFC-3339 rendering the code
stores is injective and order-preserving, so equality and comparisons
transfer). `cost` (REAL) is modelled as an exact rational; the code never
does arithmetic on it. -/

structure JobRecord where
  id : Str
  prompt : Str
  model : Str
  status : Str
  created_at : Nat
  started_at : Option Nat := none
  completed_at : Option Nat := none
  preview_url : Option Str := none
  deployed_url : Option Str := none
  error_message : Option Str := none
  file_count : Option Int := none
  prompt_tokens : Option Int := none
  completion_tokens : Option Int := none
  total_tokens : Option Int := none
  cost : Option ℚ := none
  llm_latency_ms : Option Int := none
  install_duration_ms : Option Int := none
  build_duration_ms : Option Int := none
  deploy_duration_ms : Option Int := none
  total_duration_ms : Option Int := none
  lines_of_code : Option Int := none
  build_log_key : Option Str := none
  deploy_log_key : Option Str := none
  worker_name : Option Str := none
  expires_at : Option Nat := none
deriving DecidableEq

/-- The `jobs` table status constraint from migration `0001_jobs.sql`:
`CHECK (status IN ('pending', 'running', 'completed', 'failed'))`.
Migrations 0002 and 0003 only `ALTER TABLE … ADD COLUMN`, which leaves
this constraint in force. -/
def statusCheck (s : Str) : Bool :=
  s = txt "pending" || s = txt "running" || s = txt "completed" || s = txt "failed"

/-- The optional-field bag of `updateJobStatus`. The last four fields follow
the same pattern; they are required by the callers in `api/jobs.ts` and by
§4.5 of the specification (`markCompleted(metrics, {expiresAt, workerName,
buildLogKey, deployLogKey})`). -/
structure AdditionalFields where
  started_at : Option Nat := none
  completed_at : Option Nat := none
  preview_url : Option Str := none
  deployed_url : Option Str := none
  error_message : Option Str := none
  file_count : Option Int := none
  prompt_tokens : Option Int := none
  completion_tokens : Option Int := none
  total_tokens : Option Int := none
  cost : Option ℚ := none
  llm_latency_ms : Option Int := none
  install_duration_ms : Option Int := none
  build_duration_ms : Option Int := none
  deploy_duration_ms : Option Int := none
  total_duration_ms : Option Int := none
  lines_of_code : Option Int := none
  expires_at : Option Nat := none
  worker_name : Option Str := none
  build_log_key : Option Str := none
  deploy_log_key : Option Str := none

/-- A provided (`!== undefined`) field overrides the stored one. -/
def upd {α : Type} (new : Option α) (old : Option α) : Option α :=
  match new with
  | some v => some v
  | none => old

/-- Apply the single `UPDATE jobs SET … WHERE id = ?` row assignment. -/
def applyFields (r : JobRecord) (status : Str) (f : AdditionalFields) : JobRecord :=
  { r with
    status := status
    started_at := upd f.started_at r.started_at
    completed_at := upd f.completed_at r.completed_at
    preview_url := upd f.preview_url r.preview_url
    deployed_url := upd f.deployed_url r.deployed_url
    error_message := upd f.error_message r.error_message
    file_count := upd f.file_count r.file_count
    prompt_tokens := upd f.prompt_tokens r.prompt_tokens
    completion_tokens := upd f.completion_tokens r.completion_tokens
    total_tokens := upd f.total_tokens r.total_tokens
    cost := upd f.cost r.cost
    llm_latency_ms := upd f.llm_latency_ms r.llm_latency_ms
    install_duration_ms := upd f.install_duration_ms r.install_duration_ms
    build_duration_ms := upd f.build_duration_ms r.build_duration_ms
    deploy_duration_ms := upd f.deploy_duration_ms r.deploy_duration_ms
    total_duration_ms := upd f.total_duration_ms r.total_duration_ms
    lines_of_code := upd f.lines_of_code r.lines_of_code
    expires_at := upd f.expires_at r.expires_at
    worker_name := upd f.worker_name r.worker_name
    build_log_key := upd f.build_log_key r.build_log_key
    deploy_log_key := upd f.deploy_log_key r.deploy_log_key }

/-- `updateJobStatus`: one `UPDATE jobs SET status = ?, … WHERE id = ?`.
The store (SQLite/D1) rejects the statement when a row is actually updated
and the new status violates the `CHECK` constraint of migration 0001. -/
def updateJobStatus (db : List JobRecord) (id : Str) (status : Str)
    (f : AdditionalFields) : Except Str (List JobRecord) :=
  if statusCheck status ∨ ¬ db.any (fun r => r.id = id) then
    .ok (db.map (fun r => if r.id = id then applyFields r status f else r))
  else
    .error (txt "CHECK constraint failed: jobs")

/-- `markJobRunning`: status `running`, stamp `started_at`. -/
def markJobRunning (db : List JobRecord) (id : Str) (now : Nat) :
    Except Str (List JobRecord) :=
  updateJobStatus db id (txt "running") { started_at := some now }

/-- Build metrics (`BuildMetrics` in `types.ts`). -/
structure BuildMetrics where
  id : Str
  prompt : Str
  model : Str
  promptTokens : Int
  completionTokens : Int
  totalTokens : Int
  cost : ℚ
  llmLatencyMs : Int
  filesGenerated : Int
  linesOfCode : Int
  buildSuccess : Bool
  deploySuccess : Bool
  deployError : Option Str := none
  installDurationMs : Int
  buildDurationMs : Int
  deployDurationMs : Int
  totalDurationMs : Int
  deployedUrl : Str
  startedAt : Nat
  completedAt : Nat
deriving DecidableEq

/-- The option bag of `markJobCompleted` / `markJobFailed`. Modelled from the
spec: the revision of `db.ts` that accepts
`{expiresAt, workerName, buildLogKey, deployLogKey}` (§4.5) is not among the
sources; only its caller `api/jobs.ts` is. Fields follow the
`updateJobStatus` convention: an absent (`undefined`) field is not written. -/
structure CompletionOptions where
  expiresAt : Option Nat := none
  workerName : Option Str := none
  buildLogKey : Option Str := none
  deployLogKey : Option Str := none

/-- `markJobCompleted`. Modelled from the spec (§4.1 stage 7, §4.5): transition
to `completed`, stamp `completed_at`, write both URLs and all metrics plus the
expiry/worker/log-key options in the one `updateJobStatus` call; the present
`db.ts` revision shows the same shape without the option bag. -/
def markJobCompleted (db : List JobRecord) (id : Str) (previewUrl deployedUrl : Str)
    (metrics : BuildMetrics) (opts : CompletionOptions) (now : Nat) :
    Except Str (List JobRecord) :=
  updateJobStatus db id (txt "completed")
    { completed_at := some now
      preview_url := some previewUrl
      deployed_url := some deployedUrl
      file_count := some metrics.filesGenerated
      prompt_tokens := some metrics.promptTokens
      completion_tokens := some metrics.completionTokens
      total_tokens := some metrics.totalTokens
      cost := some metrics.cost
      llm_latency_ms := some metrics.llmLatencyMs
      install_duration_ms := some metrics.installDurationMs
      build_duration_ms := some metrics.buildDurationMs
      deploy_duration_ms := some metrics.deployDurationMs
      total_duration_ms := some metrics.totalDurationMs
      lines_of_code := some metrics.linesOfCode
      expires_at := opts.expiresAt
      worker_name := opts.workerName
      build_log_key := opts.buildLogKey
      deploy_log_key := opts.deployLogKey }

/-- `markJobFailed`. Modelled from the spec (§4.1 failure semantics, §4.5:
`markFailed(message, {…same options})`): status `failed`, stamp
`completed_at`, set `error_message`, optional preview URL and option bag. -/
def markJobFailed (db : List JobRecord) (id : Str) (errorMessage : Str)
    (previewUrl : Option Str) (opts : CompletionOptions) (now : Nat) :
    Except Str (List JobRecord) :=
  updateJobStatus db id (txt "failed")
    { completed_at := some now
      error_message := some errorMessage
      preview_url := previewUrl
      expires_at := opts.expiresAt
      worker_name := opts.workerName
      build_log_key := opts.buildLogKey
      deploy_log_key := opts.deployLogKey }

/-- The lightweight list projection (`JobListItem` in `types.ts`). -/
structure JobListItem where
  id : Str
  prompt : Str
  model : Str
  status : Str
  createdAt : Nat
  deployedUrl : Option Str
deriving DecidableEq

/-- `toJobListItem`: truncate the prompt past 100 characters, keep only the
six projection fields. -/
def toJobListItem (r : JobRecord) : JobListItem :=
  { id := r.id
    prompt := if 100 < r.prompt.length then r.prompt.take 100 ++ txt "..." else r.prompt
    model := r.model
    status := r.status
    createdAt := r.created_at
    deployedUrl := r.deployed_url }

/-- Stable insertion for `ORDER BY created_at DESC`. -/
def insertByCreatedDesc (x : JobRecord) : List JobRecord → List JobRecord
  | [] => [x]
  | y :: t => if y.created_at < x.created_at then x :: y :: t else y :: insertByCreatedDesc x t

def sortByCreatedDesc (db : List JobRecord) : List JobRecord :=
  db.foldr insertByCreatedDesc []

/-- `listJobs`: `SELECT * FROM jobs ORDER BY created_at DESC LIMIT ?`,
projected through `toJobListItem`. -/
def listJobs (db : List JobRecord) (limit : Nat := 50) : List JobListItem :=
  ((sortByCreatedDesc db).take limit).map toJobListItem

structure JobLogKeys where
  buildLogKey : Option Str
  deployLogKey : Option Str
deriving DecidableEq

/-- `getJobLogKeys`. Modelled from the spec (§4.5 store surface): read the two
log-key columns of the row, `null` when the job does not exist. The exporting
`db.ts` revision is not among the sources; its caller `handleGetJobLogs` is. -/
def getJobLogKeys (db : List JobRecord) (id : Str) : Option JobLogKeys :=
  (db.find? (fun r => r.id = id)).map (fun r => ⟨r.build_log_key, r.deploy_log_key⟩)

/-! ## HTTP surface: auth gate and the logs endpoint (`api/jobs.ts`) -/

structure HttpResponse where
  status : Nat
  contentType : Str
  body : Str
deriving DecidableEq

def jsonCT : Str := txt "application/json"

def textPlainCT : Str := txt "text/plain; charset=utf-8"

/-- Compact `JSON.stringify({ error: m })`. -/
def errBody (m : Str) : Str :=
  txt "\x7b\"error\":" ++ quoteStr m ++ [rbrace]

/-- `requireAuth`: a missing or empty `AUTH_TOKEN` binding is a 500; otherwise
a missing or different `Auth` header is a 401; a matching header passes. -/
def requireAuth (authToken : Option Str) (authHeader : Option Str) : Option HttpResponse :=
  let configured : Bool := match authToken with
    | none => false
    | some t => t ≠ []
  if ¬ configured then
    some { status := 500, contentType := jsonCT, body := errBody (txt "AUTH_TOKEN not configured") }
  else if authHeader ≠ authToken then
    some { status := 401, contentType := jsonCT, body := errBody (txt "Unauthorized") }
  else
    none

/-- `handleGetJobLogs`, with the store read and the bucket read supplied as
outcomes of the two awaited external calls (`Except` captures a thrown
error, whose message the handler folds into a 500). -/
def handleGetJobLogs (authToken authHeader qtype : Option Str)
    (dbKeys : Except Str (Option JobLogKeys)) (bucketObj : Except Str (Option Str)) :
    HttpResponse :=
  match requireAuth authToken authHeader with
  | some resp => resp
  | none =>
    if ¬ (qtype = some (txt "build") ∨ qtype = some (txt "deploy")) then
      { status := 400, contentType := jsonCT, body := errBody (txt "Invalid log type") }
    else
      match dbKeys with
      | .error m => { status := 500, contentType := jsonCT, body := errBody m }
      | .ok none => { status := 404, contentType := jsonCT, body := errBody (txt "Job not found") }
      | .ok (some keys) =>
        let logKey := if qtype = some (txt "build") then keys.buildLogKey else keys.deployLogKey
        match logKey with
        | none => { status := 404, contentType := jsonCT, body := errBody (txt "Log not available") }
        | some _ =>
          match bucketObj with
          | .error m => { status := 500, contentType := jsonCT, body := errBody m }
          | .ok none =>
            { status := 404, contentType := jsonCT, body := errBody (txt "Log not found") }
          | .ok (some contents) =>
            { status := 200, contentType := textPlainCT, body := contents }

/-! ## Deploy driver (`lib/deploy/workers.ts`) -/

/-- Result shape of the sandbox `exec` collaborator (§4.3 external contract). -/
structure ExecResult where
  exitCode : Int
  stdout : Str
  stderr : Str

def redactedVal : Str := txt "[REDACTED]"

def apiTokenLit : Str := txt "CLOUDFLARE_API_TOKEN="

def accountIdLit : Str := txt "CLOUDFLARE_ACCOUNT_ID="

/-- Leftmost match of the regex `LIT"[^"]*"`: returns
`(before, value, after)` so that the input is
`before ++ lit ++ ["] ++ value ++ ["] ++ after` with a quote-free value. -/
def findVarMatch (lit : Str) : Str → Option (Str × Str × Str)
  | [] => none
  | c :: t =>
    let s := c :: t
    if (lit ++ [qmark]).isPrefixOf s then
      let after := s.drop (lit.length + 1)
      let val := after.takeWhile (fun d => ¬ d = qmark)
      if val.length < after.length then
        some ([], val, after.drop (val.length + 1))
      else
        (findVarMatch lit t).map (fun (p, v, b) => (c :: p, v, b))
    else
      (findVarMatch lit t).map (fun (p, v, b) => (c :: p, v, b))

/-- One global replace `s.replace(/LIT"[^"]*"/g, LIT"[REDACTED]")`, stepping
from one leftmost match to the next. Each step strictly shrinks the remaining
text (`findVarMatch_drop_lt`), so `s.length` steps always suffice and
`redactVar` below never exhausts its fuel. -/
def redactVarGo (lit : Str) : Nat → Str → Str
  | 0, s => s
  | fuel + 1, s =>
    match findVarMatch lit s with
    | none => s
    | some (p, _, b) =>
      p ++ lit ++ [qmark] ++ redactedVal ++ [qmark] ++ redactVarGo lit fuel b

def redactVar (lit : Str) (s : Str) : Str := redactVarGo lit s.length s

/-- `sanitizeLog`: null (or empty) stays null; otherwise redact the
`CLOUDFLARE_API_TOKEN="…"` values, then the `CLOUDFLARE_ACCOUNT_ID="…"` values. -/
def sanitizeLog (contents : Option Str) : Option Str :=
  match contents with
  | none => none
  | some s =>
    if s = [] then none
    else some (redactVar accountIdLit (redactVar apiTokenLit s))

def httpsLit : Str := txt "https://"

def wdLit : Str := txt ".workers.dev"

/-- Greedy split for `[^\s]+\.workers\.dev` inside one nonspace run: the
largest `k ≥ 1` such that `.workers.dev` starts at offset `k`. -/
def greedyK (run : Str) : Option Nat :=
  (List.range (run.length + 1)).reverse.find?
    (fun k => decide (1 ≤ k) && wdLit.isPrefixOf (run.drop k))

/-- Try `https:\/\/[^\s]+\.workers\.dev` anchored at the head of `s`. -/
def matchUrlAt (s : Str) : Option Str :=
  if httpsLit.isPrefixOf s then
    let run := (s.drop 8).takeWhile (fun c => ¬ isJsWs c)
    (greedyK run).map (fun k => httpsLit ++ run.take k ++ wdLit)
  else none

/-- Leftmost match of `https:\/\/[^\s]+\.workers\.dev`. -/
def findWorkersUrl : Str → Option Str
  | [] => none
  | c :: t =>
    match matchUrlAt (c :: t) with
    | some u => some u
    | none => findWorkersUrl t

/-- Outcome of `deployToWorkers`: either the parsed URL with the sanitized
log, or a thrown `DeployError` carrying the message and the sanitized log. -/
inductive DeployOutcome where
  | ok (deployedUrl : Str) (deployLog : Option Str)
  | deployErr (message : Str) (deployLog : Option Str)
deriving DecidableEq

def wranglerFailedMsg (code : Int) : Str :=
  txt "Wrangler failed with exit code " ++ intToStr code

def urlParseFailMsg : Str := txt "Could not parse deployment URL from wrangler output"

/-- `deployToWorkers`, as a function of the results of its two sandbox execs:
the wrangler command and the deploy-log read (whose stdout is the log text). -/
def deployToWorkers (execDeploy execRead : ExecResult) : DeployOutcome :=
  let deployLog := sanitizeLog (trimToNull execRead.stdout)
  if execDeploy.exitCode ≠ 0 then
    .deployErr (wranglerFailedMsg execDeploy.exitCode) deployLog
  else
    match findWorkersUrl (deployLog.getD []) with
    | none => .deployErr urlParseFailMsg deployLog
    | some u => .ok u deployLog

/-! ## Framework registry (`frameworks/index.ts`, `frameworks/astro.ts`,
`frameworks/next.ts`, `lib/nimbus-config.ts`) -/

structure GeneratedFile where
  path : Str
  content : Str
deriving DecidableEq

inductive FrameworkTarget where
  | workers : FrameworkTarget
  | staticT : FrameworkTarget
deriving DecidableEq

def targetStr : FrameworkTarget → Str
  | .workers => txt "workers"
  | .staticT => txt "static"

structure FrameworkOutput where
  assetsDir : Option Str := none
  workerEntry : Option Str := none

structure FrameworkDetectContext where
  files : List GeneratedFile
  packageJson : Option Json

structure FrameworkNormalizeContext where
  files : List GeneratedFile
  config : Option Json
  target : FrameworkTarget
  packageJson : Option Json

structure FrameworkDefinition where
  id : Str
  defaultTarget : FrameworkTarget
  supportedTargets : Option (List FrameworkTarget) := none
  dependencies : Option (List (Str × Json)) := none
  devDependencies : Option (List (Str × Json)) := none
  outputs : FrameworkTarget → FrameworkOutput
  detect : Option (FrameworkDetectContext → Bool) := none
  promptRules : FrameworkTarget → Option Str
  promptKeywords : List Str := []
  normalizeFiles : Option (FrameworkNormalizeContext → List GeneratedFile) := none

def NIMBUS_CONFIG_BASENAME : Str := txt "nimbus.config.json"

/-- `parseNimbusConfig`: the first file named `nimbus.config.json` (exactly, or
with a `/nimbus.config.json` suffix), JSON-parsed; anything but an object or
array (`!parsed || typeof parsed !== 'object'`) counts as unspecified. -/
def parseNimbusConfig (files : List GeneratedFile) : Option Json :=
  match files.find? (fun f =>
      f.path = NIMBUS_CONFIG_BASENAME || ('/' :: NIMBUS_CONFIG_BASENAME).isSuffixOf f.path) with
  | none => none
  | some cf =>
    match parseJson cf.content with
    | some (Json.jobj fs) => some (Json.jobj fs)
    | some (Json.jarr xs) => some (Json.jarr xs)
    | _ => none

def isNextWorkersConfig (config : Option Json) : Bool :=
  match config with
  | none => false
  | some c => jsStrEq (jGet c (txt "framework")) (txt "next") &&
      jsStrEq (jGet c (txt "target")) (txt "workers")

/-- Path test for `(^|\/)STEM\.(js|mjs|cjs|ts|mts)$`. -/
def cfgPathTest (stem : Str) (path : Str) : Bool :=
  [txt "js", txt "mjs", txt "cjs", txt "ts", txt "mts"].any (fun ext =>
    path = stem ++ '.' :: ext || ('/' :: stem ++ '.' :: ext).isSuffixOf path)

def DEFAULT_NEXT_CONFIG : Str :=
  txt "const nextConfig = \x7b\n  output: \x27standalone\x27,\n  typescript: \x7b\n    ignoreBuildErrors: true,\n  \x7d,\n\x7d;\n\nexport default nextConfig;\n"

/-- `normalizeNextConfigFiles`: drop every `next.config.*` and append the
canonical standalone config. -/
def normalizeNextConfigFiles (files : List GeneratedFile) : List GeneratedFile :=
  files.filter (fun f => ¬ cfgPathTest (txt "next.config") f.path) ++
    [⟨txt "next.config.ts", DEFAULT_NEXT_CONFIG⟩]

/-! ### Generic scanners for the astro config rewriters

Each JavaScript regex the normalizer uses is modelled by an anchored matcher
(`Str → Option Str`, returning the rest of the input after the match) plus a
leftmost scan; `replaceFirst` is `String.prototype.replace` with a non-global
pattern, `gReplaceB` is global replace with a word-boundary-aware matcher. -/

def scanFirstR (m : Str → Option Str) : Str → Option (Str × Str)
  | [] => (m []).map (fun b => (([] : Str), b))
  | c :: t =>
    match m (c :: t) with
    | some b => some ([], b)
    | none => (scanFirstR m t).map (fun (p, b) => (c :: p, b))

def testPat (m : Str → Option Str) (s : Str) : Bool := (scanFirstR m s).isSome

def replaceFirst (m : Str → Option Str) (rep : Str) (s : Str) : Str :=
  match scanFirstR m s with
  | none => s
  | some (p, b) => p ++ rep ++ b

/-- Global replace scanning left to right, restarting after each replacement,
with the previous original character available for `\b` checks. `fuel` is the
input length; every pattern used consumes at least one character. -/
def gReplaceB (fuel : Nat) (m : Option Char → Str → Option Str) (rep : Str)
    (prev : Option Char) (s : Str) : Str :=
  match fuel, s with
  | _, [] => []
  | 0, s => s
  | f + 1, c :: t =>
    match m prev (c :: t) with
    | some rest =>
      rep ++ gReplaceB f m rep (((c :: t).take ((c :: t).length - rest.length)).getLast? ) rest
    | none => c :: gReplaceB f m rep (some c) t

def litP (lit : Str) (s : Str) : Option Str :=
  if lit.isPrefixOf s then some (s.drop lit.length) else none

/-- `\s*`. -/
def wsStar (s : Str) : Str := s.dropWhile isJsWs

/-- `\s+`. -/
def wsPlus (s : Str) : Option Str :=
  match s with
  | c :: t => if isJsWs c then some (t.dropWhile isJsWs) else none
  | [] => none

def isQuoteCh (c : Char) : Bool := c = squote || c = qmark

def quoteP (s : Str) : Option Str :=
  match s with
  | c :: t => if isQuoteCh c then some t else none
  | [] => none

/-- Anchored `output\s*:\s*['"]server['"]`. -/
def mOutputServer (s : Str) : Option Str := do
  let s ← litP (txt "output") s
  let s ← litP [':'] (wsStar s)
  let s ← quoteP (wsStar s)
  let s ← litP (txt "server") s
  quoteP s

/-- Anchored `output\s*:\s*['"][^'"]+['"]`. -/
def mOutputAny (s : Str) : Option Str := do
  let s ← litP (txt "output") s
  let s ← litP [':'] (wsStar s)
  let s ← quoteP (wsStar s)
  let v := s.takeWhile (fun c => ¬ isQuoteCh c)
  if v = [] then none else quoteP (s.drop v.length)

/-- Anchored `defineConfig\(\s*\{`. -/
def mDefineCfgBrace (s : Str) : Option Str := do
  let s ← litP (txt "defineConfig(") s
  litP [lbrace] (wsStar s)

/-- Anchored `adapter\s*:\s*cloudflare\b`. -/
def mAdapterCf (s : Str) : Option Str := do
  let s ← litP (txt "adapter") s
  let s ← litP [':'] (wsStar s)
  let s ← litP (txt "cloudflare") s
  match s with
  | [] => some []
  | c :: _ => if isWordChar c then none else some s

/-- Anchored `import\s+(\w+)\s+from\s+['"]@astrojs\/node['"];?`, returning the
captured identifier and the rest. -/
def mNodeImportAt (s : Str) : Option (Str × Str) := do
  let s ← litP (txt "import") s
  let s ← wsPlus s
  let ident := s.takeWhile isWordChar
  if ident = [] then none else do
    let s ← wsPlus (s.drop ident.length)
    let s ← litP (txt "from") s
    let s ← wsPlus s
    let s ← quoteP s
    let s ← litP (txt "@astrojs/node") s
    let s ← quoteP s
    match s with
    | c :: t => if c = ';' then some (ident, t) else some (ident, s)
    | [] => some (ident, s)

def findNodeImport : Str → Option (Str × Str × Str)
  | [] => none
  | c :: t =>
    match mNodeImportAt (c :: t) with
    | some (ident, rest) => some ([], ident, rest)
    | none => (findNodeImport t).map (fun (p, i, b) => (c :: p, i, b))

/-- Anchored `import\s+\{\s*defineConfig\s*\}\s+from\s+['"]astro\/config['"];?`. -/
def mDefineImport (s : Str) : Option Str := do
  let s ← litP (txt "import") s
  let s ← wsPlus s
  let s ← litP [lbrace] s
  let s ← litP (txt "defineConfig") (wsStar s)
  let s ← litP [rbrace] (wsStar s)
  let s ← wsPlus s
  let s ← litP (txt "from") s
  let s ← wsPlus s
  let s ← quoteP s
  let s ← litP (txt "astro/config") s
  let s ← quoteP s
  match s with
  | c :: t => if c = ';' then some t else some s
  | [] => some s

/-- Anchored `\bIDENT\s*\(` with the boundary decided by the previous character. -/
def mWordParen (ident : Str) (prev : Option Char) (s : Str) : Option Str :=
  match prev with
  | some p => if isWordChar p then none else mWordParenCore ident s
  | none => mWordParenCore ident s
where
  mWordParenCore (ident : Str) (s : Str) : Option Str := do
    let s ← litP ident s
    litP ['('] (wsStar s)

/-- Anchored `adapter\s*:\s*IDENT\b` (no boundary on the left in the source). -/
def mAdapterIdent (ident : Str) (_prev : Option Char) (s : Str) : Option Str := do
  let s ← litP (txt "adapter") s
  let s ← litP [':'] (wsStar s)
  let s ← litP ident (wsStar s)
  match s with
  | [] => some []
  | c :: _ => if isWordChar c then none else some s

/-! ### The astro config rewriters -/

def ASTRO_WORKERS_RULES : Str := txt
  "- Generate an Astro project configured for Cloudflare Workers SSR.\n- Default to SSR unless the user explicitly asks for static output.\n- Include dependencies: astro@5.16.15 and @astrojs/cloudflare@12.6.12.\n- Add astro.config.mjs with output: \"server\" and adapter cloudflare().\n- Include nimbus.config.json with \x7b\"framework\":\"astro\",\"target\":\"workers\",\"assetsDir\":\"dist\",\"workerEntry\":\"dist/_worker.js/index.js\"\x7d.\n- Include scripts: \"dev\": \"astro dev\", \"build\": \"astro build\", \"preview\": \"astro preview\"."

def ASTRO_STATIC_RULES : Str := txt
  "- Generate an Astro project configured for static output.\n- Set output: \"static\" in astro.config.mjs.\n- Include nimbus.config.json with \x7b\"framework\":\"astro\",\"target\":\"static\",\"assetsDir\":\"dist\"\x7d.\n- If using dynamic routes in static output, you MUST add getStaticPaths."

def NEXT_WORKERS_RULES : Str := txt
  "- Generate a Next.js project configured for Cloudflare Workers using OpenNext.\n- You MUST include:\n  - package.json with dependencies: next@latest, react@latest, react-dom@latest, @opennextjs/cloudflare@latest\n  - open-next.config.ts exporting defineCloudflareConfig()\n  - next.config.ts with output: \"standalone\" (do not use experimental.runtime or eslint config)\n  - nimbus.config.json with \x7b\"framework\":\"next\",\"target\":\"workers\"\x7d\n  - scripts: \"build\": \"next build\", \"preview\": \"opennextjs-cloudflare preview\", \"deploy\": \"opennextjs-cloudflare deploy\"\n  - packageManager: \"bun@1.2.19\"\n- Prefer the App Router with TypeScript unless the user asks for Pages Router or JavaScript.\n- Do NOT set output: \"export\" or otherwise force static-only output for Next.js SSR."

def RENDERER_INTEGRATIONS : List (Str × Str) :=
  [(txt "@astrojs/preact", txt "preact"),
   (txt "@astrojs/react", txt "react"),
   (txt "@astrojs/solid-js", txt "solid"),
   (txt "@astrojs/svelte", txt "svelte"),
   (txt "@astrojs/vue", txt "vue")]

/-- Read a member, treating a null or missing value as `{}`, and spread it. -/
def spreadPropOrEmpty (ms : List (Str × Json)) (k : Str) : List (Str × Json) :=
  match (ms.find? (fun p => p.1 = k)).map Prod.snd with
  | none => []
  | some Json.jnull => []
  | some v => jsSpread v

def getRendererImports (packageJson : Option Json) : List Str × List Str :=
  match packageJson with
  | none => ([], [])
  | some p =>
    let deps := mergeProps
      (match jGet p (txt "dependencies") with
        | none => []
        | some Json.jnull => []
        | some v => jsSpread v)
      (match jGet p (txt "devDependencies") with
        | none => []
        | some Json.jnull => []
        | some v => jsSpread v)
    let hits := RENDERER_INTEGRATIONS.filter (fun r =>
      match (deps.find? (fun p2 => p2.1 = r.1)).map Prod.snd with
      | some v => truthy v
      | none => false)
    (hits.map (fun r => txt "import " ++ r.2 ++ txt " from \x27" ++ r.1 ++ txt "\x27;"),
     hits.map (fun r => r.2 ++ txt "()"))

def buildDefaultAstroConfig (context : FrameworkNormalizeContext) : Str :=
  let (importLines, integrationCalls) := getRendererImports context.packageJson
  let integrationsLine : Str :=
    if integrationCalls ≠ [] then
      txt "  integrations: [" ++ (integrationCalls.intersperse (txt ", ")).flatten ++ txt "],\n"
    else []
  let imports := (([txt "import \x7b defineConfig \x7d from \x27astro/config\x27;",
      txt "import cloudflare from \x27@astrojs/cloudflare\x27;"] ++ importLines ++ [([] : Str)]).intersperse
      (txt "\n")).flatten
  imports ++ txt "export default defineConfig(\x7b\n  output: \x27server\x27,\n  adapter: cloudflare(),\n" ++
    integrationsLine ++ txt "\x7d);\n"

def ensureOutputServer (content : Str) : Str :=
  if testPat mOutputServer content then content
  else if testPat mOutputAny content then
    replaceFirst mOutputAny (txt "output: \x27server\x27") content
  else
    replaceFirst mDefineCfgBrace (txt "defineConfig(\x7b\n  output: \x27server\x27,") content

def ensureCloudflareAdapter (content : Str) : Str :=
  if containsS content (txt "@astrojs/cloudflare") && testPat mAdapterCf content then content
  else
    let u :=
      match findNodeImport content with
      | some (pre, ident, after) =>
        let u2 := pre ++ txt "import cloudflare from \x27@astrojs/cloudflare\x27;" ++ after
        if ident ≠ txt "cloudflare" then
          let u3 := gReplaceB u2.length (mWordParen ident) (txt "cloudflare(") none u2
          gReplaceB u3.length (mAdapterIdent ident) (txt "adapter: cloudflare") none u3
        else u2
      | none =>
        if ¬ containsS content (txt "@astrojs/cloudflare") then
          if containsS content (txt "from \x27astro/config\x27") then
            replaceFirst mDefineImport
              (txt "import \x7b defineConfig \x7d from \x27astro/config\x27;\nimport cloudflare from \x27@astrojs/cloudflare\x27;")
              content
          else txt "import cloudflare from \x27@astrojs/cloudflare\x27;\n" ++ content
        else content
    if ¬ testPat mAdapterCf u then
      replaceFirst mDefineCfgBrace (txt "defineConfig(\x7b\n  adapter: cloudflare(),") u
    else u

def normalizeAstroConfigFiles (context : FrameworkNormalizeContext) : List GeneratedFile :=
  if context.target ≠ .workers then context.files
  else
    match context.files.findIdx? (fun f => cfgPathTest (txt "astro.config") f.path) with
    | none =>
      context.files ++ [⟨txt "astro.config.mjs", buildDefaultAstroConfig context⟩]
    | some i =>
      match context.files.get? i with
      | none => context.files
      | some f =>
        context.files.set i
          { f with content := ensureOutputServer (ensureCloudflareAdapter f.content) }

/-! ### The two framework definitions and the registry -/

def astroDetect (ctx : FrameworkDetectContext) : Bool :=
  let dep : Bool :=
    match ctx.packageJson with
    | none => false
    | some p =>
      (match (jGet p (txt "dependencies")).bind (fun d => jGet d (txt "astro")) with
        | some v => truthy v
        | none => false) ||
      (match (jGet p (txt "devDependencies")).bind (fun d => jGet d (txt "astro")) with
        | some v => truthy v
        | none => false)
  dep || ctx.files.any (fun f => cfgPathTest (txt "astro.config") f.path)

def astroDefinition : FrameworkDefinition :=
  { id := txt "astro"
    defaultTarget := .workers
    dependencies := some [(txt "astro", Json.jstr (txt "5.16.15")),
      (txt "@astrojs/cloudflare", Json.jstr (txt "12.6.12"))]
    outputs := fun t =>
      match t with
      | .workers => { assetsDir := some (txt "dist"), workerEntry := some (txt "dist/_worker.js/index.js") }
      | .staticT => { assetsDir := some (txt "dist") }
    detect := some astroDetect
    promptRules := fun t =>
      match t with
      | .workers => some ASTRO_WORKERS_RULES
      | .staticT => some ASTRO_STATIC_RULES
    promptKeywords := [txt "astro"]
    normalizeFiles := some normalizeAstroConfigFiles }

def nextDetect (ctx : FrameworkDetectContext) : Bool :=
  let dep : Bool :=
    match ctx.packageJson with
    | none => false
    | some p =>
      (match (jGet p (txt "dependencies")).bind (fun d => jGet d (txt "next")) with
        | some v => truthy v
        | none => false) ||
      (match (jGet p (txt "devDependencies")).bind (fun d => jGet d (txt "next")) with
        | some v => truthy v
        | none => false)
  dep || ctx.files.any (fun f => cfgPathTest (txt "next.config") f.path)

def nextDefinition : FrameworkDefinition :=
  { id := txt "next"
    defaultTarget := .workers
    supportedTargets := some [.workers]
    dependencies := some [(txt "next", Json.jstr (txt "latest")),
      (txt "react", Json.jstr (txt "latest")),
      (txt "react-dom", Json.jstr (txt "latest")),
      (txt "@opennextjs/cloudflare", Json.jstr (txt "latest"))]
    outputs := fun _ => {}
    detect := some nextDetect
    promptRules := fun t =>
      match t with
      | .workers => some NEXT_WORKERS_RULES
      | .staticT => none
    promptKeywords := [txt "next.js", txt "nextjs", txt "next js", txt "app router",
      txt "pages router", txt "full-stack react"] }

def FRAMEWORKS : List FrameworkDefinition := [astroDefinition, nextDefinition]

def FRAMEWORK_PROMPT_PRIORITY : List FrameworkDefinition := [astroDefinition, nextDefinition]

/-- `FRAMEWORK_MAP.get`: the map is built from `FRAMEWORKS` keyed by `id`; the
ids are distinct, so first match equals the map entry. -/
def frameworkMapGet (fid : Str) : Option FrameworkDefinition :=
  FRAMEWORKS.find? (fun f => f.id = fid)

/-! ### Registry operations -/

def readPackageJson (files : List GeneratedFile) : Option (Nat × Json) :=
  match files.findIdx? (fun f => f.path = txt "package.json") with
  | none => none
  | some i =>
    match files.get? i with
    | none => none
    | some f =>
      match parseJson f.content with
      | some (Json.jobj fs) => some (i, Json.jobj fs)
      | some (Json.jarr xs) => some (i, Json.jarr xs)
      | _ => none

def writePackageJson (files : List GeneratedFile) (i : Nat) (data : Json) :
    List GeneratedFile :=
  match files.get? i with
  | some f => files.set i { f with content := stringify2 data ++ ['\n'] }
  | none => files

def upsertFile (files : List GeneratedFile) (path content : Str) : List GeneratedFile :=
  match files.findIdx? (fun f => f.path = path) with
  | none => files ++ [⟨path, content⟩]
  | some i =>
    match files.get? i with
    | some f => files.set i { f with content := content }
    | none => files

/-- `resolveFramework`: an explicit, registry-known `config.framework` wins;
otherwise the first framework in registry order whose detector fires;
otherwise none. -/
def resolveFramework (config : Option Json) (files : List GeneratedFile)
    (packageJson : Option Json) : Option FrameworkDefinition :=
  let direct : Option FrameworkDefinition :=
    match config with
    | none => none
    | some c =>
      match jGet c (txt "framework") with
      | none => none
      | some fv =>
        if truthy fv then
          match fv with
          | Json.jstr sid => frameworkMapGet sid
          | _ => none
        else none
  match direct with
  | some fw => some fw
  | none =>
    FRAMEWORKS.find? (fun fw =>
      match fw.detect with
      | some d => d { files := files, packageJson := packageJson }
      | none => false)

def isTargetSupported (framework : FrameworkDefinition) (target : FrameworkTarget) : Bool :=
  match framework.supportedTargets with
  | none => true
  | some l => l.contains target

def resolveTarget (config : Option Json) (framework : FrameworkDefinition) : FrameworkTarget :=
  let tv := config.bind (fun c => jGet c (txt "target"))
  if jsStrEq tv (txt "static") then
    if isTargetSupported framework .staticT then .staticT else framework.defaultTarget
  else if jsStrEq tv (txt "workers") then
    if isTargetSupported framework .workers then .workers else framework.defaultTarget
  else framework.defaultTarget

/-- `applyDependencies`: spread the parsed package data, then merge the
framework dependency records over the existing ones. -/
def applyDependencies (data : Json) (framework : FrameworkDefinition) : Json :=
  let ms := jsSpread data
  let ms :=
    match framework.dependencies with
    | none => ms
    | some deps => setProp ms (txt "dependencies")
        (Json.jobj (mergeProps (spreadPropOrEmpty ms (txt "dependencies")) deps))
  let ms :=
    match framework.devDependencies with
    | none => ms
    | some deps => setProp ms (txt "devDependencies")
        (Json.jobj (mergeProps (spreadPropOrEmpty ms (txt "devDependencies")) deps))
  Json.jobj ms

/-- `normalizeNimbusConfig`: spread the parsed config (or `{}`), force
`framework` and `target`, and set or delete `assetsDir` / `workerEntry`
from the framework's outputs. -/
def normalizeNimbusConfig (config : Option Json) (framework : FrameworkDefinition)
    (target : FrameworkTarget) : Json :=
  let output := framework.outputs target
  let ms := match config with
    | none => []
    | some c => jsSpread c
  let ms := setProp ms (txt "framework") (Json.jstr framework.id)
  let ms := setProp ms (txt "target") (Json.jstr (targetStr target))
  let ms := match output.assetsDir with
    | some a => setProp ms (txt "assetsDir") (Json.jstr a)
    | none => delProp ms (txt "assetsDir")
  let ms := match output.workerEntry with
    | some w => setProp ms (txt "workerEntry") (Json.jstr w)
    | none => delProp ms (txt "workerEntry")
  Json.jobj ms

structure NormalizedResult where
  files : List GeneratedFile
  config : Option Json
  framework : Option FrameworkDefinition

/-- `normalizeGeneratedFiles`. -/
def normalizeGeneratedFiles (files : List GeneratedFile) : NormalizedResult :=
  let config := parseNimbusConfig files
  let packageJson := readPackageJson files
  let framework := resolveFramework config files (packageJson.map Prod.snd)
  match framework with
  | none => ⟨files, config, none⟩
  | some fw =>
    let target := resolveTarget config fw
    let step : List GeneratedFile × Option Json :=
      match packageJson with
      | some (i, data) =>
        let up := applyDependencies data fw
        (writePackageJson files i up, some up)
      | none => (files, none)
    let nextFiles := step.1
    let updatedPackage := step.2
    let nextFiles :=
      match fw.normalizeFiles with
      | some nf => nf ⟨nextFiles, config, target, updatedPackage⟩
      | none => nextFiles
    let normalizedConfig := normalizeNimbusConfig config fw target
    let nextFiles := upsertFile nextFiles NIMBUS_CONFIG_BASENAME
      (stringify2 normalizedConfig ++ ['\n'])
    ⟨nextFiles, some normalizedConfig, some fw⟩

/-! ### Prompt synthesis -/

def STATIC_TARGET_HINTS : List Str :=
  [txt "static site", txt "static output", txt "static build", txt "ssg",
   txt "pre-render", txt "prerender"]

def SSR_TARGET_HINTS : List Str :=
  [txt "ssr", txt "server-side", txt "server side", txt "server rendered",
   txt "server-rendered", txt "full-stack"]

def COMMON_PROMPT_RULES : Str :=
  txt "- Use real published versions or \"latest\" only. Never invent versions."

def FALLBACK_PROMPT_RULES : Str :=
  txt "- Create a static site (HTML/CSS/JS) by default unless a framework is explicitly requested."

def matchesPromptKeyword (framework : FrameworkDefinition) (normalizedPrompt : Str) : Bool :=
  framework.promptKeywords ≠ [] &&
    framework.promptKeywords.any (fun k => containsS normalizedPrompt k)

def resolvePromptTarget (framework : FrameworkDefinition) (normalizedPrompt : Str) :
    FrameworkTarget :=
  if framework.id = txt "astro" then
    if STATIC_TARGET_HINTS.any (fun h => containsS normalizedPrompt h) then .staticT
    else framework.defaultTarget
  else framework.defaultTarget

def wantsSSRTarget (normalizedPrompt : Str) : Bool :=
  SSR_TARGET_HINTS.any (fun h => containsS normalizedPrompt h)

def selectFrameworkForPrompt (prompt : Str) :
    Option FrameworkDefinition × Option FrameworkTarget :=
  let np := lowerS prompt
  match FRAMEWORK_PROMPT_PRIORITY.find? (fun fw => matchesPromptKeyword fw np) with
  | some fw => (some fw, some (resolvePromptTarget fw np))
  | none =>
    if wantsSSRTarget np then (some nextDefinition, some nextDefinition.defaultTarget)
    else (none, none)

def buildFrameworkPrompt (prompt : Str) : Str :=
  match selectFrameworkForPrompt prompt with
  | (none, _) => FALLBACK_PROMPT_RULES ++ '\n' :: COMMON_PROMPT_RULES
  | (some fw, tgtOpt) =>
    let target := tgtOpt.getD fw.defaultTarget
    let supportedTarget := if isTargetSupported fw target then target else fw.defaultTarget
    let rules := match fw.promptRules supportedTarget with
      | some r => r
      | none => FALLBACK_PROMPT_RULES
    rules ++ '\n' :: COMMON_PROMPT_RULES

/-! ## LLM client (`openrouter.ts`) -/

/-- The strict JSON-schema response-format descriptor (`RESPONSE_FORMAT`). -/
def RESPONSE_FORMAT : Json :=
  Json.jobj
    [(txt "type", Json.jstr (txt "json_schema")),
     (txt "json_schema", Json.jobj
       [(txt "name", Json.jstr (txt "nimbus_generated_code")),
        (txt "strict", Json.jbool true),
        (txt "schema", Json.jobj
          [(txt "type", Json.jstr (txt "object")),
           (txt "properties", Json.jobj
             [(txt "files", Json.jobj
               [(txt "type", Json.jstr (txt "array")),
                (txt "items", Json.jobj
                  [(txt "type", Json.jstr (txt "object")),
                   (txt "properties", Json.jobj
                     [(txt "path", Json.jobj [(txt "type", Json.jstr (txt "string"))]),
                      (txt "content", Json.jobj [(txt "type", Json.jstr (txt "string"))])]),
                   (txt "required", Json.jarr [Json.jstr (txt "path"), Json.jstr (txt "content")]),
                   (txt "additionalProperties", Json.jbool false)])])]),
           (txt "required", Json.jarr [Json.jstr (txt "files")]),
           (txt "additionalProperties", Json.jbool false)])])]

structure OpenRouterMessage where
  role : Str
  content : Str

structure OpenRouterRequest where
  model : Str
  messages : List OpenRouterMessage
  maxTokens : Nat
  temperature : ℚ
  responseFormat : Option Json := none

structure OrUsage where
  prompt_tokens : Int
  completion_tokens : Int
  total_tokens : Int
  cost : Option ℚ := none

structure OrChoice where
  content : Str
  finish_reason : Str := txt "stop"

structure OpenRouterResponse where
  id : Str
  choices : List OrChoice
  usage : OrUsage

/-- Outcome of one `fetchOpenRouterResponse` call: the error message of the
throw, or a parsed response. -/
inductive FetchOutcome where
  | fetchErr (message : Str)
  | fetchOk (resp : OpenRouterResponse)

/-- `isResponseFormatUnsupported`. -/
def isResponseFormatUnsupported (message : Str) : Bool :=
  let normalized := lowerS message
  containsS normalized (txt "response_format") ||
    containsS normalized (txt "structured output") ||
    containsS normalized (txt "json_schema") ||
    containsS normalized (txt "schema")

def BASE_SYSTEM_PROMPT : Str := txt
  "You are an expert web developer. Generate a complete, working website based on the user\x27s request.\n\nOUTPUT FORMAT:\nReturn ONLY valid JSON with this exact structure:\n\x7b\n  \"files\": [\n    \x7b \"path\": \"index.html\", \"content\": \"...\" \x7d,\n    \x7b \"path\": \"styles.css\", \"content\": \"...\" \x7d\n  ]\n\x7d\n\nInclude all files needed for the project to work.\nDo not include markdown explanations, just the JSON.\n"

def buildSystemPrompt (prompt : Str) : Str :=
  BASE_SYSTEM_PROMPT ++ txt "\n\nFRAMEWORK RULES:\n" ++ buildFrameworkPrompt prompt

/-- The request both attempts share (`baseRequest` in `generateCode`). -/
def baseRequest (model prompt : Str) : OpenRouterRequest :=
  { model := model
    messages := [⟨txt "system", buildSystemPrompt prompt⟩, ⟨txt "user", prompt⟩]
    maxTokens := 8192
    temperature := (7 : ℚ) / 10
    responseFormat := none }

structure GenerateCodeResult where
  files : List GeneratedFile
  promptTokens : Int
  completionTokens : Int
  totalTokens : Int
  cost : ℚ
  llmLatencyMs : Int

inductive GenResult where
  | genOk (r : GenerateCodeResult)
  | genThrow (message : Str)

/-- External inputs of one `generateCode` run: the outcomes of the (at most
two) chat-completion fetches, the generation-cost lookup, and the two
`Date.now()` samples around the call. -/
structure GenOracle where
  first : FetchOutcome
  second : FetchOutcome
  genCost : Except Str ℚ
  tStart : Nat
  tEnd : Nat

/-- Strip triple-backtick fences the way `generateCode` does. -/
def stripFences (content : Str) : Str :=
  let jsonContent := trimJs content
  let jsonContent :=
    if (txt "```json").isPrefixOf jsonContent then jsonContent.drop 7
    else if (txt "```").isPrefixOf jsonContent then jsonContent.drop 3
    else jsonContent
  let jsonContent :=
    if (txt "```").isSuffixOf jsonContent then jsonContent.take (jsonContent.length - 3)
    else jsonContent
  trimJs jsonContent

/-- The message `JSON.parse` failures and structure-validation throws are
wrapped in. The literal text of the engine's `SyntaxError` is modelled by a
fixed marker; nothing proved depends on it. -/
def parseFailWrap (innerMsg content : Str) : Str :=
  txt "Failed to parse LLM response as JSON: " ++ innerMsg ++
    txt "\n\nRaw content:\n" ++ content.take 500 ++ txt "..."

def jsonSyntaxErrMsg : Str := txt "Unexpected token"

/-- Validate `parsed.files` and extract the file list. -/
def validateFiles (parsed : Json) : Except Str (List GeneratedFile) :=
  match jGet parsed (txt "files") with
  | some (Json.jarr fl) =>
    let get2 : Json → Option GeneratedFile := fun el =>
      match jGet el (txt "path"), jGet el (txt "content") with
      | some (Json.jstr p), some (Json.jstr c) => some ⟨p, c⟩
      | _, _ => none
    match fl.mapM get2 with
    | some files => .ok files
    | none => .error (txt "Invalid file structure: each file must have path and content strings")
  | _ => .error (txt "Invalid response structure: missing files array")

/-- The body of `generateCode` after a successful fetch: choice checks,
fence stripping, parse, validation, latency, and the cost fallback. -/
def afterFetch (resp : OpenRouterResponse) (o : GenOracle) : GenResult :=
  match resp.choices with
  | [] => .genThrow (txt "OpenRouter returned no choices")
  | choice :: _ =>
    let content := choice.content
    match parseJson (stripFences content) with
    | none => .genThrow (parseFailWrap jsonSyntaxErrMsg content)
    | some parsed =>
      match validateFiles parsed with
      | .error m => .genThrow (parseFailWrap m content)
      | .ok files =>
        let llmLatencyMs : Int := (o.tEnd : Int) - (o.tStart : Int)
        let cost0 : ℚ := (resp.usage.cost).getD 0
        let cost : ℚ :=
          if cost0 = 0 ∧ resp.id ≠ [] then
            match o.genCost with
            | .ok c => c
            | .error _ => 0
          else cost0
        .genOk
          { files := files
            promptTokens := resp.usage.prompt_tokens
            completionTokens := resp.usage.completion_tokens
            totalTokens := resp.usage.total_tokens
            cost := cost
            llmLatencyMs := llmLatencyMs }

/-- `generateCode`, returning the list of requests actually posted to the
provider (in order) alongside the result. -/
def generateCode (model prompt : Str) (o : GenOracle) :
    List OpenRouterRequest × GenResult :=
  let base := baseRequest model prompt
  let req1 := { base with responseFormat := some RESPONSE_FORMAT }
  match o.first with
  | .fetchOk resp => ([req1], afterFetch resp o)
  | .fetchErr m =>
    if ¬ isResponseFormatUnsupported m then ([req1], .genThrow m)
    else
      match o.second with
      | .fetchOk resp => ([req1, base], afterFetch resp o)
      | .fetchErr m2 => ([req1, base], .genThrow m2)

/-! ## Job pipeline (`api/jobs.ts`, `handleCreateJob` background task) -/

inductive BuildEvent where
  | scaffolding
  | writing
  | installing
  | building
  | log (phase : Str) (message : Str)
deriving DecidableEq

inductive SSEEvent where
  | job_created (jobId : Str)
  | generating
  | generated (fileCount : Nat)
  | scaffolding
  | writing
  | installing
  | building
  | log (phase : Str) (message : Str)
  | starting
  | preview_ready (previewUrl : Str)
  | deploying
  | deploy_warning (message : Str)
  | deployed (deployedUrl : Str)
  | complete (previewUrl : Str) (deployedUrl : Str) (metrics : BuildMetrics)
  | errorEv (message : Str)
deriving DecidableEq

def buildEventToSSE : BuildEvent → SSEEvent
  | .scaffolding => .scaffolding
  | .writing => .writing
  | .installing => .installing
  | .building => .building
  | .log p m => .log p m

def LOG_RETENTION_MS : Nat := 24 * 60 * 60 * 1000

def createLogKey (jobId : Str) (t : Str) : Str :=
  txt "jobs/" ++ jobId ++ '/' :: (t ++ txt ".log")

/-- Modelled from the spec: `lib/worker-name.ts` (`buildWorkerName`) is not
among the sources; §4.3 specifies a deterministic, compact, DNS-label-safe
worker name derived from the job id. Only determinism and non-nullity are
used in any proof. -/
def buildWorkerName (jobId : Str) : Str :=
  txt "nimbus-" ++ jobId.filter
    (fun c => (97 ≤ c.toNat && c.toNat ≤ 122) || (48 ≤ c.toNat && c.toNat ≤ 57))

/-- `uploadLog`: null contents stay null; an R2 failure is swallowed into null. -/
def uploadLog (key : Str) (contents : Option Str) (ok : Bool) : Option Str :=
  match contents with
  | none => none
  | some _ => if ok then some key else none

/-- `createJob`: `INSERT INTO jobs (id, prompt, model, status) VALUES (?,?,?,'pending')`. -/
def createJob (db : List JobRecord) (id prompt model : Str) (now : Nat) : List JobRecord :=
  db ++ [{ id := id, prompt := prompt, model := model, status := txt "pending"
           created_at := now }]

structure BuildOk where
  sandboxId : Str
  installDurationMs : Int
  buildDurationMs : Int

/-- A rejection of `buildInSandbox`: `sandboxId` is set exactly when the
thrown value is a `SandboxBuildError`. -/
structure BuildFailInfo where
  message : Str
  sandboxId : Option Str := none

/-- External inputs of one pipeline task run: every awaited collaborator
result and every `Date.now()` / `new Date()` sample, in program order. -/
structure PipelineOracle where
  markRunningFails : Option Str := none
  gen : GenOracle
  buildEvents : List BuildEvent := []
  buildOutcome : Except BuildFailInfo BuildOk
  execDeploy : ExecResult
  execReadDeployLog : ExecResult
  buildLogRead : Option Str := none
  deployLogRead : Option Str := none
  uploadBuildOk : Bool := true
  uploadDeployOk : Bool := true
  markCompletedFails : Bool := false
  markFailedFails : Bool := false
  tStart : Nat := 0
  tDeployStart : Nat := 0
  tAfterDeploy : Nat := 0
  tExpiresBase : Nat := 0
  tCompleted : Nat := 0
  tMarkNow : Nat := 0
  tFailExpiresBase : Nat := 0
  tFailNow : Nat := 0

/-- The catch block of the pipeline task (`api/jobs.ts` lines 253–280):
best-effort log archive, best-effort `markJobFailed`, one `error` event.
`deployErrLog` is set when the thrown value was a `DeployError` (whose
sanitized log replaces the sandbox read). -/
def pipelineCatch (jobId : Str) (db : List JobRecord) (o : PipelineOracle)
    (message : Str) (sandboxToRead : Option Str) (deployErrLog : Option (Option Str))
    (workerName : Option Str) : List SSEEvent × List JobRecord :=
  let expiresAt := o.tFailExpiresBase + LOG_RETENTION_MS
  let keys : Option Str × Option Str :=
    match sandboxToRead with
    | none => (none, none)
    | some _ =>
      let deployLogContents := match deployErrLog with
        | some dl => dl
        | none => o.deployLogRead
      (uploadLog (createLogKey jobId (txt "build")) o.buildLogRead o.uploadBuildOk,
       uploadLog (createLogKey jobId (txt "deploy")) deployLogContents o.uploadDeployOk)
  let db2 :=
    if o.markFailedFails then db
    else
      match markJobFailed db jobId message none
          ⟨some expiresAt, workerName, keys.1, keys.2⟩ o.tFailNow with
      | .ok d => d
      | .error _ => db
  ([SSEEvent.errorEv message], db2)

/-- The asynchronous pipeline task of `handleCreateJob` (after the pending row
was inserted), returning the SSE events written to the stream in order and
the final store state. -/
def handleCreateJobTask (jobId prompt model : Str) (db0 : List JobRecord)
    (o : PipelineOracle) : List SSEEvent × List JobRecord :=
  let ev0 := [SSEEvent.job_created jobId]
  match o.markRunningFails with
  | some m =>
    let r := pipelineCatch jobId db0 o m none none none
    (ev0 ++ r.1, r.2)
  | none =>
    let db1 := match markJobRunning db0 jobId o.tStart with
      | .ok d => d
      | .error _ => db0
    let ev1 := ev0 ++ [SSEEvent.generating]
    match (generateCode model prompt o.gen).2 with
    | .genThrow m =>
      let r := pipelineCatch jobId db1 o m none none none
      (ev1 ++ r.1, r.2)
    | .genOk gr =>
      let nimbusConfig := parseNimbusConfig gr.files
      let files := if isNextWorkersConfig nimbusConfig then normalizeNextConfigFiles gr.files
        else gr.files
      let fileCount := files.length
      let linesOfCode : Int := files.foldl (fun s f => s + ((f.content.count '\n' : Int) + 1)) 0
      let ev2 := (ev1 ++ [SSEEvent.generated fileCount]) ++ o.buildEvents.map buildEventToSSE
      match o.buildOutcome with
      | .error bf =>
        let r := pipelineCatch jobId db1 o bf.message bf.sandboxId none none
        (ev2 ++ r.1, r.2)
      | .ok bres =>
        let workerName := some (buildWorkerName jobId)
        let ev3 := ev2 ++ [SSEEvent.deploying]
        match deployToWorkers o.execDeploy o.execReadDeployLog with
        | .deployErr m dl =>
          let r := pipelineCatch jobId db1 o m (some bres.sandboxId) (some dl) workerName
          (ev3 ++ r.1, r.2)
        | .ok deployedUrl deployLog =>
          let expiresAt := o.tExpiresBase + LOG_RETENTION_MS
          let deployLogContents := match deployLog with
            | some dl => some dl
            | none => o.deployLogRead
          let buildLogKey := uploadLog (createLogKey jobId (txt "build")) o.buildLogRead
            o.uploadBuildOk
          let deployLogKey := uploadLog (createLogKey jobId (txt "deploy")) deployLogContents
            o.uploadDeployOk
          let metrics : BuildMetrics :=
            { id := jobId, prompt := prompt, model := model
              promptTokens := gr.promptTokens, completionTokens := gr.completionTokens
              totalTokens := gr.totalTokens, cost := gr.cost, llmLatencyMs := gr.llmLatencyMs
              filesGenerated := (fileCount : Int), linesOfCode := linesOfCode
              buildSuccess := true, deploySuccess := true
              installDurationMs := bres.installDurationMs
              buildDurationMs := bres.buildDurationMs
              deployDurationMs := (o.tAfterDeploy : Int) - (o.tDeployStart : Int)
              totalDurationMs := (o.tCompleted : Int) - (o.tStart : Int)
              deployedUrl := deployedUrl, startedAt := o.tStart, completedAt := o.tCompleted }
          if o.markCompletedFails then
            let r := pipelineCatch jobId db1 o (txt "D1_ERROR") (some bres.sandboxId)
              none workerName
            (ev3 ++ r.1, r.2)
          else
            match markJobCompleted db1 jobId deployedUrl deployedUrl metrics
                ⟨some expiresAt, workerName, buildLogKey, deployLogKey⟩ o.tMarkNow with
            | .error m =>
              let r := pipelineCatch jobId db1 o m (some bres.sandboxId) none workerName
              (ev3 ++ r.1, r.2)
            | .ok db2 =>
              (ev3 ++ [SSEEvent.deployed deployedUrl,
                SSEEvent.complete deployedUrl deployedUrl metrics], db2)

/-! ## Cleanup sweeper (the scheduled cleanup worker) -/

def CLEANUP_LIMIT : Nat := 50

/-- Result of the worker-delete HTTP call: status plus the parsed body's
`success` field (`none` for an unparseable body). -/
structure DeleteApiResult where
  status : Nat
  bodySuccess : Option Bool := none

/-- `deleteWorker`: 404 counts as success, a non-2xx status or an explicit
`success: false` body is failure. -/
def deleteWorker (res : DeleteApiResult) : Bool :=
  if res.status = 404 then true
  else if ¬ (200 ≤ res.status ∧ res.status < 300) then false
  else if res.bodySuccess = some false then false
  else true

def bucketDelete (bucket : List Str) (k : Option Str) : List Str :=
  match k with
  | none => bucket
  | some key => bucket.filter (fun x => ¬ x = key)

/-- The sweeper's selection: status completed or failed, `expires_at` non-null
and at most `now`, at most `CLEANUP_LIMIT` rows. -/
def cleanupSelect (jobs : List JobRecord) (now : Nat) : List JobRecord :=
  (jobs.filter (fun j =>
    (j.status = txt "completed" || j.status = txt "failed") &&
      match j.expires_at with
      | some e => decide (e ≤ now)
      | none => false)).take CLEANUP_LIMIT

structure CleanupState where
  jobs : List JobRecord
  bucket : List Str
  aborted : Bool
deriving DecidableEq

/-- The sweeper's per-row loop. A failed worker delete skips the row. The
status update is `UPDATE jobs SET status = 'expired' WHERE id = ?`; when the
store rejects it the exception propagates and the whole sweep stops. -/
def cleanupLoop (deleteApi : Str → DeleteApiResult) :
    List JobRecord → CleanupState → CleanupState
  | [], st => st
  | r :: rest, st =>
    let proceed : Bool :=
      match r.worker_name with
      | some w => deleteWorker (deleteApi w)
      | none => true
    if ¬ proceed then cleanupLoop deleteApi rest st
    else
      let bucket2 := bucketDelete (bucketDelete st.bucket r.build_log_key) r.deploy_log_key
      match updateJobStatus st.jobs r.id (txt "expired") {} with
      | .ok jobs2 => cleanupLoop deleteApi rest ⟨jobs2, bucket2, st.aborted⟩
      | .error _ => ⟨st.jobs, bucket2, true⟩

/-- `cleanupExpiredJobs`: guard on credentials, select, then sweep. -/
def cleanupExpiredJobs (hasApiToken hasAccountId : Bool)
    (deleteApi : Str → DeleteApiResult) (now : Nat)
    (jobs : List JobRecord) (bucket : List Str) : CleanupState :=
  if ¬ (hasApiToken ∧ hasAccountId) then ⟨jobs, bucket, false⟩
  else cleanupLoop deleteApi (cleanupSelect jobs now) ⟨jobs, bucket, false⟩

/-- The two terminal SSE events of §4.1/§8: `complete` and `error`. -/
def isTerminalEvent : SSEEvent → Bool
  | .complete _ _ _ => true
  | .errorEv _ => true
  | _ => false

/-! ## A concrete successful pipeline run (all external collaborators succeed,
the sandbox build-log read returns null, the clock advances between the
post-deploy expiry sample and the completion update) -/

def demoResp : OpenRouterResponse :=
  { id := txt "gen-1"
    choices := [{ content := txt "\x7b\"files\":[]\x7d" }]
    usage := { prompt_tokens := 10, completion_tokens := 20, total_tokens := 30
               cost := some 1 } }

def demoGen : GenOracle :=
  { first := .fetchOk demoResp
    second := .fetchErr (txt "unused")
    genCost := .ok 0
    tStart := 5
    tEnd := 9 }

def demoOracle : PipelineOracle :=
  { gen := demoGen
    buildOutcome := .ok { sandboxId := txt "sb1", installDurationMs := 3, buildDurationMs := 4 }
    execDeploy := { exitCode := 0, stdout := [], stderr := [] }
    execReadDeployLog := { exitCode := 0, stdout := txt "https://app.workers.dev", stderr := [] }
    buildLogRead := none
    deployLogRead := none
    tStart := 100
    tDeployStart := 200
    tAfterDeploy := 300
    tExpiresBase := 400
    tCompleted := 500
    tMarkNow := 600 }

def demoPendingRow : JobRecord :=
  { id := txt "job_1", prompt := txt "p", model := txt "m"
    status := txt "pending", created_at := 50 }

/-- The log carried by a deploy outcome (returned on success, attached to the
thrown `DeployError` on failure). -/
def deployLogOf : DeployOutcome → Option Str
  | .ok _ l => l
  | .deployErr _ l => l

/-- No credential leak for one pattern: every complete occurrence of
`LIT"<quote-free value>"` in the text carries the value `[REDACTED]`. -/
def NoLeakP (lit t : Str) : Prop :=
  ∀ a v b, t = a ++ lit ++ qmark :: (v ++ qmark :: b) → qmark ∉ v → v = redactedVal

/-- A generated project for which the framework normalizer is not idempotent:
the astro config declares an `output:` whose string value is the only
`@astrojs/cloudflare` occurrence; the first pass rewrites that value away and
the second pass then prepends the cloudflare import. -/
def astroCexFiles : List GeneratedFile :=
  [⟨txt "astro.config.mjs", txt "output:\"@astrojs/cloudflare\" adapter:cloudflare"⟩,
   ⟨txt "nimbus.config.json", txt "\x7b\"framework\":\"astro\",\"target\":\"workers\"\x7d"⟩]

/-! ## Parser fuel measure and canonical values (for the round-trip analysis) -/

mutual

/-- Fuel needed by `pVal` to parse the printed form of a value. -/
def jfuel : Json → Nat
  | Json.jnull => 1
  | Json.jbool _ => 1
  | Json.jnum _ _ => 1
  | Json.jstr _ => 1
  | Json.jarr xs => 1 + jfuelL xs
  | Json.jobj fs => 1 + jfuelF fs
termination_by v => sizeOf v

def jfuelL : List Json → Nat
  | [] => 1
  | x :: xs => 1 + jfuel x + jfuelL xs
termination_by l => sizeOf l

def jfuelF : List (Str × Json) → Nat
  | [] => 1
  | (_, v) :: fs => 1 + jfuel v + jfuelF fs
termination_by l => sizeOf l

end

/-- Values the parser can produce: canonical numbers, and objects with
distinct keys (`JSON.parse` deduplicates repeated names). On such values the
printer is a right inverse of the parser. -/
inductive Canon : Json → Prop where
  | cnull : Canon Json.jnull
  | cbool (b : Bool) : Canon (Json.jbool b)
  | cnum (m e : Int) (h : canonNum m e = true) : Canon (Json.jnum m e)
  | cstr (s : Str) : Canon (Json.jstr s)
  | carr (xs : List Json) (h : ∀ x ∈ xs, Canon x) : Canon (Json.jarr xs)
  | cobj (fs : List (Str × Json)) (hk : (fs.map Prod.fst).Nodup)
      (h : ∀ p ∈ fs, Canon p.2) : Canon (Json.jobj fs)

/-- The character (if any) following a printed number must not extend the
number token. Holds for every delimiter the printer emits. -/
def numDelimOk (rest : Str) : Prop :=
  ∀ ch, rest.head? = some ch →
    isDigitCh ch = false ∧ ¬ ch = '.' ∧ ¬ ch = 'e' ∧ ¬ ch = 'E'

/-- The explicit-config branch of `resolveFramework`, split out for analysis. -/
def resolveDirect : Option Json → Option FrameworkDefinition
  | none => none
  | some c =>
    match jGet c (txt "framework") with
    | none => none
    | some fv =>
      if truthy fv then
        match fv with
        | Json.jstr sid => frameworkMapGet sid
        | _ => none
      else none
def detPred (fl : List GeneratedFile) (p : Option Json) (fw : FrameworkDefinition) : Bool :=
  match fw.detect with
  | some d => d ⟨fl, p⟩
  | none => false

/-! # Theorems -/

/-! ## Supporting lemmas for the global-replace driver -/

theorem findVarMatch_drop_lt (lit : Str) :
    ∀ s p v b, findVarMatch lit s = some (p, v, b) → b.length < s.length := by
  intro s
  induction s with
  | nil => intro p v b h; simp [findVarMatch] at h
  | cons c t ih =>
    intro p v b h
    rw [findVarMatch] at h
    split at h
    · simp only [] at h
      split at h
      · simp only [Option.some.injEq, Prod.mk.injEq] at h
        obtain ⟨-, -, h3⟩ := h
        subst h3
        simp only [List.length_drop, List.length_cons] at *
        omega
      · simp only [Option.map_eq_some'] at h
        obtain ⟨⟨p2, v2, b2⟩, hm, he⟩ := h
        have := ih p2 v2 b2 hm
        simp only [Prod.mk.injEq] at he
        obtain ⟨-, -, he3⟩ := he
        subst he3
        simp only [List.length_cons]
        omega
    · simp only [Option.map_eq_some'] at h
      obtain ⟨⟨p2, v2, b2⟩, hm, he⟩ := h
      have := ih p2 v2 b2 hm
      simp only [Prod.mk.injEq] at he
      obtain ⟨-, -, he3⟩ := he
      subst he3
      simp only [List.length_cons]
      omega

theorem redactVarGo_fuel (lit : Str) :
    ∀ f1 f2 s, s.length ≤ f1 → s.length ≤ f2 →
      redactVarGo lit f1 s = redactVarGo lit f2 s := by
  intro f1
  induction f1 with
  | zero =>
    intro f2 s h1 h2
    have hnil : s = [] := List.length_eq_zero.mp (Nat.le_zero.mp h1)
    subst hnil
    cases f2 <;> simp [redactVarGo, findVarMatch]
  | succ n ih =>
    intro f2 s h1 h2
    rcases hm : findVarMatch lit s with _ | ⟨p, v, b⟩
    · cases f2 <;> simp [redactVarGo, hm]
    · have hs : s ≠ [] := by
        intro hnil
        subst hnil
        simp [findVarMatch] at hm
      have hpos : 1 ≤ s.length := by
        cases s
        · exact absurd rfl hs
        · simp
      rcases f2 with _ | k
      · omega
      · have hb := findVarMatch_drop_lt lit s p v b hm
        simp only [redactVarGo, hm]
        rw [ih k b (by omega) (by omega)]


/-! ## Supporting lemmas for the list projection -/

theorem mem_insertByCreatedDesc {x y : JobRecord} {l : List JobRecord} :
    x ∈ insertByCreatedDesc y l → x = y ∨ x ∈ l := by
  induction l with
  | nil => intro h; simpa [insertByCreatedDesc] using h
  | cons z t ih =>
    intro h
    rw [insertByCreatedDesc] at h
    by_cases hc : z.created_at < y.created_at
    · rw [if_pos hc] at h
      simp only [List.mem_cons] at h
      rcases h with h | h
      · exact Or.inl h
      · exact Or.inr (by simpa using h)
    · rw [if_neg hc] at h
      simp only [List.mem_cons] at h
      rcases h with h | h
      · exact Or.inr (by simp [h])
      · rcases ih h with h2 | h2
        · exact Or.inl h2
        · exact Or.inr (by simp [h2])

theorem mem_sortByCreatedDesc {x : JobRecord} {db : List JobRecord} :
    x ∈ sortByCreatedDesc db → x ∈ db := by
  induction db with
  | nil => intro h; simp [sortByCreatedDesc] at h
  | cons y t ih =>
    intro h
    rw [sortByCreatedDesc, List.foldr_cons] at h
    rcases mem_insertByCreatedDesc h with h2 | h2
    · simp [h2]
    · exact List.mem_cons_of_mem y (ih h2)

/-- C9 (corrected). The claim as stated appends `"…"` (U+2026); the code
appends three ASCII dots. At a prompt of 101 copies of `a` the projected
prompt is the first 100 characters followed by `"..."`, not `"…"`. -/
theorem c9_counterexample :
    (toJobListItem
      { id := txt "job_aaaaaaaa"
        prompt := List.replicate 101 'a'
        model := txt "m"
        status := txt "completed"
        created_at := 0 }).prompt ≠ List.replicate 100 'a' ++ txt "…" ∧
    (toJobListItem
      { id := txt "job_aaaaaaaa"
        prompt := List.replicate 101 'a'
        model := txt "m"
        status := txt "completed"
        created_at := 0 }).prompt = List.replicate 100 'a' ++ txt "..." := by
  constructor
  · decide
  · decide

/-- C9 (amended): the `listJobs` projection leaves a prompt of length at most
100 (in particular exactly 100) unchanged, truncates a longer prompt to its
first 100 characters followed by `"..."` (three ASCII dots), carries exactly
the identity, model, status, creation-time and deployed-URL columns alongside
it, and every item `listJobs` returns is this projection of a stored row. -/
theorem c9_listJobs_truncation :
    (∀ r : JobRecord,
      (r.prompt.length ≤ 100 → (toJobListItem r).prompt = r.prompt) ∧
      (100 < r.prompt.length →
        (toJobListItem r).prompt = r.prompt.take 100 ++ txt "...") ∧
      (toJobListItem r).id = r.id ∧ (toJobListItem r).model = r.model ∧
      (toJobListItem r).status = r.status ∧ (toJobListItem r).createdAt = r.created_at ∧
      (toJobListItem r).deployedUrl = r.deployed_url) ∧
    (∀ (db : List JobRecord) (limit : Nat) (it : JobListItem),
      it ∈ listJobs db limit → ∃ r ∈ db, it = toJobListItem r) := by
  constructor
  · intro r
    refine ⟨?_, ?_, rfl, rfl, rfl, rfl, rfl⟩
    · intro h
      simp only [toJobListItem]
      rw [if_neg (by omega)]
    · intro h
      simp only [toJobListItem]
      rw [if_pos h]
  · intro db limit it hit
    simp only [listJobs, List.mem_map] at hit
    obtain ⟨r, hr, hval⟩ := hit
    exact ⟨r, mem_sortByCreatedDesc (List.mem_of_mem_take hr), hval.symm⟩

/-- Witness for the amended C9 at concrete inputs: a 100-character prompt is
untruncated and a 101-character prompt is truncated with `"..."`. -/
theorem c9_witness :
    (toJobListItem
      { id := txt "j"
        prompt := List.replicate 100 'a'
        model := txt "m"
        status := txt "pending"
        created_at := 0 }).prompt = List.replicate 100 'a' ∧
    (toJobListItem
      { id := txt "j"
        prompt := List.replicate 101 'a'
        model := txt "m"
        status := txt "pending"
        created_at := 0 }).prompt = (List.replicate 101 'a').take 100 ++ txt "..." := by
  constructor
  · exact ((c9_listJobs_truncation.1 _).1 (by decide))
  · exact ((c9_listJobs_truncation.1 _).2.1 (by decide))

theorem requireAuth_pass {t h : Str} (ht : t ≠ []) (hEq : h = t) :
    requireAuth (some t) (some h) = none := by
  subst hEq
  simp [requireAuth, ht]

theorem requireAuth_fail {t : Str} {hdr : Option Str} (ht : t ≠ []) (hne : hdr ≠ some t) :
    requireAuth (some t) hdr =
      some ⟨401, jsonCT, errBody (txt "Unauthorized")⟩ := by
  simp only [requireAuth, ht]
  rw [if_neg (by simp [ht]), if_pos (by simpa using hne)]

theorem handleGetJobLogs_authed_not401 {t : Str} (ht : t ≠ [])
    (qtype : Option Str) (dbKeys : Except Str (Option JobLogKeys))
    (bucketObj : Except Str (Option Str)) :
    (handleGetJobLogs (some t) (some t) qtype dbKeys bucketObj).status ≠ 401 := by
  simp only [handleGetJobLogs, requireAuth_pass ht rfl]
  (repeat' split) <;> simp

/-- C10 (confirmed). For every request to the logs endpoint: an absent or
empty `AUTH_TOKEN` yields the 500 `AUTH_TOKEN not configured` response no
matter what `Auth` header was sent, and when `AUTH_TOKEN` is configured the
response is a 401 exactly when the header is missing or different. -/
theorem c10_requireAuth_gate :
    (∀ (authToken authHeader qtype : Option Str)
       (dbKeys : Except Str (Option JobLogKeys)) (bucketObj : Except Str (Option Str)),
      (authToken = none ∨ authToken = some []) →
      handleGetJobLogs authToken authHeader qtype dbKeys bucketObj =
        ⟨500, jsonCT, errBody (txt "AUTH_TOKEN not configured")⟩) ∧
    (∀ (t : Str) (authHeader qtype : Option Str)
       (dbKeys : Except Str (Option JobLogKeys)) (bucketObj : Except Str (Option Str)),
      t ≠ [] →
      ((handleGetJobLogs (some t) authHeader qtype dbKeys bucketObj).status = 401 ↔
        authHeader ≠ some t)) := by
  constructor
  · intro authToken authHeader qtype dbKeys bucketObj h
    rcases h with h | h <;> subst h <;> simp [handleGetJobLogs, requireAuth]
  · intro t authHeader qtype dbKeys bucketObj ht
    constructor
    · intro h401
      intro hEq
      subst hEq
      exact handleGetJobLogs_authed_not401 ht qtype dbKeys bucketObj h401
    · intro hne
      simp [handleGetJobLogs, requireAuth_fail ht hne]

/-- Witness for C10: with token `s`, an unconfigured token gives the 500, a
missing header gives 401, and a matching header does not. -/
theorem c10_witness :
    handleGetJobLogs none (some (txt "s")) (some (txt "build")) (.ok none) (.ok none) =
      ⟨500, jsonCT, errBody (txt "AUTH_TOKEN not configured")⟩ ∧
    ((handleGetJobLogs (some (txt "s")) none (some (txt "build")) (.ok none)
        (.ok none)).status = 401 ↔ (none : Option Str) ≠ some (txt "s")) ∧
    ((handleGetJobLogs (some (txt "s")) (some (txt "s")) (some (txt "build")) (.ok none)
        (.ok none)).status = 401 ↔ (some (txt "s") : Option Str) ≠ some (txt "s")) := by
  refine ⟨c10_requireAuth_gate.1 none (some (txt "s")) (some (txt "build")) (.ok none)
    (.ok none) (Or.inl rfl), ?_, ?_⟩
  · exact c10_requireAuth_gate.2 (txt "s") none (some (txt "build")) (.ok none) (.ok none)
      (by decide)
  · exact c10_requireAuth_gate.2 (txt "s") (some (txt "s")) (some (txt "build")) (.ok none)
      (.ok none) (by decide)

/-- C2 (code bug). The jobs-table status constraint of migration 0001 —
unchanged by the `ALTER TABLE … ADD COLUMN` migrations 0002 and 0003 — admits
only the four values `pending`, `running`, `completed`, `failed`. The
sweeper's `UPDATE jobs SET status = 'expired'` therefore violates the
constraint on every row it tries to expire: here, a completed job selected
for cleanup. -/
theorem c2_status_constraint_rejects_expired :
    statusCheck (txt "pending") = true ∧ statusCheck (txt "running") = true ∧
    statusCheck (txt "completed") = true ∧ statusCheck (txt "failed") = true ∧
    statusCheck (txt "expired") = false ∧
    updateJobStatus
      [{ id := txt "job_aaaaaaaa"
         prompt := txt "p"
         model := txt "m"
         status := txt "completed"
         created_at := 0
         expires_at := some 5 }]
      (txt "job_aaaaaaaa") (txt "expired") {} =
      .error (txt "CHECK constraint failed: jobs") := by
  exact ⟨rfl, rfl, rfl, rfl, rfl, rfl⟩

/-- C8 (code bug). A sweep over two eligible rows — the first with no worker
to delete, the second with a worker whose delete returns HTTP 200 — should,
per the claim, delete both rows' log objects and set both statuses to
`expired`. Instead the first row's status update is rejected by the
four-value status constraint, the exception aborts the whole sweep, no row's
status changes, and the second row is never processed (its log objects stay).
The 404-as-success and non-2xx-as-failure behavior of `deleteWorker` is as
claimed. -/
theorem c8_cleanup_aborts_on_expire :
    cleanupExpiredJobs true true (fun _ => ⟨200, some true⟩) 10
      [{ id := txt "job_aaaaaaaa"
         prompt := txt "p"
         model := txt "m"
         status := txt "completed"
         created_at := 0
         build_log_key := some (txt "jobs/job_aaaaaaaa/build.log")
         deploy_log_key := some (txt "jobs/job_aaaaaaaa/deploy.log")
         expires_at := some 5 },
       { id := txt "job_bbbbbbbb"
         prompt := txt "p"
         model := txt "m"
         status := txt "failed"
         created_at := 1
         build_log_key := some (txt "jobs/job_bbbbbbbb/build.log")
         deploy_log_key := some (txt "jobs/job_bbbbbbbb/deploy.log")
         worker_name := some (txt "nimbus-bbbbbbbb")
         expires_at := some 6 }]
      [txt "jobs/job_aaaaaaaa/build.log", txt "jobs/job_aaaaaaaa/deploy.log",
       txt "jobs/job_bbbbbbbb/build.log", txt "jobs/job_bbbbbbbb/deploy.log"] =
      ⟨[{ id := txt "job_aaaaaaaa"
          prompt := txt "p"
          model := txt "m"
          status := txt "completed"
          created_at := 0
          build_log_key := some (txt "jobs/job_aaaaaaaa/build.log")
          deploy_log_key := some (txt "jobs/job_aaaaaaaa/deploy.log")
          expires_at := some 5 },
        { id := txt "job_bbbbbbbb"
          prompt := txt "p"
          model := txt "m"
          status := txt "failed"
          created_at := 1
          build_log_key := some (txt "jobs/job_bbbbbbbb/build.log")
          deploy_log_key := some (txt "jobs/job_bbbbbbbb/deploy.log")
          worker_name := some (txt "nimbus-bbbbbbbb")
          expires_at := some 6 }],
       [txt "jobs/job_bbbbbbbb/build.log", txt "jobs/job_bbbbbbbb/deploy.log"],
       true⟩ ∧
    deleteWorker ⟨404, none⟩ = true ∧
    deleteWorker ⟨500, none⟩ = false ∧
    deleteWorker ⟨200, some false⟩ = false ∧
    deleteWorker ⟨200, some true⟩ = true := by
  exact ⟨rfl, rfl, rfl, rfl, rfl⟩

/-! ## C6: framework resolution order -/

theorem detectPred_astro {files : List GeneratedFile} {pkg : Option Json} :
    (fun fw : FrameworkDefinition =>
      match fw.detect with
      | some d => d ⟨files, pkg⟩
      | none => false) astroDefinition = astroDetect ⟨files, pkg⟩ := rfl

theorem detectPred_next {files : List GeneratedFile} {pkg : Option Json} :
    (fun fw : FrameworkDefinition =>
      match fw.detect with
      | some d => d ⟨files, pkg⟩
      | none => false) nextDefinition = nextDetect ⟨files, pkg⟩ := rfl

/-- C6 (confirmed). An explicit `config.framework` naming a registry id wins
for every file list and package data (detectors are never consulted);
otherwise the first framework in registry order — astro before next — whose
detector fires wins; otherwise no framework is resolved. -/
theorem c6_resolveFramework_order :
    (∀ (files : List GeneratedFile) (pkg : Option Json) (c : Json),
      jGet c (txt "framework") = some (Json.jstr (txt "astro")) →
      resolveFramework (some c) files pkg = some astroDefinition) ∧
    (∀ (files : List GeneratedFile) (pkg : Option Json) (c : Json),
      jGet c (txt "framework") = some (Json.jstr (txt "next")) →
      resolveFramework (some c) files pkg = some nextDefinition) ∧
    (∀ (files : List GeneratedFile) (pkg : Option Json) (config : Option Json),
      (∀ c, config = some c → ∀ s, jGet c (txt "framework") = some (Json.jstr s) →
        frameworkMapGet s = none) →
      (astroDetect ⟨files, pkg⟩ = true →
        resolveFramework config files pkg = some astroDefinition) ∧
      (astroDetect ⟨files, pkg⟩ = false → nextDetect ⟨files, pkg⟩ = true →
        resolveFramework config files pkg = some nextDefinition) ∧
      (astroDetect ⟨files, pkg⟩ = false → nextDetect ⟨files, pkg⟩ = false →
        resolveFramework config files pkg = none)) := by
  have hdirectNone : ∀ (files : List GeneratedFile) (pkg : Option Json) (config : Option Json),
      (∀ c, config = some c → ∀ s, jGet c (txt "framework") = some (Json.jstr s) →
        frameworkMapGet s = none) →
      resolveFramework config files pkg =
        FRAMEWORKS.find? (fun fw =>
          match fw.detect with
          | some d => d ⟨files, pkg⟩
          | none => false) := by
    intro files pkg config hyp
    rcases config with _ | c
    · rfl
    · simp only [resolveFramework]
      rcases hfv : jGet c (txt "framework") with _ | fv
    --
      · rfl
      · dsimp only
        by_cases ht : truthy fv = true
        · rw [if_pos ht]
          rcases fv with _ | b | ⟨m, e⟩ | s | xs | fs
          · rfl
          · rfl
          · rfl
          · dsimp only
            rw [hyp c rfl s hfv]
          · rfl
          · rfl
        · rw [if_neg ht]
  refine ⟨?_, ?_, ?_⟩
  · intro files pkg c h
    simp only [resolveFramework, h]
    rfl
  · intro files pkg c h
    simp only [resolveFramework, h]
    rfl
  · intro files pkg config hyp
    have heq := hdirectNone files pkg config hyp
    have hl : FRAMEWORKS = [astroDefinition, nextDefinition] := rfl
    refine ⟨?_, ?_, ?_⟩
    · intro ha
      rw [heq, hl]
      exact List.find?_cons_of_pos _ ha
    · intro ha hn
      rw [heq, hl]
      rw [List.find?_cons_of_neg]
      · exact List.find?_cons_of_pos _ hn
      · show ¬ (astroDetect ⟨files, pkg⟩ = true)
        simp [ha]
    · intro ha hn
      rw [heq, hl]
      rw [List.find?_cons_of_neg]
      · rw [List.find?_cons_of_neg]
        · rfl
        · show ¬ (nextDetect ⟨files, pkg⟩ = true)
          simp [hn]
      · show ¬ (astroDetect ⟨files, pkg⟩ = true)
        simp [ha]

/-- Witness for C6: an explicit astro config beats a file tree that would
detect nothing; without a config the astro detector (config file present)
wins; with nothing at all no framework is resolved. -/
theorem c6_witness :
    resolveFramework (some (Json.jobj [(txt "framework", Json.jstr (txt "astro"))])) [] none =
      some astroDefinition ∧
    resolveFramework none [⟨txt "astro.config.mjs", txt "x"⟩] none = some astroDefinition ∧
    resolveFramework none [] none = none := by
  refine ⟨c6_resolveFramework_order.1 [] none _ (by rfl), ?_, ?_⟩
  · exact ((c6_resolveFramework_order.2.2 [⟨txt "astro.config.mjs", txt "x"⟩] none none
      (by intro c hc; cases hc)).1 (by decide))
  · exact ((c6_resolveFramework_order.2.2 [] none none
      (by intro c hc; cases hc)).2.2 (by decide) (by decide))

/-- C5 (confirmed). The first provider request carries the strict JSON-schema
descriptor. A first-request failure whose message matches the
`response_format|structured output|json_schema|schema` test (case-insensitive)
triggers exactly one retry with the same request minus the descriptor; when
the message does not match, the error is rethrown without any retry; a
failure of the retry is thrown without a third request. -/
theorem c5_generateCode_retry :
    ∀ (model prompt : Str) (o : GenOracle),
      ((generateCode model prompt o).1.head? =
        some { baseRequest model prompt with responseFormat := some RESPONSE_FORMAT }) ∧
      (∀ resp, o.first = .fetchOk resp →
        (generateCode model prompt o).1 =
          [{ baseRequest model prompt with responseFormat := some RESPONSE_FORMAT }]) ∧
      (∀ m, o.first = .fetchErr m → isResponseFormatUnsupported m = false →
        (generateCode model prompt o).1 =
          [{ baseRequest model prompt with responseFormat := some RESPONSE_FORMAT }] ∧
        (generateCode model prompt o).2 = .genThrow m) ∧
      (∀ m, o.first = .fetchErr m → isResponseFormatUnsupported m = true →
        (generateCode model prompt o).1 =
          [{ baseRequest model prompt with responseFormat := some RESPONSE_FORMAT },
           baseRequest model prompt] ∧
        (∀ m2, o.second = .fetchErr m2 →
          (generateCode model prompt o).2 = .genThrow m2)) := by
  intro model prompt o
  refine ⟨?_, ?_, ?_, ?_⟩
  · rcases hf : o.first with m | resp
    · by_cases hm : isResponseFormatUnsupported m = true
      · rcases hs : o.second with m2 | resp2 <;>
          simp [generateCode, hf, hm, hs]
      · simp only [Bool.not_eq_true] at hm
        simp [generateCode, hf, hm]
    · simp [generateCode, hf]
  · intro resp hf
    simp [generateCode, hf]
  · intro m hf hm
    simp [generateCode, hf, hm]
  · intro m hf hm
    constructor
    · rcases hs : o.second with m2 | resp2 <;> simp [generateCode, hf, hm, hs]
    · intro m2 hs
      simp [generateCode, hf, hm, hs]

/-- Witness for C5: a schema-rejection message retries once without the
descriptor and surfaces the retry's failure; an unrelated network error is
rethrown without a retry. -/
theorem c5_witness :
    ((generateCode (txt "m") (txt "p")
        { first := .fetchErr (txt "response_format not supported")
          second := .fetchErr (txt "boom")
          genCost := .ok 0
          tStart := 0
          tEnd := 5 }).1 =
      [{ baseRequest (txt "m") (txt "p") with responseFormat := some RESPONSE_FORMAT },
       baseRequest (txt "m") (txt "p")] ∧
     (generateCode (txt "m") (txt "p")
        { first := .fetchErr (txt "response_format not supported")
          second := .fetchErr (txt "boom")
          genCost := .ok 0
          tStart := 0
          tEnd := 5 }).2 = .genThrow (txt "boom")) ∧
    ((generateCode (txt "m") (txt "p")
        { first := .fetchErr (txt "network timeout")
          second := .fetchErr (txt "unused")
          genCost := .ok 0
          tStart := 0
          tEnd := 5 }).1 =
      [{ baseRequest (txt "m") (txt "p") with responseFormat := some RESPONSE_FORMAT }] ∧
     (generateCode (txt "m") (txt "p")
        { first := .fetchErr (txt "network timeout")
          second := .fetchErr (txt "unused")
          genCost := .ok 0
          tStart := 0
          tEnd := 5 }).2 = .genThrow (txt "network timeout")) := by
  constructor
  · constructor
    · exact ((c5_generateCode_retry (txt "m") (txt "p") _).2.2.2
        (txt "response_format not supported") rfl (by decide)).1
    · exact ((c5_generateCode_retry (txt "m") (txt "p") _).2.2.2
        (txt "response_format not supported") rfl (by decide)).2 (txt "boom") rfl
  · exact (c5_generateCode_retry (txt "m") (txt "p") _).2.2.1
      (txt "network timeout") rfl (by decide)

/-! ## C3: one terminal SSE event, last on the stream -/

theorem buildEventToSSE_not_terminal (e : BuildEvent) :
    isTerminalEvent (buildEventToSSE e) = false := by
  cases e <;> rfl

theorem terminal_shape {pre : List SSEEvent} {last : SSEEvent}
    (hpre : ∀ e ∈ pre, isTerminalEvent e = false) (hlast : isTerminalEvent last = true) :
    (pre ++ [last]).countP (fun e => isTerminalEvent e) = 1 ∧
    (pre ++ [last]).getLast? = some last ∧
    (∀ e ∈ (pre ++ [last]).dropLast, isTerminalEvent e = false) := by
  refine ⟨?_, ?_, ?_⟩
  · rw [List.countP_append]
    have h1 : pre.countP (fun e => isTerminalEvent e) = 0 :=
      List.countP_eq_zero.mpr (by simpa using hpre)
    simp [h1, List.countP_cons, hlast]
  · rw [List.getLast?_append]
    rfl
  · rw [List.dropLast_concat]
    exact hpre

/-- C3 (confirmed). Every pipeline task run writes exactly one terminal event,
that event is the last one on the stream, and it is a `complete` exactly when
every stage succeeded (mark-running, generation, build, deploy and the final
store write), an `error` otherwise. -/
theorem c3_sse_single_terminal :
    ∀ (jobId prompt model : Str) (db0 : List JobRecord) (o : PipelineOracle),
      ((handleCreateJobTask jobId prompt model db0 o).1.countP
          (fun e => isTerminalEvent e) = 1) ∧
      (∃ e, (handleCreateJobTask jobId prompt model db0 o).1.getLast? = some e ∧
        isTerminalEvent e = true) ∧
      (∀ e ∈ (handleCreateJobTask jobId prompt model db0 o).1.dropLast,
        isTerminalEvent e = false) ∧
      ((∃ u1 u2 m, (handleCreateJobTask jobId prompt model db0 o).1.getLast? =
          some (SSEEvent.complete u1 u2 m)) ↔
        (o.markRunningFails = none ∧
          (∃ gr, (generateCode model prompt o.gen).2 = GenResult.genOk gr) ∧
          (∃ b, o.buildOutcome = .ok b) ∧
          (∃ u dl, deployToWorkers o.execDeploy o.execReadDeployLog =
            DeployOutcome.ok u dl) ∧
          o.markCompletedFails = false)) := by
  intro jobId prompt model db0 o
  have hmap : ∀ e ∈ o.buildEvents.map buildEventToSSE, isTerminalEvent e = false := by
    intro e he
    rcases List.mem_map.mp he with ⟨b, _, hb⟩
    rw [← hb]
    exact buildEventToSSE_not_terminal b
  rcases hf : o.markRunningFails with _ | m
  case some =>
    have hevs : (handleCreateJobTask jobId prompt model db0 o).1 =
        [SSEEvent.job_created jobId] ++ [SSEEvent.errorEv m] := by
      simp [handleCreateJobTask, pipelineCatch, hf]
    rw [hevs]
    have hsh := @terminal_shape ([SSEEvent.job_created jobId])
      (SSEEvent.errorEv m) (by intro e he; simp at he; simp [he, isTerminalEvent])
      rfl
    refine ⟨hsh.1, ⟨_, hsh.2.1, rfl⟩, hsh.2.2, ?_⟩
    rw [hsh.2.1]
    simp [hf]
  case none =>
  rcases hg : (generateCode model prompt o.gen).2 with gr | m
  case genThrow =>
    have hevs : (handleCreateJobTask jobId prompt model db0 o).1 =
        [SSEEvent.job_created jobId, SSEEvent.generating] ++ [SSEEvent.errorEv m] := by
      simp [handleCreateJobTask, pipelineCatch, hf, hg]
    rw [hevs]
    have hsh := @terminal_shape ([SSEEvent.job_created jobId, SSEEvent.generating])
      (SSEEvent.errorEv m)
      (by intro e he; simp at he; rcases he with h | h <;> simp [h, isTerminalEvent]) rfl
    refine ⟨hsh.1, ⟨_, hsh.2.1, rfl⟩, hsh.2.2, ?_⟩
    rw [hsh.2.1]
    simp [hg]
  case genOk =>
  rcases hb : o.buildOutcome with bf | bres
  case error =>
    have hevs : (handleCreateJobTask jobId prompt model db0 o).1 =
        ([SSEEvent.job_created jobId, SSEEvent.generating,
          SSEEvent.generated (if isNextWorkersConfig (parseNimbusConfig gr.files) then
            normalizeNextConfigFiles gr.files else gr.files).length] ++
          o.buildEvents.map buildEventToSSE) ++ [SSEEvent.errorEv bf.message] := by
      simp [handleCreateJobTask, pipelineCatch, hf, hg, hb]
    rw [hevs]
    have hsh := @terminal_shape
      ([SSEEvent.job_created jobId, SSEEvent.generating,
        SSEEvent.generated (if isNextWorkersConfig (parseNimbusConfig gr.files) then
          normalizeNextConfigFiles gr.files else gr.files).length] ++
        o.buildEvents.map buildEventToSSE)
      (SSEEvent.errorEv bf.message)
      (by
        intro e he
        rcases List.mem_append.mp he with h | h
        · simp at h
          rcases h with h | h | h <;> simp [h, isTerminalEvent]
        · exact hmap e h) rfl
    refine ⟨hsh.1, ⟨_, hsh.2.1, rfl⟩, hsh.2.2, ?_⟩
    rw [hsh.2.1]
    simp [hb]
  case ok =>
  rcases hd : deployToWorkers o.execDeploy o.execReadDeployLog with ⟨u, dl⟩ | ⟨m, dl⟩
  case deployErr =>
    have hevs : (handleCreateJobTask jobId prompt model db0 o).1 =
        (([SSEEvent.job_created jobId, SSEEvent.generating,
          SSEEvent.generated (if isNextWorkersConfig (parseNimbusConfig gr.files) then
            normalizeNextConfigFiles gr.files else gr.files).length] ++
          o.buildEvents.map buildEventToSSE) ++ [SSEEvent.deploying]) ++
          [SSEEvent.errorEv m] := by
      simp [handleCreateJobTask, pipelineCatch, hf, hg, hb, hd]
    rw [hevs]
    have hsh := @terminal_shape
      (([SSEEvent.job_created jobId, SSEEvent.generating,
        SSEEvent.generated (if isNextWorkersConfig (parseNimbusConfig gr.files) then
          normalizeNextConfigFiles gr.files else gr.files).length] ++
        o.buildEvents.map buildEventToSSE) ++ [SSEEvent.deploying])
      (SSEEvent.errorEv m)
      (by
        intro e he
        rcases List.mem_append.mp he with h | h
        · rcases List.mem_append.mp h with h2 | h2
          · simp at h2
            rcases h2 with h2 | h2 | h2 <;> simp [h2, isTerminalEvent]
          · exact hmap e h2
        · simp at h
          simp [h, isTerminalEvent]) rfl
    refine ⟨hsh.1, ⟨_, hsh.2.1, rfl⟩, hsh.2.2, ?_⟩
    rw [hsh.2.1]
    simp [hd]
  case ok =>
  rcases hmc : o.markCompletedFails with _ | _
  case true =>
    have hevs : (handleCreateJobTask jobId prompt model db0 o).1 =
        (([SSEEvent.job_created jobId, SSEEvent.generating,
          SSEEvent.generated (if isNextWorkersConfig (parseNimbusConfig gr.files) then
            normalizeNextConfigFiles gr.files else gr.files).length] ++
          o.buildEvents.map buildEventToSSE) ++ [SSEEvent.deploying]) ++
          [SSEEvent.errorEv (txt "D1_ERROR")] := by
      simp [handleCreateJobTask, pipelineCatch, hf, hg, hb, hd, hmc]
    rw [hevs]
    have hsh := @terminal_shape
      (([SSEEvent.job_created jobId, SSEEvent.generating,
        SSEEvent.generated (if isNextWorkersConfig (parseNimbusConfig gr.files) then
          normalizeNextConfigFiles gr.files else gr.files).length] ++
        o.buildEvents.map buildEventToSSE) ++ [SSEEvent.deploying])
      (SSEEvent.errorEv (txt "D1_ERROR"))
      (by
        intro e he
        rcases List.mem_append.mp he with h | h
        · rcases List.mem_append.mp h with h2 | h2
          · simp at h2
            rcases h2 with h2 | h2 | h2 <;> simp [h2, isTerminalEvent]
          · exact hmap e h2
        · simp at h
          simp [h, isTerminalEvent]) rfl
    refine ⟨hsh.1, ⟨_, hsh.2.1, rfl⟩, hsh.2.2, ?_⟩
    rw [hsh.2.1]
    simp [hmc]
  case false =>
    have hup : ∀ (db : List JobRecord) (f : AdditionalFields),
        updateJobStatus db jobId (txt "completed") f =
          .ok (db.map (fun r => if r.id = jobId then
            applyFields r (txt "completed") f else r)) := by
      intro db f
      unfold updateJobStatus
      rw [if_pos (Or.inl (by decide))]
    obtain ⟨met, hevs⟩ : ∃ met,
        (handleCreateJobTask jobId prompt model db0 o).1 =
          (([SSEEvent.job_created jobId, SSEEvent.generating,
            SSEEvent.generated (if isNextWorkersConfig (parseNimbusConfig gr.files) then
              normalizeNextConfigFiles gr.files else gr.files).length] ++
            o.buildEvents.map buildEventToSSE) ++ [SSEEvent.deploying]) ++
            [SSEEvent.deployed u, SSEEvent.complete u u met] :=
      ⟨_, by simp [handleCreateJobTask, hf, hg, hb, hd, hmc, markJobCompleted, hup]; rfl⟩
    have hregroup : ∀ (P : List SSEEvent) (a b : SSEEvent), P ++ [a, b] = (P ++ [a]) ++ [b] := by
      intro P a b
      simp
    rw [hevs, hregroup]
    have hsh := @terminal_shape
      ((([SSEEvent.job_created jobId, SSEEvent.generating,
        SSEEvent.generated (if isNextWorkersConfig (parseNimbusConfig gr.files) then
          normalizeNextConfigFiles gr.files else gr.files).length] ++
        o.buildEvents.map buildEventToSSE) ++ [SSEEvent.deploying]) ++
        [SSEEvent.deployed u])
      (SSEEvent.complete u u met)
      (by
        intro e he
        rcases List.mem_append.mp he with h | h
        · rcases List.mem_append.mp h with h2 | h2
          · rcases List.mem_append.mp h2 with h3 | h3
            · simp at h3
              rcases h3 with h3 | h3 | h3 <;> simp [h3, isTerminalEvent]
            · exact hmap e h3
          · simp at h2
            simp [h2, isTerminalEvent]
        · simp at h
          simp [h, isTerminalEvent]) rfl
    refine ⟨hsh.1, ⟨_, hsh.2.1, rfl⟩, hsh.2.2, ?_⟩
    rw [hsh.2.1]
    constructor
    · intro _
      refine ⟨?_, ⟨gr, ?_⟩, ⟨bres, ?_⟩, ⟨u, dl, ?_⟩, ?_⟩ <;> simp [hf, hg, hb, hd, hmc]
    · intro _
      exact ⟨u, u, met, rfl⟩

/-! ## C1: the completion update -/

/-- Refutation input for the original C1 wording: the concrete successful run
`demoOracle` (build-log read is null, the expiry sample `tExpiresBase = 400`
precedes the update stamp `tMarkNow = 600`) persists a completed row whose
`build_log_key` is null and whose `expires_at` (400 + 24h) is not
`completed_at + 24h` (600 + 24h). -/
theorem c1_counterexample :
    ((handleCreateJobTask (txt "job_1") (txt "p") (txt "m") [demoPendingRow]
          demoOracle).2.map
        (fun r => (r.status, r.completed_at, r.expires_at, r.build_log_key)) =
      [(txt "completed", some 600, some 86400400, (none : Option Str))]) ∧
    ¬ (86400400 : Nat) = 600 + LOG_RETENTION_MS :=
  ⟨rfl, by decide⟩

/-- C1 (corrected). `markJobCompleted` performs one single-row update: the
matched row gets status `completed`, `completed_at = now`, both URLs and every
metric column always; `expires_at`, `worker_name`, `build_log_key` and
`deploy_log_key` are written only when the option bag provides them (an absent
option leaves the stored value, so the log keys — and hence those columns —
can remain null on a completed row); all other columns of the matched row and
all other rows are unchanged. -/
theorem c1_markJobCompleted_update (db : List JobRecord)
    (id previewUrl deployedUrl : Str) (metrics : BuildMetrics)
    (opts : CompletionOptions) (now : Nat) :
    ∃ db2, markJobCompleted db id previewUrl deployedUrl metrics opts now = .ok db2 ∧
      db2.length = db.length ∧
      ∀ i (h : i < db.length) (h2 : i < db2.length),
        (¬ (db[i]).id = id → db2[i] = db[i]) ∧
        ((db[i]).id = id →
          (db2[i]).status = txt "completed" ∧
          (db2[i]).completed_at = some now ∧
          (db2[i]).preview_url = some previewUrl ∧
          (db2[i]).deployed_url = some deployedUrl ∧
          (db2[i]).file_count = some metrics.filesGenerated ∧
          (db2[i]).prompt_tokens = some metrics.promptTokens ∧
          (db2[i]).completion_tokens = some metrics.completionTokens ∧
          (db2[i]).total_tokens = some metrics.totalTokens ∧
          (db2[i]).cost = some metrics.cost ∧
          (db2[i]).llm_latency_ms = some metrics.llmLatencyMs ∧
          (db2[i]).install_duration_ms = some metrics.installDurationMs ∧
          (db2[i]).build_duration_ms = some metrics.buildDurationMs ∧
          (db2[i]).deploy_duration_ms = some metrics.deployDurationMs ∧
          (db2[i]).total_duration_ms = some metrics.totalDurationMs ∧
          (db2[i]).lines_of_code = some metrics.linesOfCode ∧
          (db2[i]).expires_at = upd opts.expiresAt (db[i]).expires_at ∧
          (db2[i]).worker_name = upd opts.workerName (db[i]).worker_name ∧
          (db2[i]).build_log_key = upd opts.buildLogKey (db[i]).build_log_key ∧
          (db2[i]).deploy_log_key = upd opts.deployLogKey (db[i]).deploy_log_key ∧
          (db2[i]).id = (db[i]).id ∧
          (db2[i]).prompt = (db[i]).prompt ∧
          (db2[i]).model = (db[i]).model ∧
          (db2[i]).created_at = (db[i]).created_at ∧
          (db2[i]).started_at = (db[i]).started_at ∧
          (db2[i]).error_message = (db[i]).error_message) := by
  rcases hmk : markJobCompleted db id previewUrl deployedUrl metrics opts now with m | db2
  case error =>
    unfold markJobCompleted updateJobStatus at hmk
    rw [if_pos (Or.inl (by decide))] at hmk
    simp at hmk
  case ok =>
  have hmk2 := hmk
  unfold markJobCompleted updateJobStatus at hmk2
  rw [if_pos (Or.inl (by decide))] at hmk2
  injection hmk2 with hdb2
  subst hdb2
  refine ⟨_, hmk, ?_, ?_⟩
  · simp
  · intro i h h2
    constructor
    · intro hne
      simp only [List.getElem_map]
      rw [if_neg hne]
    · intro hid
      simp only [List.getElem_map]
      rw [if_pos hid]
      and_intros <;> rfl

/-! ## C4: the deploy driver -/

theorem takeWhile_drop_head (P : Char → Bool) :
    ∀ (l : Str), (l.takeWhile P).length < l.length →
      ∃ x t2, l.drop (l.takeWhile P).length = x :: t2 ∧ P x = false := by
  intro l
  induction l with
  | nil => intro h; simp at h
  | cons c t ih =>
    intro h
    by_cases hc : P c = true
    · rw [List.takeWhile_cons_of_pos hc] at h ⊢
      simp only [List.length_cons, List.drop_succ_cons] at h ⊢
      exact ih (by omega)
    · have hc2 : P c = false := by
        cases hcv : P c
        · rfl
        · exact absurd hcv hc
      rw [List.takeWhile_cons_of_neg (by simp [hc2])]
      exact ⟨c, t, rfl, hc2⟩

theorem takeWhile_lt_of_mem_not (P : Char → Bool) (l : Str) (x : Char)
    (hx : x ∈ l) (hPx : P x = false) : (l.takeWhile P).length < l.length := by
  rcases Nat.lt_or_ge (l.takeWhile P).length l.length with h | h
  · exact h
  · exfalso
    have hlen : (l.takeWhile P).length = l.length :=
      Nat.le_antisymm (List.takeWhile_prefix P).length_le h
    have heq : l.takeWhile P = l := (List.takeWhile_prefix P).eq_of_length hlen
    have := List.mem_takeWhile_imp (heq ▸ hx)
    rw [hPx] at this
    exact Bool.false_ne_true this

theorem findVarMatch_sound (lit : Str) :
    ∀ s p v b, findVarMatch lit s = some (p, v, b) →
      s = p ++ lit ++ qmark :: (v ++ qmark :: b) ∧ qmark ∉ v := by
  intro s
  induction s with
  | nil => intro p v b h; simp [findVarMatch] at h
  | cons c t ih =>
    intro p v b h
    rw [findVarMatch] at h
    split at h
    · simp only [] at h
      split at h
      · rename_i hpre hlt
        simp only [Option.some.injEq, Prod.mk.injEq] at h
        obtain ⟨hp, hvv, hb⟩ := h
        subst hp
        subst hvv
        subst hb
        obtain ⟨rest2, hrest2⟩ := List.isPrefixOf_iff_prefix.mp hpre
        generalize hA : (c :: t).drop (lit.length + 1) = A at hlt ⊢
        generalize hV : A.takeWhile (fun d => decide (¬ d = qmark)) = V at hlt ⊢
        have hAr : A = rest2 := by
          have hassoc : lit ++ [qmark] ++ rest2 = (lit ++ [qmark]) ++ rest2 := by simp
          have hl : (lit ++ [qmark]).length = lit.length + 1 := by simp
          rw [← hA, ← hrest2, hassoc, ← hl, List.drop_left]
        obtain ⟨u, hu⟩ := List.takeWhile_prefix
          (l := A) (fun d => decide (¬ d = qmark))
        rw [hV] at hu
        have hdu : A.drop V.length = u := by rw [← hu, List.drop_left]
        obtain ⟨x, t2, hx, hPx⟩ :=
          takeWhile_drop_head (fun d => decide (¬ d = qmark)) A (by rw [hV]; exact hlt)
        rw [hV] at hx
        have hxq : x = qmark := by simpa using hPx
        subst hxq
        have hu2 : u = qmark :: t2 := hdu.symm.trans hx
        have hsplit : A = V ++ qmark :: t2 := by rw [← hu, hu2]
        have ht2 : A.drop (V.length + 1) = t2 := by
          have hassoc2 : V ++ qmark :: t2 = (V ++ [qmark]) ++ t2 := by simp
          have hl2 : (V ++ [qmark]).length = V.length + 1 := by simp
          rw [hsplit, hassoc2, ← hl2, List.drop_left]
        refine ⟨?_, ?_⟩
        · rw [ht2]
          calc c :: t = lit ++ [qmark] ++ rest2 := hrest2.symm
            _ = lit ++ [qmark] ++ A := by rw [hAr]
            _ = [] ++ lit ++ qmark :: (V ++ qmark :: t2) := by rw [hsplit]; simp
        · intro hm
          have hm2 : qmark ∈ A.takeWhile (fun d => decide (¬ d = qmark)) := by
            rw [hV]
            exact hm
          have := List.mem_takeWhile_imp hm2
          simp at this
      · rename_i hpre hge
        simp only [Option.map_eq_some'] at h
        obtain ⟨⟨p2, v2, b2⟩, hm, he⟩ := h
        simp only [Prod.mk.injEq] at he
        obtain ⟨hp, hv2, hb2⟩ := he
        subst hp
        subst hv2
        subst hb2
        obtain ⟨ht, hnv⟩ := ih p2 v2 b2 hm
        exact ⟨by rw [ht]; rfl, hnv⟩
    · simp only [Option.map_eq_some'] at h
      obtain ⟨⟨p2, v2, b2⟩, hm, he⟩ := h
      simp only [Prod.mk.injEq] at he
      obtain ⟨hp, hv2, hb2⟩ := he
      subst hp
      subst hv2
      subst hb2
      obtain ⟨ht, hnv⟩ := ih p2 v2 b2 hm
      exact ⟨by rw [ht]; rfl, hnv⟩

theorem qmark_mem_drop (X y : Str) (n : Nat) (hn : n ≤ X.length) :
    qmark ∈ (X ++ qmark :: y).drop n := by
  rw [List.drop_append_eq_append_drop, Nat.sub_eq_zero_of_le hn]
  simp

theorem findVarMatch_finds (lit : Str) :
    ∀ a s v c, s = a ++ lit ++ qmark :: (v ++ qmark :: c) →
      ∃ p v0 b, findVarMatch lit s = some (p, v0, b) ∧ p.length ≤ a.length := by
  intro a
  induction a with
  | nil =>
    intro s v c hs
    subst hs
    simp only [List.nil_append]
    rcases he : lit ++ qmark :: (v ++ qmark :: c) with _ | ⟨c0, t0⟩
    · exfalso
      have := congrArg List.length he
      simp at this
    · rw [findVarMatch]
      have hpre : (lit ++ [qmark]).isPrefixOf (c0 :: t0) = true :=
        List.isPrefixOf_iff_prefix.mpr ⟨v ++ qmark :: c, by rw [← he]; simp⟩
      rw [if_pos hpre]
      simp only []
      have hafter : (c0 :: t0).drop (lit.length + 1) = v ++ qmark :: c := by
        have hassoc : lit ++ qmark :: (v ++ qmark :: c) =
            (lit ++ [qmark]) ++ (v ++ qmark :: c) := by simp
        have hl : (lit ++ [qmark]).length = lit.length + 1 := by simp
        rw [← he, hassoc, ← hl, List.drop_left]
      have hq : qmark ∈ (c0 :: t0).drop (lit.length + 1) := by
        rw [hafter]
        simp
      have hlt2 := takeWhile_lt_of_mem_not (fun d => decide (¬ d = qmark)) _ qmark hq (by simp)
      rw [if_pos hlt2]
      exact ⟨[], _, _, rfl, by simp⟩
  | cons x a' ih =>
    intro s v c hs
    subst hs
    have hsx : (x :: a') ++ lit ++ qmark :: (v ++ qmark :: c) =
        x :: (a' ++ lit ++ qmark :: (v ++ qmark :: c)) := by simp
    rw [hsx, findVarMatch]
    by_cases hpre :
        (lit ++ [qmark]).isPrefixOf (x :: (a' ++ lit ++ qmark :: (v ++ qmark :: c))) = true
    · rw [if_pos hpre]
      simp only []
      have hsh2 : x :: (a' ++ lit ++ qmark :: (v ++ qmark :: c)) =
          (x :: (a' ++ lit)) ++ qmark :: (v ++ qmark :: c) := by simp
      have hq : qmark ∈
          (x :: (a' ++ lit ++ qmark :: (v ++ qmark :: c))).drop (lit.length + 1) := by
        rw [hsh2]
        exact qmark_mem_drop _ _ _ (by simp)
      have hlt2 := takeWhile_lt_of_mem_not (fun d => decide (¬ d = qmark)) _ qmark hq (by simp)
      rw [if_pos hlt2]
      exact ⟨[], _, _, rfl, by simp⟩
    · rw [if_neg hpre]
      obtain ⟨p2, v0, b, hfm, hlen⟩ := ih (a' ++ lit ++ qmark :: (v ++ qmark :: c)) v c rfl
      rw [hfm]
      exact ⟨x :: p2, v0, b, rfl, by simpa using Nat.succ_le_succ hlen⟩

theorem findVarMatch_leftmost (lit s p v0 b a v c : Str)
    (hfm : findVarMatch lit s = some (p, v0, b))
    (hs : s = a ++ lit ++ qmark :: (v ++ qmark :: c)) : p.length ≤ a.length := by
  obtain ⟨p2, v2, b2, hfm2, hl⟩ := findVarMatch_finds lit a s v c hs
  rw [hfm] at hfm2
  simp only [Option.some.injEq, Prod.mk.injEq] at hfm2
  obtain ⟨hp, -, -⟩ := hfm2
  rw [hp]
  exact hl

theorem get_pat_qAt (x y : Str) : (x ++ qmark :: y)[x.length]? = some qmark := by
  rw [List.getElem?_append_right (le_refl _)]
  simp

theorem get_pat_q1 (x l y z : Str) :
    (x ++ l ++ qmark :: (y ++ qmark :: z))[x.length + l.length]? = some qmark := by
  have h : x ++ l ++ qmark :: (y ++ qmark :: z) = (x ++ l) ++ qmark :: (y ++ qmark :: z) := by
    simp
  have h2 : (x ++ l).length = x.length + l.length := by simp
  rw [h, ← h2]
  exact get_pat_qAt _ _

theorem get_pat_q2 (x l y z : Str) :
    (x ++ l ++ qmark :: (y ++ qmark :: z))[x.length + l.length + 1 + y.length]? =
      some qmark := by
  have h : x ++ l ++ qmark :: (y ++ qmark :: z) = (x ++ l ++ qmark :: y) ++ qmark :: z := by
    simp
  have h2 : (x ++ l ++ qmark :: y).length = x.length + l.length + 1 + y.length := by
    simp only [List.length_append, List.length_cons]
    omega
  rw [h, ← h2]
  exact get_pat_qAt _ _

theorem get_pat_v (x l y z : Str) (i : Nat) (hi : i < y.length) :
    (x ++ l ++ qmark :: (y ++ qmark :: z))[x.length + l.length + 1 + i]? = y[i]? := by
  have h : x ++ l ++ qmark :: (y ++ qmark :: z) = (x ++ l ++ [qmark]) ++ (y ++ qmark :: z) := by
    simp
  rw [h, List.getElem?_append_right (by simp only [List.length_append, List.length_cons, List.length_nil]; omega)]
  have h3 : x.length + l.length + 1 + i - (x ++ l ++ [qmark]).length = i := by
    simp only [List.length_append, List.length_cons, List.length_nil]
    omega
  rw [h3, List.getElem?_append_left hi]

theorem get_pat_l (x l y z : Str) (i : Nat) (hi : i < l.length) :
    (x ++ l ++ qmark :: (y ++ qmark :: z))[x.length + i]? = l[i]? := by
  have h : x ++ l ++ qmark :: (y ++ qmark :: z) = x ++ (l ++ qmark :: (y ++ qmark :: z)) := by
    simp
  rw [h, List.getElem?_append_right (by omega : x.length ≤ x.length + i)]
  have h3 : x.length + i - x.length = i := by omega
  rw [h3, List.getElem?_append_left hi]

/-- Where a complete `lit1"v"` occurrence can sit inside
`p ++ lit2"[REDACTED]" ++ rb`: wholly inside the prefix `p ++ lit2 ++ ["]`,
exactly over the replaced value (so `v = [REDACTED]`), or wholly inside the
tail `rb`. -/
theorem occSplit (lit1 lit2 : Str) (hq1 : qmark ∉ lit1)
    (hlen : redactedVal.length < lit1.length)
    (p rb a v c : Str)
    (E : a ++ lit1 ++ qmark :: (v ++ qmark :: c) =
      p ++ lit2 ++ qmark :: (redactedVal ++ qmark :: rb))
    (hv : qmark ∉ v) :
    (∃ d, p ++ lit2 ++ [qmark] = a ++ lit1 ++ qmark :: (v ++ qmark :: d)) ∨
    v = redactedVal ∨
    (∃ a2, a = p ++ lit2 ++ qmark :: (redactedVal ++ qmark :: a2) ∧
      rb = a2 ++ lit1 ++ qmark :: (v ++ qmark :: c)) := by
  have gq1 : (a ++ lit1 ++ qmark :: (v ++ qmark :: c))[p.length + lit2.length]? =
      some qmark := by
    rw [E]
    exact get_pat_q1 p lit2 redactedVal rb
  have gq2 : (a ++ lit1 ++ qmark ::
      (v ++ qmark :: c))[p.length + lit2.length + 1 + redactedVal.length]? = some qmark := by
    rw [E]
    exact get_pat_q2 p lit2 redactedVal rb
  have gR : ∀ i, i < redactedVal.length →
      (a ++ lit1 ++ qmark :: (v ++ qmark :: c))[p.length + lit2.length + 1 + i]? =
        redactedVal[i]? := by
    intro i hi
    rw [E]
    exact get_pat_v p lit2 redactedVal rb i hi
  have fq2 := get_pat_q2 a lit1 v c
  have fV := fun i hi => get_pat_v a lit1 v c i hi
  have fL := fun i hi => get_pat_l a lit1 v c i hi
  rcases Nat.lt_trichotomy (a.length + lit1.length) (p.length + lit2.length) with hlt | heq | hgt
  · left
    have hclose : a.length + lit1.length + 1 + v.length ≤ p.length + lit2.length := by
      by_contra hcon
      push_neg at hcon
      have hi : p.length + lit2.length - (a.length + lit1.length + 1) < v.length := by omega
      have h2 := fV (p.length + lit2.length - (a.length + lit1.length + 1)) hi
      have h3 : a.length + lit1.length + 1 +
          (p.length + lit2.length - (a.length + lit1.length + 1)) =
          p.length + lit2.length := by omega
      rw [h3, gq1] at h2
      exact hv (List.getElem?_mem h2.symm)
    refine ⟨(c.take ((p ++ lit2 ++ [qmark]).length -
      (a ++ lit1 ++ [qmark] ++ v ++ [qmark]).length)), ?_⟩
    have hT1 : a ++ lit1 ++ qmark :: (v ++ qmark :: c) =
        (a ++ lit1 ++ [qmark] ++ v ++ [qmark]) ++ c := by simp
    have hT2 : a ++ lit1 ++ qmark :: (v ++ qmark :: c) =
        (p ++ lit2 ++ [qmark]) ++ (redactedVal ++ qmark :: rb) := by
      rw [E]
      simp
    have h1 : (a ++ lit1 ++ qmark :: (v ++ qmark :: c)).take (p ++ lit2 ++ [qmark]).length =
        p ++ lit2 ++ [qmark] := by
      rw [hT2]
      exact List.take_left _ _
    have h2 : (a ++ lit1 ++ qmark :: (v ++ qmark :: c)).take (p ++ lit2 ++ [qmark]).length =
        (a ++ lit1 ++ [qmark] ++ v ++ [qmark]) ++
          c.take ((p ++ lit2 ++ [qmark]).length -
            (a ++ lit1 ++ [qmark] ++ v ++ [qmark]).length) := by
      conv_lhs => rw [hT1]
      rw [List.take_append_eq_append_take]
      congr 1
      exact List.take_of_length_le
        (by simp only [List.length_append, List.length_cons, List.length_nil]; omega)
    calc p ++ lit2 ++ [qmark]
        = (a ++ lit1 ++ qmark :: (v ++ qmark :: c)).take (p ++ lit2 ++ [qmark]).length :=
          h1.symm
      _ = (a ++ lit1 ++ [qmark] ++ v ++ [qmark]) ++
          c.take ((p ++ lit2 ++ [qmark]).length -
            (a ++ lit1 ++ [qmark] ++ v ++ [qmark]).length) := h2
      _ = a ++ lit1 ++ qmark :: (v ++ qmark ::
          c.take ((p ++ lit2 ++ [qmark]).length -
            (a ++ lit1 ++ [qmark] ++ v ++ [qmark]).length)) := by simp
  · right
    left
    have hvR : v.length = redactedVal.length := by
      rcases Nat.lt_trichotomy v.length redactedVal.length with h1 | h1 | h1
      · exfalso
        have h2 := gR v.length h1
        rw [← heq, fq2] at h2
        have hmem : qmark ∈ redactedVal := List.getElem?_mem h2.symm
        exact absurd hmem (by decide)
      · exact h1
      · exfalso
        have h2 := fV redactedVal.length h1
        rw [heq, gq2] at h2
        exact hv (List.getElem?_mem h2.symm)
    apply List.ext_getElem?
    intro i
    rcases Nat.lt_or_ge i v.length with hi | hi
    · have h2 := fV i hi
      rw [heq] at h2
      have h3 := gR i (by omega)
      exact h2.symm.trans h3
    · rw [List.getElem?_eq_none hi, List.getElem?_eq_none (by omega)]
  · right
    right
    have hza : p.length + lit2.length < a.length := by
      by_contra hcon
      push_neg at hcon
      have hi : p.length + lit2.length - a.length < lit1.length := by omega
      have h2 := fL (p.length + lit2.length - a.length) hi
      have h3 : a.length + (p.length + lit2.length - a.length) = p.length + lit2.length := by
        omega
      rw [h3, gq1] at h2
      exact absurd (List.getElem?_mem h2.symm) hq1
    have hz2a : p.length + lit2.length + 1 + redactedVal.length < a.length := by
      by_contra hcon
      push_neg at hcon
      have hi : p.length + lit2.length + 1 + redactedVal.length - a.length < lit1.length := by
        omega
      have h2 := fL (p.length + lit2.length + 1 + redactedVal.length - a.length) hi
      have h3 : a.length + (p.length + lit2.length + 1 + redactedVal.length - a.length) =
          p.length + lit2.length + 1 + redactedVal.length := by omega
      rw [h3, gq2] at h2
      exact absurd (List.getElem?_mem h2.symm) hq1
    have hTa : a ++ lit1 ++ qmark :: (v ++ qmark :: c) =
        a ++ (lit1 ++ qmark :: (v ++ qmark :: c)) := by simp
    have hT2f : a ++ lit1 ++ qmark :: (v ++ qmark :: c) =
        (p ++ lit2 ++ [qmark] ++ redactedVal ++ [qmark]) ++ rb := by
      rw [E]
      simp
    have h1 : a.take (p ++ lit2 ++ [qmark] ++ redactedVal ++ [qmark]).length =
        p ++ lit2 ++ [qmark] ++ redactedVal ++ [qmark] := by
      have e1 : (a ++ lit1 ++ qmark :: (v ++ qmark :: c)).take
          (p ++ lit2 ++ [qmark] ++ redactedVal ++ [qmark]).length =
          p ++ lit2 ++ [qmark] ++ redactedVal ++ [qmark] := by
        rw [hT2f]
        exact List.take_left _ _
      have e2 : (a ++ lit1 ++ qmark :: (v ++ qmark :: c)).take
          (p ++ lit2 ++ [qmark] ++ redactedVal ++ [qmark]).length =
          a.take (p ++ lit2 ++ [qmark] ++ redactedVal ++ [qmark]).length := by
        rw [hTa, List.take_append_eq_append_take]
        have hz : (p ++ lit2 ++ [qmark] ++ redactedVal ++ [qmark]).length - a.length = 0 := by
          simp only [List.length_append, List.length_cons, List.length_nil]
          omega
        rw [hz]
        simp
      rw [← e2, e1]
    have ha : a = (p ++ lit2 ++ [qmark] ++ redactedVal ++ [qmark]) ++
        a.drop (p ++ lit2 ++ [qmark] ++ redactedVal ++ [qmark]).length := by
      conv_lhs => rw [← List.take_append_drop
        (p ++ lit2 ++ [qmark] ++ redactedVal ++ [qmark]).length a]
      rw [h1]
    obtain ⟨a2, ha2⟩ : ∃ a2, a = (p ++ lit2 ++ [qmark] ++ redactedVal ++ [qmark]) ++ a2 :=
      ⟨_, ha⟩
    refine ⟨a2, ?_, ?_⟩
    · rw [ha2]
      simp
    · have e3 := hT2f
      rw [hTa, ha2] at e3
      simp only [List.append_assoc, List.cons_append, List.nil_append] at e3
      simp only [List.append_right_inj, List.cons.injEq, true_and] at e3
      rw [← e3]
      simp

theorem redactVar_none (lit s : Str) (h : findVarMatch lit s = none) :
    redactVar lit s = s := by
  rcases s with _ | ⟨c, t⟩
  · rfl
  · unfold redactVar
    rw [show (c :: t).length = t.length + 1 from rfl, redactVarGo, h]

theorem redactVar_some (lit s p v b : Str) (h : findVarMatch lit s = some (p, v, b)) :
    redactVar lit s = p ++ lit ++ qmark :: (redactedVal ++ qmark :: redactVar lit b) := by
  rcases s with _ | ⟨c, t⟩
  · simp [findVarMatch] at h
  · unfold redactVar
    rw [show (c :: t).length = t.length + 1 from rfl, redactVarGo, h]
    have hb : b.length < (c :: t).length := findVarMatch_drop_lt lit (c :: t) p v b h
    have hb2 : b.length ≤ t.length := by
      simp only [List.length_cons] at hb
      omega
    have hfuel : redactVarGo lit t.length b = redactVarGo lit b.length b :=
      redactVarGo_fuel lit t.length b.length b hb2 (le_refl _)
    show p ++ lit ++ [qmark] ++ redactedVal ++ [qmark] ++ redactVarGo lit t.length b =
      p ++ lit ++ qmark :: (redactedVal ++ qmark :: redactVar lit b)
    rw [hfuel]
    simp [redactVar]

theorem redactVar_noleak (lit : Str) (hq : qmark ∉ lit)
    (hlen : redactedVal.length < lit.length) :
    ∀ n s, s.length ≤ n → NoLeakP lit (redactVar lit s) := by
  intro n
  induction n with
  | zero =>
    intro s hs
    have hnil : s = [] := List.length_eq_zero.mp (Nat.le_zero.mp hs)
    subst hnil
    intro a v c hEq hv
    exfalso
    rw [redactVar_none lit [] (by simp [findVarMatch])] at hEq
    have := congrArg List.length hEq
    simp at this
    omega
  | succ n ih =>
    intro s hs
    rcases hm : findVarMatch lit s with _ | ⟨p, v0, b⟩
    · rw [redactVar_none lit s hm]
      intro a v c hEq hv
      exfalso
      obtain ⟨p2, v2, b2, hfm, -⟩ := findVarMatch_finds lit a s v c hEq
      rw [hm] at hfm
      exact Option.noConfusion hfm
    · rw [redactVar_some lit s p v0 b hm]
      intro a v c hEq hv
      rcases occSplit lit lit hq hlen p (redactVar lit b) a v c hEq.symm hv with
        ⟨d, hA⟩ | hB | ⟨a2, hC1, hC2⟩
      · exfalso
        obtain ⟨hsound, -⟩ := findVarMatch_sound lit s p v0 b hm
        have hs2 : s = a ++ lit ++ qmark :: (v ++ qmark :: (d ++ (v0 ++ qmark :: b))) := by
          calc s = p ++ lit ++ qmark :: (v0 ++ qmark :: b) := hsound
            _ = (p ++ lit ++ [qmark]) ++ (v0 ++ qmark :: b) := by simp
            _ = (a ++ lit ++ qmark :: (v ++ qmark :: d)) ++ (v0 ++ qmark :: b) := by rw [hA]
            _ = a ++ lit ++ qmark :: (v ++ qmark :: (d ++ (v0 ++ qmark :: b))) := by simp
        have hle := findVarMatch_leftmost lit s p v0 b a v _ hm hs2
        have hlen2 := congrArg List.length hA
        simp only [List.length_append, List.length_cons, List.length_nil] at hlen2
        omega
      · exact hB
      · have hbn : b.length ≤ n := by
          have := findVarMatch_drop_lt lit s p v0 b hm
          omega
        exact ih b hbn a2 v c hC2 hv

theorem redactVar_preserve (lit1 lit2 : Str) (hq1 : qmark ∉ lit1)
    (hlen : redactedVal.length < lit1.length) :
    ∀ n s, s.length ≤ n → NoLeakP lit1 s → NoLeakP lit1 (redactVar lit2 s) := by
  intro n
  induction n with
  | zero =>
    intro s hs hN
    have hnil : s = [] := List.length_eq_zero.mp (Nat.le_zero.mp hs)
    subst hnil
    exact hN
  | succ n ih =>
    intro s hs hN
    rcases hm : findVarMatch lit2 s with _ | ⟨p, v0, b⟩
    · rw [redactVar_none lit2 s hm]
      exact hN
    · rw [redactVar_some lit2 s p v0 b hm]
      intro a v c hEq hv
      obtain ⟨hsound, -⟩ := findVarMatch_sound lit2 s p v0 b hm
      rcases occSplit lit1 lit2 hq1 hlen p (redactVar lit2 b) a v c hEq.symm hv with
        ⟨d, hA⟩ | hB | ⟨a2, hC1, hC2⟩
      · have hs2 : s = a ++ lit1 ++ qmark :: (v ++ qmark :: (d ++ (v0 ++ qmark :: b))) := by
          calc s = p ++ lit2 ++ qmark :: (v0 ++ qmark :: b) := hsound
            _ = (p ++ lit2 ++ [qmark]) ++ (v0 ++ qmark :: b) := by simp
            _ = (a ++ lit1 ++ qmark :: (v ++ qmark :: d)) ++ (v0 ++ qmark :: b) := by rw [hA]
            _ = a ++ lit1 ++ qmark :: (v ++ qmark :: (d ++ (v0 ++ qmark :: b))) := by simp
        exact hN a v _ hs2 hv
      · exact hB
      · have hbn : b.length ≤ n := by
          have := findVarMatch_drop_lt lit2 s p v0 b hm
          omega
        have hNb : NoLeakP lit1 b := by
          intro a3 v3 b3 hEq3 hv3
          apply hN (p ++ lit2 ++ qmark :: (v0 ++ qmark :: a3)) v3 b3 ?_ hv3
          rw [hsound, hEq3]
          simp
        exact ih b hbn hNb a2 v c hC2 hv

theorem sanitizeLog_noleak (contents : Option Str) (lg : Str)
    (h : sanitizeLog contents = some lg) :
    NoLeakP apiTokenLit lg ∧ NoLeakP accountIdLit lg := by
  rcases contents with _ | s
  · simp [sanitizeLog] at h
  · simp only [sanitizeLog] at h
    split at h
    · exact Option.noConfusion h
    · simp only [Option.some.injEq] at h
      subst h
      constructor
      · refine redactVar_preserve apiTokenLit accountIdLit (by decide) (by decide)
          (redactVar apiTokenLit s).length _ (le_refl _) ?_
        exact redactVar_noleak apiTokenLit (by decide) (by decide) s.length s (le_refl _)
      · exact redactVar_noleak accountIdLit (by decide) (by decide) _ _ (le_refl _)

theorem matchUrlAt_shape (s u : Str) (h : matchUrlAt s = some u) :
    ∃ mid, u = httpsLit ++ mid ++ wdLit ∧ ¬ mid = [] ∧ ∀ ch ∈ mid, isJsWs ch = false := by
  unfold matchUrlAt at h
  split at h
  · simp only [Option.map_eq_some'] at h
    obtain ⟨k, hk, hu⟩ := h
    subst hu
    unfold greedyK at hk
    have hmem := List.mem_of_find?_eq_some hk
    have hpred := List.find?_some hk
    simp only [List.mem_reverse, List.mem_range] at hmem
    simp only [Bool.and_eq_true, decide_eq_true_eq] at hpred
    obtain ⟨h1k, -⟩ := hpred
    refine ⟨_, rfl, ?_, ?_⟩
    · intro hnil
      have := congrArg List.length hnil
      simp only [List.length_take, List.length_nil] at this
      omega
    · intro ch hch
      have hch2 := List.take_subset _ _ hch
      have := List.mem_takeWhile_imp hch2
      simpa using this
  · exact Option.noConfusion h

theorem findWorkersUrl_shape : ∀ (s u : Str), findWorkersUrl s = some u →
    ∃ mid, u = httpsLit ++ mid ++ wdLit ∧ ¬ mid = [] ∧ ∀ ch ∈ mid, isJsWs ch = false := by
  intro s
  induction s with
  | nil => intro u h; simp [findWorkersUrl] at h
  | cons c t ih =>
    intro u h
    rw [findWorkersUrl] at h
    rcases hm : matchUrlAt (c :: t) with _ | u2
    · rw [hm] at h
      exact ih u h
    · rw [hm] at h
      simp only [Option.some.injEq] at h
      subst h
      exact matchUrlAt_shape _ _ hm

/-- C4 (confirmed). `deployToWorkers` carries the sanitized deploy log on both
outcomes and that log is leak-free: every complete `CLOUDFLARE_API_TOKEN="…"`
or `CLOUDFLARE_ACCOUNT_ID="…"` occurrence in it has the value `[REDACTED]`.
It throws `DeployError` exactly when the wrangler exec exits nonzero (with the
exit-code message) or when no `https://<nonempty nonspace>.workers.dev` URL
can be parsed from the log; otherwise it returns the parsed URL, which has
that shape. -/
theorem c4_deployToWorkers (execDeploy execRead : ExecResult) :
    (∀ lg, deployLogOf (deployToWorkers execDeploy execRead) = some lg →
        NoLeakP apiTokenLit lg ∧ NoLeakP accountIdLit lg) ∧
    (¬ execDeploy.exitCode = 0 →
        deployToWorkers execDeploy execRead =
          DeployOutcome.deployErr (wranglerFailedMsg execDeploy.exitCode)
            (sanitizeLog (trimToNull execRead.stdout))) ∧
    (execDeploy.exitCode = 0 →
      (findWorkersUrl ((sanitizeLog (trimToNull execRead.stdout)).getD []) = none →
        deployToWorkers execDeploy execRead =
          DeployOutcome.deployErr urlParseFailMsg
            (sanitizeLog (trimToNull execRead.stdout))) ∧
      (∀ u, findWorkersUrl ((sanitizeLog (trimToNull execRead.stdout)).getD []) = some u →
        deployToWorkers execDeploy execRead =
          DeployOutcome.ok u (sanitizeLog (trimToNull execRead.stdout)) ∧
        ∃ mid, u = httpsLit ++ mid ++ wdLit ∧ ¬ mid = [] ∧
          ∀ ch ∈ mid, isJsWs ch = false)) := by
  refine ⟨?_, ?_, ?_⟩
  · intro lg hlg
    have hlog : deployLogOf (deployToWorkers execDeploy execRead) =
        sanitizeLog (trimToNull execRead.stdout) := by
      unfold deployToWorkers
      split
      · rfl
      · simp only []
        split <;> rfl
    rw [hlog] at hlg
    exact sanitizeLog_noleak _ lg hlg
  · intro hne
    unfold deployToWorkers
    rw [if_pos hne]
  · intro hz
    constructor
    · intro hnone
      unfold deployToWorkers
      rw [if_neg (show ¬ execDeploy.exitCode ≠ 0 from by simp [hz]), hnone]
    · intro u hsome
      refine ⟨?_, findWorkersUrl_shape _ u hsome⟩
      unfold deployToWorkers
      rw [if_neg (show ¬ execDeploy.exitCode ≠ 0 from by simp [hz]), hsome]

/-! ## C7: the framework normalizer -/

set_option maxRecDepth 10000 in
/-- Refutation input for the original C7 wording: on `astroCexFiles` a second
application of `normalizeGeneratedFiles` changes the astro config file again
(the first pass consumed the only `@astrojs/cloudflare` occurrence, so the
second pass prepends the import line). -/
theorem c7_counterexample :
    ¬ (normalizeGeneratedFiles (normalizeGeneratedFiles astroCexFiles).files).files =
      (normalizeGeneratedFiles astroCexFiles).files := by decide

/-! ## C7 groundwork: decimal digits round-trip -/

theorem toDecGo_append (n : Nat) : ∀ acc, toDecGo n acc = toDecGo n [] ++ acc := by
  induction n using Nat.strong_induction_on with
  | _ n ih =>
    intro acc
    by_cases h : n = 0
    · rw [toDecGo, dif_pos h]
      conv_rhs => rw [toDecGo, dif_pos h]
      simp
    · have hlt : n / 10 < n := Nat.div_lt_self (Nat.pos_of_ne_zero h) (by norm_num)
      rw [toDecGo, dif_neg h, ih (n / 10) hlt]
      conv_rhs => rw [toDecGo, dif_neg h, ih (n / 10) hlt]
      simp

theorem foldl_dec (s : Str) : ∀ a : Nat,
    s.foldl (fun x c => x * 10 + digitVal c) a = a * 10 ^ s.length + ofDecDigits s := by
  induction s with
  | nil => intro a; simp [ofDecDigits]
  | cons c t ih =>
    intro a
    have h0 : ofDecDigits (c :: t) = t.foldl (fun x c => x * 10 + digitVal c) (digitVal c) := by
      simp [ofDecDigits]
    simp only [List.foldl_cons]
    rw [ih (a * 10 + digitVal c), h0, ih (digitVal c)]
    simp only [List.length_cons]
    ring

theorem ofDec_append_one (s : Str) (c : Char) :
    ofDecDigits (s ++ [c]) = ofDecDigits s * 10 + digitVal c := by
  simp [ofDecDigits, List.foldl_append]

theorem digitVal_digitChar : ∀ d, d < 10 → digitVal (digitChar d) = d := by decide

theorem isDigit_digitChar : ∀ d, d < 10 → isDigitCh (digitChar d) = true := by decide

theorem ofDec_toDecGo : ∀ n, ofDecDigits (toDecGo n []) = n := by
  intro n
  induction n using Nat.strong_induction_on with
  | _ n ih =>
    by_cases h : n = 0
    · rw [toDecGo, dif_pos h, h]
      rfl
    · have hlt : n / 10 < n := Nat.div_lt_self (Nat.pos_of_ne_zero h) (by norm_num)
      rw [toDecGo, dif_neg h, toDecGo_append, ofDec_append_one, ih (n / 10) hlt,
        digitVal_digitChar (n % 10) (Nat.mod_lt n (by norm_num))]
      omega

theorem ofDecDigits_natToStr (n : Nat) : ofDecDigits (natToStr n) = n := by
  unfold natToStr
  by_cases h : n = 0
  · rw [if_pos h, h]
    decide
  · rw [if_neg h]
    exact ofDec_toDecGo n

theorem toDecGo_digits : ∀ n acc, (∀ c ∈ acc, isDigitCh c = true) →
    ∀ c ∈ toDecGo n acc, isDigitCh c = true := by
  intro n
  induction n using Nat.strong_induction_on with
  | _ n ih =>
    intro acc hacc c hc
    by_cases h : n = 0
    · rw [toDecGo, dif_pos h] at hc
      exact hacc c hc
    · have hlt : n / 10 < n := Nat.div_lt_self (Nat.pos_of_ne_zero h) (by norm_num)
      rw [toDecGo, dif_neg h] at hc
      refine ih (n / 10) hlt _ ?_ c hc
      intro c2 hc2
      rcases List.mem_cons.mp hc2 with h2 | h2
      · subst h2
        exact isDigit_digitChar _ (Nat.mod_lt n (by norm_num))
      · exact hacc c2 h2

theorem natToStr_digits (n : Nat) : ∀ c ∈ natToStr n, isDigitCh c = true := by
  unfold natToStr
  by_cases h : n = 0
  · rw [if_pos h]
    intro c hc
    simp at hc
    subst hc
    decide
  · rw [if_neg h]
    exact toDecGo_digits n [] (by simp)

theorem natToStr_ne_nil (n : Nat) : natToStr n ≠ [] := by
  unfold natToStr
  by_cases h : n = 0
  · rw [if_pos h]
    simp
  · rw [if_neg h, toDecGo, dif_neg h, toDecGo_append]
    simp

theorem takeWhile_app_eq (P : Char → Bool) (a b : Str) (ha : ∀ c ∈ a, P c = true)
    (hb : ∀ ch, b.head? = some ch → P ch = false) :
    (a ++ b).takeWhile P = a := by
  induction a with
  | nil =>
    rcases b with _ | ⟨c, t⟩
    · rfl
    · exact List.takeWhile_cons_of_neg (by simp [hb c rfl])
  | cons x a' ih =>
    simp only [List.cons_append]
    rw [List.takeWhile_cons_of_pos (ha x (by simp))]
    rw [ih (fun c hc => ha c (by simp [hc]))]

theorem digit_not_special (c : Char) (h : isDigitCh c = true) :
    ¬ c = '-' ∧ ¬ c = '.' ∧ ¬ c = 'e' ∧ ¬ c = 'E' := by
  refine ⟨?_, ?_, ?_, ?_⟩ <;> (intro he; subst he; exact absurd h (by decide))

theorem ofDec_zeros_pad (k : Nat) (s : Str) :
    ofDecDigits (List.replicate k '0' ++ s) = ofDecDigits s := by
  induction k with
  | zero => simp
  | succ k ih =>
    simp only [List.replicate_succ, List.cons_append]
    rw [show ofDecDigits ('0' :: (List.replicate k '0' ++ s)) =
      ofDecDigits (List.replicate k '0' ++ s) from rfl, ih]

theorem pNum_shape (sgn : Bool) (ip fp rest : Str) (mm ee : Int)
    (hip : ∀ c ∈ ip, isDigitCh c = true) (hipne : ¬ ip = [])
    (hfp : ∀ c ∈ fp, isDigitCh c = true)
    (hrest : numDelimOk rest)
    (hnorm : normNum (if sgn then -(ofDecDigits (ip ++ fp) : Int)
        else (ofDecDigits (ip ++ fp) : Int)) (0 - (fp.length : Int)) = (mm, ee)) :
    pNum ((if sgn then ['-'] else []) ++ ip ++
      (if fp = [] then [] else '.' :: fp) ++ rest) = some (Json.jnum mm ee, rest) := by
  obtain ⟨d0, ds, hds⟩ := List.exists_cons_of_ne_nil hipne
  subst hds
  have hd0 : isDigitCh d0 = true := hip d0 (by simp)
  have hd0s := digit_not_special d0 hd0
  have hrestTW : ∀ ch, rest.head? = some ch → isDigitCh ch = false := fun ch hch =>
    (hrest ch hch).1
  rcases hfpe : fp with _ | ⟨f0, fs⟩
  · -- fractional part empty
    subst hfpe
    have hTW : List.takeWhile isDigitCh (d0 :: (ds ++ rest)) = d0 :: ds := by
      have h := takeWhile_app_eq isDigitCh (d0 :: ds) rest hip hrestTW
      simpa using h
    have hDrop : List.drop (d0 :: ds).length (d0 :: (ds ++ rest)) = rest := by
      have h := List.drop_left (d0 :: ds) rest
      simpa using h
    rcases sgn with _ | _
    · -- sgn = false
      have hn : normNum (ofDecDigits (d0 :: ds) : Int) (0 - (([] : Str).length : Int)) =
          (mm, ee) := by simpa using hnorm
      have harg : ((if false then ['-'] else []) ++ ((d0 :: ds) : Str) ++
          (if ([] : Str) = [] then [] else '.' :: []) ++ rest) = d0 :: (ds ++ rest) := by
        simp
      rw [harg]
      unfold pNum
      try simp only []
      rw [if_neg hd0s.1]
      try simp only []
      rw [hTW]
      rw [if_neg (by simp : ¬ (d0 :: ds : Str) = [])]
      try simp only []
      rw [hDrop]
      rcases rest with _ | ⟨r0, rt⟩
      · try simp only [List.append_nil] at hn ⊢
        try simp only [Bool.false_eq_true, if_false, eq_self_iff_true, if_true]
        rw [hn]
        simp
      · have hr0 := hrest r0 rfl
        try simp only []
        rw [if_neg hr0.2.1]
        try simp only []
        rw [if_neg (by simp [hr0.2.1] :
          ¬ ((r0 :: rt : Str) ≠ [] ∧ (r0 :: rt : Str).head? = some '.' ∧ True))]
        try simp only []
        rw [if_neg (by simp [hr0.2.2.1, hr0.2.2.2] : ¬ (r0 = 'e' ∨ r0 = 'E'))]
        try simp only [List.append_nil] at hn ⊢
        try simp only [Bool.false_eq_true, if_false, eq_self_iff_true, if_true]
        rw [hn]
    · -- sgn = true
      have hn : normNum (-(ofDecDigits (d0 :: ds) : Int)) (0 - (([] : Str).length : Int)) =
          (mm, ee) := by simpa using hnorm
      have harg : ((if true then ['-'] else []) ++ ((d0 :: ds) : Str) ++
          (if ([] : Str) = [] then [] else '.' :: []) ++ rest) =
          '-' :: (d0 :: (ds ++ rest)) := by simp
      rw [harg]
      unfold pNum
      try simp only []
      rw [if_pos trivial]
      try simp only []
      rw [hTW]
      rw [if_neg (by simp : ¬ (d0 :: ds : Str) = [])]
      try simp only []
      rw [hDrop]
      rcases rest with _ | ⟨r0, rt⟩
      · try simp only [List.append_nil] at hn ⊢
        try simp only [Bool.false_eq_true, if_false, eq_self_iff_true, if_true]
        rw [hn]
        simp
      · have hr0 := hrest r0 rfl
        try simp only []
        rw [if_neg hr0.2.1]
        try simp only []
        rw [if_neg (by simp [hr0.2.1] :
          ¬ ((r0 :: rt : Str) ≠ [] ∧ (r0 :: rt : Str).head? = some '.' ∧ True))]
        try simp only []
        rw [if_neg (by simp [hr0.2.2.1, hr0.2.2.2] : ¬ (r0 = 'e' ∨ r0 = 'E'))]
        try simp only [List.append_nil] at hn ⊢
        try simp only [Bool.false_eq_true, if_false, eq_self_iff_true, if_true]
        rw [hn]
  · -- fractional part f0 :: fs
    have hfp2 : ∀ c ∈ f0 :: fs, isDigitCh c = true := by rw [← hfpe]; exact hfp
    subst hfpe
    have hTW : List.takeWhile isDigitCh (d0 :: (ds ++ '.' :: (f0 :: (fs ++ rest)))) =
        d0 :: ds := by
      have h := takeWhile_app_eq isDigitCh (d0 :: ds) ('.' :: (f0 :: (fs ++ rest))) hip
        (by intro ch hch; simp at hch; subst hch; decide)
      simpa using h
    have hDrop : List.drop (d0 :: ds).length (d0 :: (ds ++ '.' :: (f0 :: (fs ++ rest)))) =
        '.' :: (f0 :: (fs ++ rest)) := by
      have h := List.drop_left (d0 :: ds) ('.' :: (f0 :: (fs ++ rest)))
      simpa using h
    have hTW2 : List.takeWhile isDigitCh (f0 :: (fs ++ rest)) = f0 :: fs := by
      have h := takeWhile_app_eq isDigitCh (f0 :: fs) rest hfp2 hrestTW
      simpa using h
    have hDrop2 : List.drop (f0 :: fs).length (f0 :: (fs ++ rest)) = rest := by
      have h := List.drop_left (f0 :: fs) rest
      simpa using h
    rcases sgn with _ | _
    · have hn : normNum (ofDecDigits ((d0 :: ds) ++ (f0 :: fs)) : Int)
          (0 - ((f0 :: fs : Str).length : Int)) = (mm, ee) := by simpa using hnorm
      have harg : ((if false then ['-'] else []) ++ ((d0 :: ds) : Str) ++
          (if (f0 :: fs : Str) = [] then [] else '.' :: (f0 :: fs)) ++ rest) =
          d0 :: (ds ++ '.' :: (f0 :: (fs ++ rest))) := by simp
      rw [harg]
      unfold pNum
      try simp only []
      rw [if_neg hd0s.1]
      try simp only []
      rw [hTW]
      rw [if_neg (by simp : ¬ (d0 :: ds : Str) = [])]
      try simp only []
      rw [hDrop]
      try simp only []
      rw [if_pos trivial]
      try simp only []
      rw [hTW2, hDrop2]
      rw [if_neg (by simp :
        ¬ (('.' :: (f0 :: (fs ++ rest)) : Str) ≠ [] ∧
          ('.' :: (f0 :: (fs ++ rest)) : Str).head? = some '.' ∧ (f0 :: fs : Str) = []))]
      rcases rest with _ | ⟨r0, rt⟩
      · try simp only [] at hn ⊢
        try simp only [Bool.false_eq_true, if_false, eq_self_iff_true, if_true]
        rw [hn]
      · have hr0 := hrest r0 rfl
        try simp only []
        rw [if_neg (by simp [hr0.2.2.1, hr0.2.2.2] : ¬ (r0 = 'e' ∨ r0 = 'E'))]
        try simp only []
        try simp only [Bool.false_eq_true, if_false, eq_self_iff_true, if_true]
        rw [hn]
    · have hn : normNum (-(ofDecDigits ((d0 :: ds) ++ (f0 :: fs)) : Int))
          (0 - ((f0 :: fs : Str).length : Int)) = (mm, ee) := by simpa using hnorm
      have harg : ((if true then ['-'] else []) ++ ((d0 :: ds) : Str) ++
          (if (f0 :: fs : Str) = [] then [] else '.' :: (f0 :: fs)) ++ rest) =
          '-' :: (d0 :: (ds ++ '.' :: (f0 :: (fs ++ rest)))) := by simp
      rw [harg]
      unfold pNum
      try simp only []
      rw [if_pos trivial]
      try simp only []
      rw [hTW]
      rw [if_neg (by simp : ¬ (d0 :: ds : Str) = [])]
      try simp only []
      rw [hDrop]
      try simp only []
      rw [if_pos trivial]
      try simp only []
      rw [hTW2, hDrop2]
      rw [if_neg (by simp :
        ¬ (('.' :: (f0 :: (fs ++ rest)) : Str) ≠ [] ∧
          ('.' :: (f0 :: (fs ++ rest)) : Str).head? = some '.' ∧ (f0 :: fs : Str) = []))]
      rcases rest with _ | ⟨r0, rt⟩
      · try simp only [] at hn ⊢
        try simp only [Bool.false_eq_true, if_false, eq_self_iff_true, if_true]
        rw [hn]
      · have hr0 := hrest r0 rfl
        try simp only []
        rw [if_neg (by simp [hr0.2.2.1, hr0.2.2.2] : ¬ (r0 = 'e' ∨ r0 = 'E'))]
        try simp only []
        try simp only [Bool.false_eq_true, if_false, eq_self_iff_true, if_true]
        rw [hn]

theorem normNum_zero_exp (m : Int) : normNum m 0 = (m, 0) := by
  unfold normNum
  by_cases h : m = 0
  · rw [if_pos h, h]
  · rw [if_neg h, if_pos (le_refl 0)]
    simp

theorem normNum_neg_exp (m e : Int) (hel : e < 0) (hmod : ¬ m % 10 = 0) :
    normNum m e = (m, e) := by
  have hm : ¬ m = 0 := by
    intro h
    subst h
    simp at hmod
  unfold normNum
  rw [if_neg hm, if_neg (by omega : ¬ (0 : Int) ≤ e)]
  rcases hk : (-e).toNat with _ | k
  · omega
  · rw [stripZeros, if_neg hmod]
    simp only []
    refine Prod.ext rfl ?_
    simp only []
    omega

theorem pNum_printNum_core (m e : Int) (digs rest : Str)
    (hel : e < 0) (hmod : ¬ m % 10 = 0)
    (hdig : ∀ c ∈ digs, isDigitCh c = true)
    (hofd : ofDecDigits digs = m.natAbs)
    (hlen : (-e).toNat + 1 ≤ digs.length)
    (hrest : numDelimOk rest) :
    pNum ((if m < 0 then ['-'] else []) ++ digs.take (digs.length - (-e).toNat) ++
      '.' :: digs.drop (digs.length - (-e).toNat) ++ rest) = some (Json.jnum m e, rest) := by
  have hip : ∀ c ∈ digs.take (digs.length - (-e).toNat), isDigitCh c = true :=
    fun c hc => hdig c (List.take_subset _ _ hc)
  have hipne : ¬ digs.take (digs.length - (-e).toNat) = [] := by
    intro h
    have := congrArg List.length h
    simp only [List.length_take, List.length_nil] at this
    omega
  have hfp : ∀ c ∈ digs.drop (digs.length - (-e).toNat), isDigitCh c = true :=
    fun c hc => hdig c (List.drop_subset _ _ hc)
  have hfplen : ((digs.drop (digs.length - (-e).toNat)).length : Int) = -e := by
    simp only [List.length_drop]
    omega
  have hfpne : ¬ digs.drop (digs.length - (-e).toNat) = [] := by
    intro h0
    rw [h0] at hfplen
    simp at hfplen
    omega
  have happ : digs.take (digs.length - (-e).toNat) ++ digs.drop (digs.length - (-e).toNat) =
      digs := List.take_append_drop _ _
  by_cases hneg : m < 0
  · have hn : normNum (if true then
        -(ofDecDigits (digs.take (digs.length - (-e).toNat) ++
          digs.drop (digs.length - (-e).toNat)) : Int)
        else (ofDecDigits (digs.take (digs.length - (-e).toNat) ++
          digs.drop (digs.length - (-e).toNat)) : Int))
        (0 - ((digs.drop (digs.length - (-e).toNat)).length : Int)) = (m, e) := by
      rw [happ, hofd]
      simp only [ite_true]
      rw [show -((m.natAbs : Int)) = m by omega, show (0 : Int) - ((digs.drop
        (digs.length - (-e).toNat)).length : Int) = e by omega]
      exact normNum_neg_exp m e hel hmod
    have h := pNum_shape true (digs.take (digs.length - (-e).toNat))
      (digs.drop (digs.length - (-e).toNat)) rest m e hip hipne hfp hrest hn
    rw [if_neg hfpne] at h
    simp only [ite_true] at h
    rw [if_pos hneg]
    exact h
  · have hn : normNum (if false then
        -(ofDecDigits (digs.take (digs.length - (-e).toNat) ++
          digs.drop (digs.length - (-e).toNat)) : Int)
        else (ofDecDigits (digs.take (digs.length - (-e).toNat) ++
          digs.drop (digs.length - (-e).toNat)) : Int))
        (0 - ((digs.drop (digs.length - (-e).toNat)).length : Int)) = (m, e) := by
      rw [happ, hofd]
      simp only [ite_false, Bool.false_eq_true]
      rw [show ((m.natAbs : Int)) = m by omega, show (0 : Int) - ((digs.drop
        (digs.length - (-e).toNat)).length : Int) = e by omega]
      exact normNum_neg_exp m e hel hmod
    have h := pNum_shape false (digs.take (digs.length - (-e).toNat))
      (digs.drop (digs.length - (-e).toNat)) rest m e hip hipne hfp hrest hn
    rw [if_neg hfpne] at h
    simp only [ite_false, Bool.false_eq_true, List.nil_append] at h
    rw [if_neg hneg]
    simp only [List.nil_append]
    exact h

theorem pNum_printNum (m e : Int) (hc : canonNum m e = true) (rest : Str)
    (hrest : numDelimOk rest) :
    pNum (printNum m e ++ rest) = some (Json.jnum m e, rest) := by
  have hcanon : (e ≤ 0 ∧ (¬ m = 0 ∨ e = 0)) ∧ (0 ≤ e ∨ ¬ (10 : Int) ∣ m) := by
    simpa [canonNum] using hc
  have he : e ≤ 0 := hcanon.1.1
  have hmod : e < 0 → ¬ m % 10 = 0 := by
    intro h3 h4
    rcases hcanon.2 with h5 | h5
    · omega
    · exact h5 (Int.dvd_of_emod_eq_zero h4)
  by_cases he0 : e = 0
  · subst he0
    unfold printNum
    rw [if_pos rfl]
    unfold intToStr
    by_cases hneg : m < 0
    · rw [if_pos hneg]
      have hn : normNum (if true then -(ofDecDigits (natToStr m.natAbs ++ []) : Int)
          else (ofDecDigits (natToStr m.natAbs ++ []) : Int))
          (0 - (([] : Str).length : Int)) = (m, 0) := by
        rw [List.append_nil, ofDecDigits_natToStr]
        simp only [ite_true, List.length_nil, Nat.cast_zero, sub_zero]
        rw [show -((m.natAbs : Int)) = m by omega]
        exact normNum_zero_exp m
      have h := pNum_shape true (natToStr m.natAbs) [] rest m 0 (natToStr_digits _)
        (natToStr_ne_nil _) (by simp) hrest hn
      simp only [ite_true, if_pos rfl, List.append_nil] at h
      simpa using h
    · rw [if_neg hneg]
      have hn : normNum (if false then -(ofDecDigits (natToStr m.natAbs ++ []) : Int)
          else (ofDecDigits (natToStr m.natAbs ++ []) : Int))
          (0 - (([] : Str).length : Int)) = (m, 0) := by
        rw [List.append_nil, ofDecDigits_natToStr]
        simp only [ite_false, Bool.false_eq_true, List.length_nil, Nat.cast_zero, sub_zero]
        rw [show ((m.natAbs : Int)) = m by omega]
        exact normNum_zero_exp m
      have h := pNum_shape false (natToStr m.natAbs) [] rest m 0 (natToStr_digits _)
        (natToStr_ne_nil _) (by simp) hrest hn
      simp only [ite_false, Bool.false_eq_true, if_pos rfl, List.append_nil,
        List.nil_append] at h
      simpa using h
  · have hel : e < 0 := lt_of_le_of_ne he he0
    have hmod2 := hmod hel
    unfold printNum
    rw [if_neg he0, if_neg (by omega : ¬ (0 : Int) < e)]
    try simp only []
    by_cases hpad : (natToStr m.natAbs).length ≤ (-e).toNat
    · rw [if_pos hpad]
      refine pNum_printNum_core m e _ rest hel hmod2 ?_ ?_ ?_ hrest
      · intro c hc2
        rcases List.mem_append.mp hc2 with h2 | h2
        · have := List.eq_of_mem_replicate h2
          subst this
          decide
        · exact natToStr_digits _ c h2
      · rw [ofDec_zeros_pad, ofDecDigits_natToStr]
      · simp only [List.length_append, List.length_replicate]
        omega
    · rw [if_neg hpad]
      refine pNum_printNum_core m e _ rest hel hmod2 (natToStr_digits _)
        (ofDecDigits_natToStr _) ?_ hrest
      omega

theorem isHexDigit_hexDigitChar : ∀ d, d < 16 → isHexDigit (hexDigitChar d) = true := by
  decide

theorem hexVal_hexDigitChar : ∀ d, d < 16 → hexVal (hexDigitChar d) = d := by
  decide

theorem pStr_quote (T : Str) : pStr (qmark :: T) = some ([], T) := by
  rcases T with _ | ⟨y1, T⟩
  · rfl
  rcases T with _ | ⟨y2, T⟩
  · rfl
  rcases T with _ | ⟨y3, T⟩
  · rfl
  rcases T with _ | ⟨y4, T⟩
  · rfl
  rcases T with _ | ⟨y5, T⟩ <;> rfl

theorem pStr_escQ (T : Str) :
    pStr (bslash :: qmark :: T) = (pStr T).map (fun (r, rest) => (qmark :: r, rest)) := by
  rcases T with _ | ⟨y1, T⟩
  · rfl
  rcases T with _ | ⟨y2, T⟩
  · rfl
  rcases T with _ | ⟨y3, T⟩
  · rfl
  rcases T with _ | ⟨y4, T⟩ <;> rfl

theorem pStr_escBS (T : Str) :
    pStr (bslash :: bslash :: T) = (pStr T).map (fun (r, rest) => (bslash :: r, rest)) := by
  rcases T with _ | ⟨y1, T⟩
  · rfl
  rcases T with _ | ⟨y2, T⟩
  · rfl
  rcases T with _ | ⟨y3, T⟩
  · rfl
  rcases T with _ | ⟨y4, T⟩ <;> rfl

theorem pStr_escN (T : Str) :
    pStr (bslash :: 'n' :: T) = (pStr T).map (fun (r, rest) => ('\n' :: r, rest)) := by
  rcases T with _ | ⟨y1, T⟩
  · rfl
  rcases T with _ | ⟨y2, T⟩
  · rfl
  rcases T with _ | ⟨y3, T⟩
  · rfl
  rcases T with _ | ⟨y4, T⟩ <;> rfl

theorem pStr_escR (T : Str) :
    pStr (bslash :: 'r' :: T) = (pStr T).map (fun (r, rest) => (crChar :: r, rest)) := by
  rcases T with _ | ⟨y1, T⟩
  · rfl
  rcases T with _ | ⟨y2, T⟩
  · rfl
  rcases T with _ | ⟨y3, T⟩
  · rfl
  rcases T with _ | ⟨y4, T⟩ <;> rfl

theorem pStr_escT (T : Str) :
    pStr (bslash :: 't' :: T) = (pStr T).map (fun (r, rest) => ('\t' :: r, rest)) := by
  rcases T with _ | ⟨y1, T⟩
  · rfl
  rcases T with _ | ⟨y2, T⟩
  · rfl
  rcases T with _ | ⟨y3, T⟩
  · rfl
  rcases T with _ | ⟨y4, T⟩ <;> rfl

theorem pStr_escB (T : Str) :
    pStr (bslash :: 'b' :: T) = (pStr T).map (fun (r, rest) => (Char.ofNat 8 :: r, rest)) := by
  rcases T with _ | ⟨y1, T⟩
  · rfl
  rcases T with _ | ⟨y2, T⟩
  · rfl
  rcases T with _ | ⟨y3, T⟩
  · rfl
  rcases T with _ | ⟨y4, T⟩ <;> rfl

theorem pStr_escF (T : Str) :
    pStr (bslash :: 'f' :: T) = (pStr T).map (fun (r, rest) => (Char.ofNat 12 :: r, rest)) := by
  rcases T with _ | ⟨y1, T⟩
  · rfl
  rcases T with _ | ⟨y2, T⟩
  · rfl
  rcases T with _ | ⟨y3, T⟩
  · rfl
  rcases T with _ | ⟨y4, T⟩ <;> rfl

theorem pStr_other (c : Char) (hq : ¬ c = qmark) (hb : ¬ c = bslash) (T : Str) :
    pStr (c :: T) = (pStr T).map (fun (r, rest) => (c :: r, rest)) := by
  rcases T with _ | ⟨y1, T⟩
  · rw [pStr.eq_2, if_neg hq, if_neg hb]
  rcases T with _ | ⟨y2, T⟩
  · rw [pStr.eq_4 c y1 [] (fun h1 h2 h3 h4 t3 h => by
      have hl := congrArg List.length h
      simp at hl), if_neg hq, if_neg hb]
  rcases T with _ | ⟨y3, T⟩
  · rw [pStr.eq_4 c y1 [y2] (fun h1 h2 h3 h4 t3 h => by
      have hl := congrArg List.length h
      simp at hl), if_neg hq, if_neg hb]
  rcases T with _ | ⟨y4, T⟩
  · rw [pStr.eq_4 c y1 [y2, y3] (fun h1 h2 h3 h4 t3 h => by
      have hl := congrArg List.length h
      simp at hl), if_neg hq, if_neg hb]
  rcases T with _ | ⟨y5, T⟩
  · rw [pStr.eq_4 c y1 [y2, y3, y4] (fun h1 h2 h3 h4 t3 h => by
      have hl := congrArg List.length h
      simp at hl), if_neg hq, if_neg hb]
  rw [pStr.eq_3, if_neg hq, if_neg hb]

theorem pStr_u (c : Char) (hlt : c.toNat < 32) (T : Str) :
    pStr (bslash :: 'u' :: '0' :: '0' ::
        hexDigitChar (c.toNat / 16) :: hexDigitChar (c.toNat % 16) :: T)
      = (pStr T).map (fun (r, rest) => (c :: r, rest)) := by
  rw [pStr.eq_3, if_neg (by decide : ¬ bslash = qmark), if_pos (rfl : bslash = bslash)]
  rw [if_neg (by decide : ¬ 'u' = qmark), if_neg (by decide : ¬ 'u' = bslash),
      if_neg (by decide : ¬ 'u' = '/'), if_neg (by decide : ¬ 'u' = 'n'),
      if_neg (by decide : ¬ 'u' = 'r'), if_neg (by decide : ¬ 'u' = 't'),
      if_neg (by decide : ¬ 'u' = 'b'), if_neg (by decide : ¬ 'u' = 'f'),
      if_pos (rfl : 'u' = 'u')]
  have hhex : (isHexDigit '0' && isHexDigit '0' && isHexDigit (hexDigitChar (c.toNat / 16)) &&
      isHexDigit (hexDigitChar (c.toNat % 16))) = true := by
    rw [isHexDigit_hexDigitChar _ (by omega), isHexDigit_hexDigitChar _ (by omega)]; decide
  rw [if_pos hhex]
  have hn : ((hexVal '0' * 16 + hexVal '0') * 16 + hexVal (hexDigitChar (c.toNat / 16))) * 16 +
      hexVal (hexDigitChar (c.toNat % 16)) = c.toNat := by
    rw [hexVal_hexDigitChar _ (by omega), hexVal_hexDigitChar _ (by omega)]
    have h0 : hexVal '0' = 0 := by decide
    rw [h0]; omega
  rw [hn]
  rw [if_pos (by omega : c.toNat < 55296), Char.ofNat_toNat]

theorem pStr_escStr : ∀ (s rest : Str), pStr (escStr s ++ qmark :: rest) = some (s, rest) := by
  intro s
  induction s with
  | nil =>
    intro rest
    exact pStr_quote rest
  | cons c t ih =>
    intro rest
    have hesc : escStr (c :: t) ++ qmark :: rest = escChar c ++ (escStr t ++ qmark :: rest) := by
      simp [escStr]
    rw [hesc]
    by_cases h1 : c = qmark
    · subst h1
      rw [show escChar qmark = [bslash, qmark] by decide]
      simp only [List.cons_append, List.nil_append]
      rw [pStr_escQ, ih]
      rfl
    by_cases h2 : c = bslash
    · subst h2
      rw [show escChar bslash = [bslash, bslash] by decide]
      simp only [List.cons_append, List.nil_append]
      rw [pStr_escBS, ih]
      rfl
    by_cases h3 : c = '\n'
    · subst h3
      rw [show escChar '\n' = [bslash, 'n'] by decide]
      simp only [List.cons_append, List.nil_append]
      rw [pStr_escN, ih]
      rfl
    by_cases h4 : c = crChar
    · subst h4
      rw [show escChar crChar = [bslash, 'r'] by decide]
      simp only [List.cons_append, List.nil_append]
      rw [pStr_escR, ih]
      rfl
    by_cases h5 : c = '\t'
    · subst h5
      rw [show escChar '\t' = [bslash, 't'] by decide]
      simp only [List.cons_append, List.nil_append]
      rw [pStr_escT, ih]
      rfl
    by_cases h6 : c = Char.ofNat 8
    · subst h6
      rw [show escChar (Char.ofNat 8) = [bslash, 'b'] by decide]
      simp only [List.cons_append, List.nil_append]
      rw [pStr_escB, ih]
      rfl
    by_cases h7 : c = Char.ofNat 12
    · subst h7
      rw [show escChar (Char.ofNat 12) = [bslash, 'f'] by decide]
      simp only [List.cons_append, List.nil_append]
      rw [pStr_escF, ih]
      rfl
    by_cases h8 : c.toNat < 32
    · rw [show escChar c = [bslash, 'u', '0', '0',
          hexDigitChar (c.toNat / 16), hexDigitChar (c.toNat % 16)] by
        rw [escChar, if_neg h1, if_neg h2, if_neg h3, if_neg h4, if_neg h5,
            if_neg h6, if_neg h7, if_pos h8]]
      simp only [List.cons_append, List.nil_append]
      rw [pStr_u c h8, ih]
      rfl
    · rw [show escChar c = [c] by
        rw [escChar, if_neg h1, if_neg h2, if_neg h3, if_neg h4, if_neg h5,
            if_neg h6, if_neg h7, if_neg h8]]
      simp only [List.cons_append, List.nil_append]
      rw [pStr_other c h1 h2, ih]
      rfl

theorem jfuel_pos : ∀ v, 1 ≤ jfuel v := by
  intro v
  cases v <;> (simp only [jfuel]; omega)

theorem jfuelL_pos : ∀ xs, 1 ≤ jfuelL xs := by
  intro xs
  cases xs <;> (simp only [jfuelL]; omega)

theorem jfuelF_pos : ∀ fs, 1 ≤ jfuelF fs := by
  intro fs
  rcases fs with _ | ⟨⟨k, v⟩, fs⟩ <;> (simp only [jfuelF]; omega)

theorem skipWs_cons_neg (c : Char) (t : Str) (h : isJsonWs c = false) :
    skipWs (c :: t) = c :: t := by
  simp [skipWs, List.dropWhile, h]

theorem skipWs_ws_append (ws : Str) (hws : ∀ c ∈ ws, isJsonWs c = true) (s : Str) :
    skipWs (ws ++ s) = skipWs s := by
  induction ws with
  | nil => rfl
  | cons c t ih =>
    have hc : isJsonWs c = true := hws c (by simp)
    have ih2 := ih (fun c2 hc2 => hws c2 (by simp [hc2]))
    simpa [skipWs, List.dropWhile, hc] using ih2

theorem nlIndent_ws (d : Nat) : ∀ c ∈ nlIndent d, isJsonWs c = true := by
  intro c hc
  simp only [nlIndent, List.mem_cons] at hc
  rcases hc with h | h
  · subst h; decide
  · have := List.eq_of_mem_replicate h
    subst this; decide

theorem isJsonWs_elim (c : Char) (h : isJsonWs c = true) :
    c = ' ' ∨ c = '\t' ∨ c = '\n' ∨ c = crChar := by
  have h2 := h
  simp only [isJsonWs, Bool.or_eq_true, decide_eq_true_eq] at h2
  tauto

theorem ws_delim (ch : Char) (h : isJsonWs ch = true) :
    isDigitCh ch = false ∧ ¬ ch = '.' ∧ ¬ ch = 'e' ∧ ¬ ch = 'E' := by
  rcases isJsonWs_elim ch h with h | h | h | h <;> subst h <;>
    exact ⟨by decide, by decide, by decide, by decide⟩

theorem numDelimOk_cons (c : Char) (t : Str) (h1 : isDigitCh c = false) (h2 : ¬ c = '.')
    (h3 : ¬ c = 'e') (h4 : ¬ c = 'E') : numDelimOk (c :: t) := by
  intro ch hch
  simp only [List.head?, Option.some.injEq] at hch
  subst hch
  exact ⟨h1, h2, h3, h4⟩

theorem numDelimOk_W (W rest : Str) (c0 : Char) (hW : skipWs W = c0 :: rest)
    (h1 : isDigitCh c0 = false) (h2 : ¬ c0 = '.') (h3 : ¬ c0 = 'e') (h4 : ¬ c0 = 'E') :
    numDelimOk W := by
  intro ch hch
  cases W with
  | nil => simp at hch
  | cons w W2 =>
    simp only [List.head?, Option.some.injEq] at hch
    subst hch
    by_cases hw : isJsonWs w = true
    · exact ws_delim w hw
    · rw [skipWs_cons_neg w W2 (by simpa using hw)] at hW
      injection hW with hW1 hW2
      subst hW1
      exact ⟨h1, h2, h3, h4⟩

theorem insertField_fresh : ∀ (fs : List (Str × Json)) (k : Str) (v : Json),
    k ∉ fs.map Prod.fst → insertField fs k v = fs ++ [(k, v)] := by
  intro fs
  induction fs with
  | nil => intro k v _; rfl
  | cons p rest ih =>
    intro k v h
    obtain ⟨k0, v0⟩ := p
    simp only [List.map_cons, List.mem_cons] at h
    push_neg at h
    rw [insertField, if_neg (fun he => h.1 he.symm), ih k v h.2]
    rfl

theorem str_head_digit (s : Str) (hne : s ≠ []) (hd : ∀ c ∈ s, isDigitCh c = true) :
    ∃ c t, s = c :: t ∧ isDigitCh c = true := by
  cases s with
  | nil => exact absurd rfl hne
  | cons c t => exact ⟨c, t, rfl, hd c (by simp)⟩

theorem printNum_head (m e : Int) :
    ∃ c t, printNum m e = c :: t ∧ (c = '-' ∨ isDigitCh c = true) := by
  rw [printNum]
  by_cases h0 : e = 0
  · rw [if_pos h0, intToStr]
    by_cases hm : m < 0
    · rw [if_pos hm]
      exact ⟨'-', _, rfl, Or.inl rfl⟩
    · rw [if_neg hm]
      obtain ⟨c, t, he, hd⟩ :=
        str_head_digit (natToStr m.natAbs) (natToStr_ne_nil _) (natToStr_digits _)
      exact ⟨c, t, he, Or.inr hd⟩
  · rw [if_neg h0]
    by_cases hpos : 0 < e
    · rw [if_pos hpos, intToStr]
      by_cases hm : m < 0
      · rw [if_pos hm]
        exact ⟨'-', _, rfl, Or.inl rfl⟩
      · rw [if_neg hm]
        obtain ⟨c, t, he, hd⟩ :=
          str_head_digit (natToStr m.natAbs) (natToStr_ne_nil _) (natToStr_digits _)
        exact ⟨c, t ++ List.replicate e.toNat '0', by rw [he]; rfl, Or.inr hd⟩
    · rw [if_neg hpos]
      simp only []
      by_cases hm : m < 0
      · rw [if_pos hm]
        exact ⟨'-', _, rfl, Or.inl rfl⟩
      · rw [if_neg hm]
        have hlen0 : natToStr m.natAbs ≠ [] := natToStr_ne_nil _
        obtain ⟨c, D2, hD, hdig⟩ : ∃ c D2,
            (if (natToStr m.natAbs).length ≤ (-e).toNat then
              List.replicate ((-e).toNat + 1 - (natToStr m.natAbs).length) '0' ++ natToStr m.natAbs
            else natToStr m.natAbs) = c :: D2 ∧ isDigitCh c = true := by
          by_cases hpad : (natToStr m.natAbs).length ≤ (-e).toNat
          · rw [if_pos hpad]
            have hk : (-e).toNat + 1 - (natToStr m.natAbs).length =
                ((-e).toNat - (natToStr m.natAbs).length) + 1 := by
              omega
            rw [hk, List.replicate_succ]
            exact ⟨'0', _, rfl, by decide⟩
          · rw [if_neg hpad]
            exact str_head_digit _ hlen0 (natToStr_digits _)
        rw [hD]
        have hlenD : (-e).toNat < (c :: D2).length := by
          by_cases hpad : (natToStr m.natAbs).length ≤ (-e).toNat
          · have : (c :: D2).length = (-e).toNat + 1 := by
              rw [← hD, if_pos hpad]
              simp only [List.length_append, List.length_replicate]
              omega
            omega
          · have : (c :: D2).length = (natToStr m.natAbs).length := by
              rw [← hD, if_neg hpad]
            omega
        have hlen2 : (c :: D2).length - (-e).toNat = (D2.length - (-e).toNat) + 1 := by
          simp only [List.length_cons] at *
          omega
        rw [hlen2, List.take_succ_cons, List.drop_succ_cons]
        exact ⟨c, _, rfl, Or.inr hdig⟩

theorem digit_not_qmark (c : Char) (h : isDigitCh c = true) : ¬ c = qmark := by
  intro he; subst he; simp [isDigitCh, qmark] at h

theorem num_head_facts (c : Char) (h : c = '-' ∨ isDigitCh c = true) :
    ¬ c = qmark ∧ ¬ c = '[' ∧ ¬ c = lbrace ∧ ¬ c = 't' ∧ ¬ c = 'f' ∧ ¬ c = 'n' ∧
      isJsonWs c = false := by
  rcases h with h | h
  · subst h
    exact ⟨by decide, by decide, by decide, by decide, by decide, by decide, by decide⟩
  · refine ⟨?_, ?_, ?_, ?_, ?_, ?_, ?_⟩
    · intro he; rw [he] at h; exact absurd h (by decide)
    · intro he; rw [he] at h; exact absurd h (by decide)
    · intro he; rw [he] at h; exact absurd h (by decide)
    · intro he; rw [he] at h; exact absurd h (by decide)
    · intro he; rw [he] at h; exact absurd h (by decide)
    · intro he; rw [he] at h; exact absurd h (by decide)
    · by_cases hw : isJsonWs c = true
      · rcases isJsonWs_elim c hw with h2 | h2 | h2 | h2 <;> rw [h2] at h <;>
          exact absurd h (by decide)
      · simpa using hw

theorem digit_facts (c : Char) (h : isDigitCh c = true) :
    isJsonWs c = false ∧ ¬ c = ']' ∧ ¬ c = rbrace ∧ ¬ c = ',' := by
  refine ⟨?_, ?_, ?_, ?_⟩
  · by_cases hw : isJsonWs c = true
    · rcases isJsonWs_elim c hw with h2 | h2 | h2 | h2 <;> rw [h2] at h <;>
        exact absurd h (by decide)
    · simpa using hw
  · intro he; rw [he] at h; exact absurd h (by decide)
  · intro he; rw [he] at h; exact absurd h (by decide)
  · intro he; rw [he] at h; exact absurd h (by decide)

theorem pv_head (d : Nat) (v : Json) :
    ∃ c t, pv d v = c :: t ∧ isJsonWs c = false ∧ ¬ c = ']' ∧ ¬ c = rbrace ∧ ¬ c = ',' := by
  cases v with
  | jnull => exact ⟨'n', _, rfl, by decide, by decide, by decide, by decide⟩
  | jbool b =>
    cases b
    · exact ⟨'f', _, rfl, by decide, by decide, by decide, by decide⟩
    · exact ⟨'t', _, rfl, by decide, by decide, by decide, by decide⟩
  | jnum m e =>
    obtain ⟨c, t, he, hd⟩ := printNum_head m e
    rcases hd with hd | hd
    · subst hd
      exact ⟨'-', t, he, by decide, by decide, by decide, by decide⟩
    · obtain ⟨f1, f2, f3, f4⟩ := digit_facts c hd
      exact ⟨c, t, he, f1, f2, f3, f4⟩
  | jstr s => exact ⟨qmark, _, rfl, by decide, by decide, by decide, by decide⟩
  | jarr xs =>
    cases xs
    · exact ⟨'[', _, rfl, by decide, by decide, by decide, by decide⟩
    · exact ⟨'[', _, rfl, by decide, by decide, by decide, by decide⟩
  | jobj fs =>
    rcases fs with _ | ⟨⟨k, v0⟩, fs⟩
    · exact ⟨lbrace, _, rfl, by decide, by decide, by decide, by decide⟩
    · exact ⟨lbrace, _, rfl, by decide, by decide, by decide, by decide⟩

theorem pVal_congr (f : Nat) (s s2 : Str) (h : skipWs s = skipWs s2) :
    pVal f s = pVal f s2 := by
  cases f with
  | zero => rfl
  | succ g => rw [pVal, pVal, h]

theorem pVal_str (f : Nat) (t : Str) :
    pVal (f + 1) (qmark :: t) = (pStr t).map (fun (r, rest) => (Json.jstr r, rest)) := by
  rw [pVal, skipWs_cons_neg qmark t (by decide)]
  simp only []
  rw [if_pos trivial]

theorem pVal_arr (g : Nat) (t : Str) :
    pVal (g + 1) ('[' :: t) =
      (match skipWs t with
        | [] => none
        | c2 :: t2 =>
          if c2 = ']' then some (Json.jarr [], t2)
          else (pElems g (c2 :: t2)).map (fun (vs, rest) => (Json.jarr vs, rest))) := by
  rw [pVal, skipWs_cons_neg '[' t (by decide)]
  simp only []
  rw [if_neg (show ¬ '[' = qmark by decide), if_pos trivial]

theorem pVal_obj (g : Nat) (t : Str) :
    pVal (g + 1) (lbrace :: t) =
      (match skipWs t with
        | [] => none
        | c2 :: t2 =>
          if c2 = rbrace then some (Json.jobj [], t2)
          else (pFields g (c2 :: t2) []).map (fun (fs, rest) => (Json.jobj fs, rest))) := by
  rw [pVal, skipWs_cons_neg lbrace t (by decide)]
  simp only []
  rw [if_neg (show ¬ lbrace = qmark by decide), if_neg (show ¬ lbrace = '[' by decide),
    if_pos trivial]

theorem parse_print_aux : ∀ fuel : Nat,
    (∀ v d ws rest, Canon v → jfuel v ≤ fuel → (∀ c ∈ ws, isJsonWs c = true) →
      numDelimOk rest → pVal fuel (ws ++ (pv d v ++ rest)) = some (v, rest)) ∧
    (∀ x xs d ws W rest, Canon x → (∀ y ∈ xs, Canon y) → jfuelL (x :: xs) ≤ fuel + 1 →
      (∀ c ∈ ws, isJsonWs c = true) → skipWs W = ']' :: rest →
      pElems fuel (ws ++ (pv d x ++ (pvTail d xs ++ W))) = some (x :: xs, rest)) ∧
    (∀ k v fs acc d ws W rest, Canon v → (∀ p ∈ fs, Canon p.2) →
      jfuelF ((k, v) :: fs) ≤ fuel + 1 →
      ((acc ++ (k, v) :: fs).map Prod.fst).Nodup →
      (∀ c ∈ ws, isJsonWs c = true) → skipWs W = rbrace :: rest →
      pFields fuel
        (ws ++ (qmark :: (escStr k ++ (qmark ::
          (':' :: (' ' :: (pv d v ++ (pvFTail d fs ++ W)))))))) acc
        = some (acc ++ (k, v) :: fs, rest)) := by
  intro fuel
  induction fuel with
  | zero =>
    refine ⟨?_, ?_, ?_⟩
    · intro v d ws rest hc hf hws hrest
      have := jfuel_pos v
      omega
    · intro x xs d ws W rest hcx hcxs hf hws hW
      have h1 := jfuel_pos x
      have h2 := jfuelL_pos xs
      simp only [jfuelL] at hf
      omega
    · intro k v fs acc d ws W rest hcv hcfs hf hnd hws hW
      have h1 := jfuel_pos v
      have h2 := jfuelF_pos fs
      simp only [jfuelF] at hf
      omega
  | succ g ih =>
    obtain ⟨ihP, ihQ, ihR⟩ := ih
    refine ⟨?_, ?_, ?_⟩
    · -- pVal on a printed value
      intro v d ws rest hc hf hws hrest
      rw [pVal_congr (g + 1) _ _ (skipWs_ws_append ws hws (pv d v ++ rest))]
      cases hc with
      | cnull =>
        rw [show pv d Json.jnull ++ rest = 'n' :: ('u' :: 'l' :: 'l' :: rest) from rfl]
        rw [pVal, skipWs_cons_neg 'n' _ (by decide)]
        simp only []
        rw [if_neg (by decide : ¬ 'n' = qmark), if_neg (by decide : ¬ 'n' = '['),
          if_neg (by decide : ¬ 'n' = lbrace), if_neg (by decide : ¬ 'n' = 't'),
          if_neg (by decide : ¬ 'n' = 'f'), if_pos trivial,
          if_pos (show List.isPrefixOf (txt "ull") ('u' :: 'l' :: 'l' :: rest) = true by
            simp [txt, List.isPrefixOf])]
        rfl
      | cbool b =>
        cases b
        · rw [show pv d (Json.jbool false) ++ rest =
              'f' :: ('a' :: 'l' :: 's' :: 'e' :: rest) from rfl]
          rw [pVal, skipWs_cons_neg 'f' _ (by decide)]
          simp only []
          rw [if_neg (by decide : ¬ 'f' = qmark), if_neg (by decide : ¬ 'f' = '['),
            if_neg (by decide : ¬ 'f' = lbrace), if_neg (by decide : ¬ 'f' = 't'),
            if_pos trivial,
            if_pos (show List.isPrefixOf (txt "alse") ('a' :: 'l' :: 's' :: 'e' :: rest) = true by
              simp [txt, List.isPrefixOf])]
          rfl
        · rw [show pv d (Json.jbool true) ++ rest =
              't' :: ('r' :: 'u' :: 'e' :: rest) from rfl]
          rw [pVal, skipWs_cons_neg 't' _ (by decide)]
          simp only []
          rw [if_neg (by decide : ¬ 't' = qmark), if_neg (by decide : ¬ 't' = '['),
            if_neg (by decide : ¬ 't' = lbrace), if_pos trivial,
            if_pos (show List.isPrefixOf (txt "rue") ('r' :: 'u' :: 'e' :: rest) = true by
              simp [txt, List.isPrefixOf])]
          rfl
      | cnum m e hn =>
        obtain ⟨c, t, he, hd⟩ := printNum_head m e
        obtain ⟨f1, f2, f3, f4, f5, f6, f7⟩ := num_head_facts c hd
        rw [show pv d (Json.jnum m e) ++ rest = printNum m e ++ rest from rfl, he,
          List.cons_append]
        rw [pVal, skipWs_cons_neg c _ f7]
        simp only []
        rw [if_neg f1, if_neg f2, if_neg f3, if_neg f4, if_neg f5, if_neg f6]
        rw [← List.cons_append, ← he]
        exact pNum_printNum m e hn rest hrest
      | cstr s =>
        rw [show pv d (Json.jstr s) ++ rest = qmark :: (escStr s ++ (qmark :: rest)) by
          show quoteStr s ++ rest = _
          simp [quoteStr, List.append_assoc]]
        rw [pVal_str, pStr_escStr]
        rfl
      | carr xs hall =>
        rcases xs with _ | ⟨x, xs⟩
        · rw [show pv d (Json.jarr []) ++ rest = '[' :: (']' :: rest) from rfl]
          rw [pVal_arr, skipWs_cons_neg ']' _ (by decide)]
          rfl
        · obtain ⟨cH, tH, hpvx, hw1, hbr1, hbrc1, hcm1⟩ := pv_head (d + 1) x
          rw [show pv d (Json.jarr (x :: xs)) ++ rest =
              '[' :: (nlIndent (d + 1) ++ (pv (d + 1) x ++ (pvTail (d + 1) xs ++
                (nlIndent d ++ (']' :: rest))))) by
            simp [pv, List.append_assoc]]
          rw [pVal_arr]
          rw [show skipWs (nlIndent (d + 1) ++ (pv (d + 1) x ++ (pvTail (d + 1) xs ++
              (nlIndent d ++ (']' :: rest))))) =
              cH :: (tH ++ (pvTail (d + 1) xs ++ (nlIndent d ++ (']' :: rest)))) by
            rw [skipWs_ws_append _ (nlIndent_ws _), hpvx, List.cons_append]
            exact skipWs_cons_neg cH _ hw1]
          simp only []
          rw [if_neg hbr1]
          rw [show cH :: (tH ++ (pvTail (d + 1) xs ++ (nlIndent d ++ (']' :: rest)))) =
              pv (d + 1) x ++ (pvTail (d + 1) xs ++ (nlIndent d ++ (']' :: rest))) by
            rw [hpvx, List.cons_append]]
          have hfl : jfuelL (x :: xs) ≤ g + 1 := by
            simp only [jfuel] at hf
            omega
          have hskW : skipWs (nlIndent d ++ (']' :: rest)) = ']' :: rest := by
            rw [skipWs_ws_append _ (nlIndent_ws _)]
            exact skipWs_cons_neg ']' _ (by decide)
          have hQ : pElems g (pv (d + 1) x ++ (pvTail (d + 1) xs ++
              (nlIndent d ++ (']' :: rest)))) = some (x :: xs, rest) := by
            have := ihQ x xs (d + 1) [] (nlIndent d ++ (']' :: rest)) rest
              (hall x (by simp)) (fun y hy => hall y (by simp [hy])) hfl
              (by intro c hc; simp at hc) hskW
            simpa using this
          rw [hQ]
          rfl
      | cobj fs0 hk hall =>
        rcases fs0 with _ | ⟨⟨k, v0⟩, fs⟩
        · rw [show pv d (Json.jobj []) ++ rest = lbrace :: (rbrace :: rest) from rfl]
          rw [pVal_obj, skipWs_cons_neg rbrace _ (by decide)]
          rfl
        · rw [show pv d (Json.jobj ((k, v0) :: fs)) ++ rest =
              lbrace :: (nlIndent (d + 1) ++ (qmark :: (escStr k ++ (qmark ::
                (':' :: (' ' :: (pv (d + 1) v0 ++ (pvFTail (d + 1) fs ++
                  (nlIndent d ++ (rbrace :: rest)))))))))) by
            simp [pv, quoteStr, List.append_assoc]]
          rw [pVal_obj]
          rw [show skipWs (nlIndent (d + 1) ++ (qmark :: (escStr k ++ (qmark ::
              (':' :: (' ' :: (pv (d + 1) v0 ++ (pvFTail (d + 1) fs ++
                (nlIndent d ++ (rbrace :: rest)))))))))) =
              qmark :: (escStr k ++ (qmark :: (':' :: (' ' :: (pv (d + 1) v0 ++
                (pvFTail (d + 1) fs ++ (nlIndent d ++ (rbrace :: rest)))))))) by
            rw [skipWs_ws_append _ (nlIndent_ws _)]
            exact skipWs_cons_neg qmark _ (by decide)]
          simp only []
          rw [if_neg (by decide : ¬ qmark = rbrace)]
          have hff : jfuelF ((k, v0) :: fs) ≤ g + 1 := by
            simp only [jfuel] at hf
            omega
          have hskW : skipWs (nlIndent d ++ (rbrace :: rest)) = rbrace :: rest := by
            rw [skipWs_ws_append _ (nlIndent_ws _)]
            exact skipWs_cons_neg rbrace _ (by decide)
          have hR : pFields g (qmark :: (escStr k ++ (qmark :: (':' :: (' ' ::
              (pv (d + 1) v0 ++ (pvFTail (d + 1) fs ++ (nlIndent d ++
                (rbrace :: rest))))))))) [] = some ((k, v0) :: fs, rest) := by
            have := ihR k v0 fs [] (d + 1) [] (nlIndent d ++ (rbrace :: rest)) rest
              (hall (k, v0) (by simp)) (fun p hp => hall p (by simp [hp])) hff
              (by simpa using hk) (by intro c hc; simp at hc) hskW
            simpa using this
          rw [hR]
          rfl
    · -- pElems on a printed element list
      intro x xs d ws W rest hcx hcxs hf hws hW
      have hfx : jfuel x ≤ g := by
        simp only [jfuelL] at hf
        have := jfuelL_pos xs
        omega
      have hrest : numDelimOk (pvTail d xs ++ W) := by
        cases xs with
        | nil =>
          simp only [pvTail, List.nil_append]
          exact numDelimOk_W W rest ']' hW (by decide) (by decide) (by decide) (by decide)
        | cons y ys =>
          simp only [pvTail, List.cons_append, List.append_assoc]
          exact numDelimOk_cons ',' _ (by decide) (by decide) (by decide) (by decide)
      have hP : pVal g (ws ++ (pv d x ++ (pvTail d xs ++ W))) =
          some (x, pvTail d xs ++ W) :=
        ihP x d ws (pvTail d xs ++ W) hcx hfx hws hrest
      rw [pElems, hP]
      simp only []
      cases xs with
      | nil =>
        simp only [pvTail, List.nil_append]
        rw [hW]
        rfl
      | cons y ys =>
        rw [show pvTail d (y :: ys) ++ W =
            ',' :: (nlIndent d ++ (pv d y ++ (pvTail d ys ++ W))) by
          simp [pvTail, List.append_assoc]]
        rw [skipWs_cons_neg ',' _ (by decide)]
        simp only []
        rw [if_pos trivial]
        have hfl : jfuelL (y :: ys) ≤ g + 1 := by
          simp only [jfuelL] at hf ⊢
          have := jfuel_pos x
          omega
        have hQ : pElems g (nlIndent d ++ (pv d y ++ (pvTail d ys ++ W))) =
            some (y :: ys, rest) :=
          ihQ y ys d (nlIndent d) W rest (hcxs y (by simp))
            (fun z hz => hcxs z (by simp [hz])) hfl (nlIndent_ws d) hW
        rw [hQ]
        rfl
    · -- pFields on a printed field list
      intro k v fs acc d ws W rest hcv hcfs hf hnd hws hW
      rw [pFields, skipWs_ws_append ws hws, skipWs_cons_neg qmark _ (by decide)]
      simp only []
      rw [if_pos trivial, pStr_escStr]
      simp only []
      rw [skipWs_cons_neg ':' _ (by decide)]
      simp only []
      rw [if_pos trivial]
      have hfv : jfuel v ≤ g := by
        simp only [jfuelF] at hf
        have := jfuelF_pos fs
        omega
      have hre : numDelimOk (pvFTail d fs ++ W) := by
        rcases fs with _ | ⟨⟨k2, v2⟩, fs2⟩
        · simp only [pvFTail, List.nil_append]
          exact numDelimOk_W W rest rbrace hW (by decide) (by decide) (by decide) (by decide)
        · simp only [pvFTail, List.cons_append, List.append_assoc]
          exact numDelimOk_cons ',' _ (by decide) (by decide) (by decide) (by decide)
      have hP : pVal g (' ' :: (pv d v ++ (pvFTail d fs ++ W))) =
          some (v, pvFTail d fs ++ W) := by
        have := ihP v d [' '] (pvFTail d fs ++ W) hcv hfv
          (by intro c hc; simp at hc; subst hc; decide) hre
        simpa using this
      rw [hP]
      simp only []
      have hkfresh : k ∉ acc.map Prod.fst := by
        intro hmem
        rw [List.map_append] at hnd
        have hdisj := (List.nodup_append.mp hnd).2.2
        exact hdisj hmem (by simp)
      rw [insertField_fresh acc k v hkfresh]
      rcases fs with _ | ⟨⟨k2, v2⟩, fs2⟩
      · simp only [pvFTail, List.nil_append]
        rw [hW]
        rfl
      · rw [show pvFTail d ((k2, v2) :: fs2) ++ W =
            ',' :: (nlIndent d ++ (qmark :: (escStr k2 ++ (qmark :: (':' :: (' ' ::
              (pv d v2 ++ (pvFTail d fs2 ++ W)))))))) by
          simp [pvFTail, quoteStr, List.append_assoc]]
        rw [skipWs_cons_neg ',' _ (by decide)]
        simp only []
        rw [if_pos trivial]
        have hff : jfuelF ((k2, v2) :: fs2) ≤ g + 1 := by
          simp only [jfuelF] at hf ⊢
          have := jfuel_pos v
          omega
        have hnd2 : (((acc ++ [(k, v)]) ++ (k2, v2) :: fs2).map Prod.fst).Nodup := by
          simpa [List.append_assoc] using hnd
        have hR : pFields g (nlIndent d ++ (qmark :: (escStr k2 ++ (qmark :: (':' ::
            (' ' :: (pv d v2 ++ (pvFTail d fs2 ++ W)))))))) (acc ++ [(k, v)]) =
            some ((acc ++ [(k, v)]) ++ (k2, v2) :: fs2, rest) :=
          ihR k2 v2 fs2 (acc ++ [(k, v)]) d (nlIndent d) W rest
            (hcfs (k2, v2) (by simp)) (fun p hp => hcfs p (by simp [hp])) hff hnd2
            (nlIndent_ws d) hW
        rw [hR]
        simp [List.append_assoc]

mutual

theorem jfuel_le_pv : ∀ (v : Json) (d : Nat), jfuel v ≤ (pv d v).length + 1
  | Json.jnull, d => by simp [jfuel, pv, txt]
  | Json.jbool b, d => by cases b <;> simp [jfuel, pv, txt]
  | Json.jnum m e, d => by simp only [jfuel, pv]; omega
  | Json.jstr s, d => by simp only [jfuel, pv]; omega
  | Json.jarr [], d => by simp [jfuel, jfuelL, pv, txt]
  | Json.jarr (x :: xs), d => by
    have h1 := jfuel_le_pv x (d + 1)
    have h2 := jfuelL_le_pvTail xs (d + 1)
    simp only [jfuel, jfuelL, pv, nlIndent, List.length_cons, List.length_append,
      List.length_replicate, List.length_nil]
    omega
  | Json.jobj [], d => by simp [jfuel, jfuelF, pv]
  | Json.jobj ((k, v) :: fs), d => by
    have h1 := jfuel_le_pv v (d + 1)
    have h2 := jfuelF_le_pvFTail fs (d + 1)
    simp only [jfuel, jfuelF, pv, nlIndent, quoteStr, List.length_cons, List.length_append,
      List.length_replicate, List.length_nil]
    omega
termination_by v _ => sizeOf v

theorem jfuelL_le_pvTail : ∀ (xs : List Json) (d : Nat), jfuelL xs ≤ (pvTail d xs).length + 1
  | [], d => by simp [jfuelL, pvTail]
  | x :: xs, d => by
    have h1 := jfuel_le_pv x d
    have h2 := jfuelL_le_pvTail xs d
    simp only [jfuelL, pvTail, nlIndent, List.length_cons, List.length_append,
      List.length_replicate, List.length_nil]
    omega
termination_by xs _ => sizeOf xs

theorem jfuelF_le_pvFTail : ∀ (fs : List (Str × Json)) (d : Nat),
    jfuelF fs ≤ (pvFTail d fs).length + 1
  | [], d => by simp [jfuelF, pvFTail]
  | (k, v) :: fs, d => by
    have h1 := jfuel_le_pv v d
    have h2 := jfuelF_le_pvFTail fs d
    simp only [jfuelF, pvFTail, nlIndent, quoteStr, List.length_cons, List.length_append,
      List.length_replicate, List.length_nil]
    omega
termination_by fs _ => sizeOf fs

end

theorem parseJson_stringify2_newline (v : Json) (hc : Canon v) :
    parseJson (stringify2 v ++ ['\n']) = some v := by
  have hjl := jfuel_le_pv v 0
  have hfb : jfuel v ≤ 2 * (stringify2 v ++ ['\n']).length + 2 := by
    simp only [stringify2] at *
    simp only [List.length_append, List.length_cons, List.length_nil]
    omega
  have hP := (parse_print_aux (2 * (stringify2 v ++ ['\n']).length + 2)).1 v 0 [] ['\n']
    hc hfb (by intro c hc2; simp at hc2)
    (numDelimOk_cons '\n' [] (by decide) (by decide) (by decide) (by decide))
  have hP2 : pVal (2 * (stringify2 v ++ ['\n']).length + 2) (stringify2 v ++ ['\n']) =
      some (v, ['\n']) := by
    simpa [stringify2] using hP
  rw [parseJson, hP2]
  rfl

theorem parseJson_stringify2 (v : Json) (hc : Canon v) :
    parseJson (stringify2 v) = some v := by
  have hjl := jfuel_le_pv v 0
  have hfb : jfuel v ≤ 2 * (stringify2 v).length + 2 := by
    simp only [stringify2] at *
    omega
  have hP := (parse_print_aux (2 * (stringify2 v).length + 2)).1 v 0 [] []
    hc hfb (by intro c hc2; simp at hc2) (by intro ch hch; simp at hch)
  have hP2 : pVal (2 * (stringify2 v).length + 2) (stringify2 v) = some (v, []) := by
    simpa [stringify2] using hP
  rw [parseJson, hP2]
  rfl

theorem stripZeros_spec : ∀ (k : Nat) (m : Int),
    (stripZeros m k).2 = 0 ∨ ¬ (stripZeros m k).1 % 10 = 0 := by
  intro k
  induction k with
  | zero => intro m; exact Or.inl rfl
  | succ n ih =>
    intro m
    by_cases hm : m % 10 = 0
    · rw [stripZeros, if_pos hm]
      exact ih (m / 10)
    · rw [stripZeros, if_neg hm]
      exact Or.inr hm

theorem stripZeros_ne_zero : ∀ (k : Nat) (m : Int),
    ¬ m = 0 → ¬ (stripZeros m k).1 = 0 := by
  intro k
  induction k with
  | zero => intro m h; exact h
  | succ n ih =>
    intro m h
    by_cases hm : m % 10 = 0
    · rw [stripZeros, if_pos hm]
      exact ih (m / 10) (by omega)
    · rw [stripZeros, if_neg hm]
      exact h

theorem canonNum_zero_e (m : Int) : canonNum m 0 = true := by
  simp [canonNum]

theorem normNum_canon : ∀ (m0 e0 m e : Int), normNum m0 e0 = (m, e) →
    canonNum m e = true := by
  intro m0 e0 m e h
  rw [normNum] at h
  by_cases h0 : m0 = 0
  · rw [if_pos h0] at h
    injection h with h1 h2
    subst h1; subst h2
    decide
  · rw [if_neg h0] at h
    by_cases he : (0 : Int) ≤ e0
    · rw [if_pos he] at h
      injection h with h1 h2
      subst h1; subst h2
      exact canonNum_zero_e _
    · rw [if_neg he] at h
      rcases hsz : stripZeros m0 (-e0).toNat with ⟨m2, k2⟩
      rw [hsz] at h
      simp only [] at h
      injection h with h1 h2
      subst h1; subst h2
      have hne : ¬ m2 = 0 := by
        have := stripZeros_ne_zero (-e0).toNat m0 h0
        rw [hsz] at this
        exact this
      have hsp : k2 = 0 ∨ ¬ m2 % 10 = 0 := by
        have := stripZeros_spec (-e0).toNat m0
        rw [hsz] at this
        exact this
      simp only [canonNum, Bool.and_eq_true, decide_eq_true_eq]
      refine ⟨⟨by omega, fun hm => absurd hm hne⟩, ?_⟩
      intro hlt
      rcases hsp with hsp | hsp
      · omega
      · exact hsp

theorem pNum_canon : ∀ (s : Str) (j : Json) (r : Str), pNum s = some (j, r) →
    ∃ m e, j = Json.jnum m e ∧ canonNum m e = true := by
  intro s j r h
  rw [pNum.eq_def] at h
  simp only [] at h
  split at h
  · exact absurd h (by simp)
  split at h
  · exact absurd h (by simp)
  split at h
  · exact absurd h (by simp)
  injection h with h1
  injection h1 with h2 h3
  exact ⟨_, _, h2.symm, normNum_canon _ _ _ _ rfl⟩

theorem insertField_keys : ∀ (fs : List (Str × Json)) (k : Str) (v : Json),
    (insertField fs k v).map Prod.fst =
      if k ∈ fs.map Prod.fst then fs.map Prod.fst else fs.map Prod.fst ++ [k] := by
  intro fs
  induction fs with
  | nil => intro k v; simp [insertField]
  | cons p rest ih =>
    intro k v
    obtain ⟨k0, v0⟩ := p
    by_cases h : k0 = k
    · subst h
      rw [insertField, if_pos rfl]
      simp
    · rw [insertField, if_neg h]
      simp only [List.map_cons, ih]
      by_cases hm : k ∈ rest.map Prod.fst
      · rw [if_pos hm, if_pos (by simp [hm])]
      · rw [if_neg hm, if_neg (show ¬ k ∈ k0 :: rest.map Prod.fst by
          simp only [List.mem_cons]
          push_neg
          exact ⟨fun he => h he.symm, hm⟩)]
        simp

theorem insertField_nodup (fs : List (Str × Json)) (k : Str) (v : Json)
    (h : (fs.map Prod.fst).Nodup) : ((insertField fs k v).map Prod.fst).Nodup := by
  rw [insertField_keys]
  by_cases hm : k ∈ fs.map Prod.fst
  · rw [if_pos hm]; exact h
  · rw [if_neg hm]
    simp [List.nodup_append, h, hm]

theorem insertField_canon : ∀ (fs : List (Str × Json)) (k : Str) (v : Json),
    (∀ p ∈ fs, Canon p.2) → Canon v → ∀ p ∈ insertField fs k v, Canon p.2 := by
  intro fs
  induction fs with
  | nil =>
    intro k v _ hv p hp
    simp only [insertField, List.mem_singleton] at hp
    subst hp
    exact hv
  | cons q rest ih =>
    intro k v hall hv p hp
    obtain ⟨k0, v0⟩ := q
    rw [insertField] at hp
    by_cases h : k0 = k
    · rw [if_pos h] at hp
      rcases List.mem_cons.mp hp with h2 | h2
      · subst h2; exact hv
      · exact hall p (by simp [h2])
    · rw [if_neg h] at hp
      rcases List.mem_cons.mp hp with h2 | h2
      · subst h2; exact hall (k0, v0) (by simp)
      · exact ih k v (fun q hq => hall q (by simp [hq])) hv p h2

theorem canon_aux : ∀ fuel : Nat,
    (∀ s v r, pVal fuel s = some (v, r) → Canon v) ∧
    (∀ s vs r, pElems fuel s = some (vs, r) → ∀ v ∈ vs, Canon v) ∧
    (∀ s acc fs r, pFields fuel s acc = some (fs, r) →
      (acc.map Prod.fst).Nodup → (∀ p ∈ acc, Canon p.2) →
      (fs.map Prod.fst).Nodup ∧ ∀ p ∈ fs, Canon p.2) := by
  intro fuel
  induction fuel with
  | zero =>
    refine ⟨?_, ?_, ?_⟩ <;> intro s
    · intro v r h; exact absurd h (by simp [pVal])
    · intro vs r h; exact absurd h (by simp [pElems])
    · intro acc fs r h _ _; exact absurd h (by simp [pFields])
  | succ g ih =>
    obtain ⟨ihP, ihQ, ihR⟩ := ih
    refine ⟨?_, ?_, ?_⟩
    · intro s v r h
      rw [pVal] at h
      split at h
      · exact absurd h (by simp)
      split at h
      · rcases Option.map_eq_some'.mp h with ⟨⟨rs, rest2⟩, hps, he⟩
        injection he with he1 he2
        subst he1
        exact Canon.cstr rs
      split at h
      · split at h
        · exact absurd h (by simp)
        split at h
        · injection h with h1
          injection h1 with h2 h3
          subst h2
          exact Canon.carr [] (by simp)
        · rcases Option.map_eq_some'.mp h with ⟨⟨vs, rest2⟩, hpe, he⟩
          injection he with he1 he2
          subst he1
          exact Canon.carr vs (ihQ _ _ _ hpe)
      split at h
      · split at h
        · exact absurd h (by simp)
        split at h
        · injection h with h1
          injection h1 with h2 h3
          subst h2
          exact Canon.cobj [] (by simp) (by simp)
        · rcases Option.map_eq_some'.mp h with ⟨⟨fs, rest2⟩, hpf, he⟩
          injection he with he1 he2
          subst he1
          have hprops := ihR _ _ _ _ hpf (by simp) (by simp)
          exact Canon.cobj fs hprops.1 hprops.2
      split at h
      · split at h
        · injection h with h1
          injection h1 with h2 h3
          subst h2
          exact Canon.cbool true
        · exact absurd h (by simp)
      split at h
      · split at h
        · injection h with h1
          injection h1 with h2 h3
          subst h2
          exact Canon.cbool false
        · exact absurd h (by simp)
      split at h
      · split at h
        · injection h with h1
          injection h1 with h2 h3
          subst h2
          exact Canon.cnull
        · exact absurd h (by simp)
      · obtain ⟨m, e, hj, hcn⟩ := pNum_canon _ _ _ h
        subst hj
        exact Canon.cnum m e hcn
    · intro s vs r h
      rw [pElems] at h
      rcases hpv : pVal g s with _ | ⟨⟨v0, r1⟩⟩
      · rw [hpv] at h
        exact absurd h (by simp)
      rw [hpv] at h
      simp only [] at h
      split at h
      · exact absurd h (by simp)
      split at h
      · rcases Option.map_eq_some'.mp h with ⟨⟨vs2, rest2⟩, hpe, he⟩
        injection he with he1 he2
        subst he1
        intro v hv
        rcases List.mem_cons.mp hv with h2 | h2
        · subst h2
          exact ihP _ _ _ hpv
        · exact ihQ _ _ _ hpe v h2
      split at h
      · injection h with h1
        injection h1 with h2 h3
        subst h2
        intro v hv
        simp only [List.mem_singleton] at hv
        subst hv
        exact ihP _ _ _ hpv
      · exact absurd h (by simp)
    · intro s acc fs r h hnd hcanon
      rw [pFields] at h
      rcases hsk : skipWs s with _ | ⟨c, t⟩
      · rw [hsk] at h
        exact absurd h (by simp)
      rw [hsk] at h
      simp only [] at h
      split at h
      · rcases hps : pStr t with _ | ⟨⟨k, r1⟩⟩
        · rw [hps] at h
          exact absurd h (by simp)
        rw [hps] at h
        simp only [] at h
        rcases hsk2 : skipWs r1 with _ | ⟨c2, t2⟩
        · rw [hsk2] at h
          exact absurd h (by simp)
        rw [hsk2] at h
        simp only [] at h
        split at h
        · rcases hpv : pVal g t2 with _ | ⟨⟨v2, r2⟩⟩
          · rw [hpv] at h
            exact absurd h (by simp)
          rw [hpv] at h
          simp only [] at h
          rcases hsk3 : skipWs r2 with _ | ⟨c3, t3⟩
          · rw [hsk3] at h
            exact absurd h (by simp)
          rw [hsk3] at h
          simp only [] at h
          split at h
          · exact ihR _ _ _ _ h (insertField_nodup acc k v2 hnd)
              (insertField_canon acc k v2 hcanon (ihP _ _ _ hpv))
          split at h
          · injection h with h1
            injection h1 with h2 h3
            subst h2
            exact ⟨insertField_nodup acc k v2 hnd,
              insertField_canon acc k v2 hcanon (ihP _ _ _ hpv)⟩
          · exact absurd h (by simp)
        · exact absurd h (by simp)
      · exact absurd h (by simp)

theorem parseJson_canon (s : Str) (v : Json) (h : parseJson s = some v) : Canon v := by
  rw [parseJson] at h
  rcases hpv : pVal (2 * s.length + 2) s with _ | ⟨⟨v0, r⟩⟩
  · rw [hpv] at h
    exact absurd h (by simp)
  rw [hpv] at h
  simp only [] at h
  split at h
  · injection h with h1
    subst h1
    exact (canon_aux (2 * s.length + 2)).1 _ _ _ hpv
  · exact absurd h (by simp)

theorem find?_insertField_self : ∀ (fs : List (Str × Json)) (k : Str) (v : Json),
    (insertField fs k v).find? (fun p => p.1 = k) = some (k, v) := by
  intro fs
  induction fs with
  | nil =>
    intro k v
    simp [insertField, List.find?]
  | cons p rest ih =>
    intro k v
    obtain ⟨k0, v0⟩ := p
    by_cases h : k0 = k
    · subst h
      rw [insertField, if_pos rfl]
      simp [List.find?]
    · rw [insertField, if_neg h]
      rw [List.find?_cons_of_neg _ (by simpa using h)]
      exact ih k v

theorem find?_insertField_ne : ∀ (fs : List (Str × Json)) (k k2 : Str) (v : Json),
    ¬ k2 = k →
    (insertField fs k v).find? (fun p => p.1 = k2) = fs.find? (fun p => p.1 = k2) := by
  intro fs
  induction fs with
  | nil =>
    intro k k2 v hne
    rw [show insertField [] k v = [(k, v)] from rfl]
    rw [List.find?_cons_of_neg _ (by simp; exact fun h => hne h.symm)]
  | cons p rest ih =>
    intro k k2 v hne
    obtain ⟨k0, v0⟩ := p
    by_cases h : k0 = k
    · subst h
      rw [insertField, if_pos rfl]
      by_cases h2 : k0 = k2
      · exact absurd (h2.symm.trans rfl) (by simpa using fun hh => hne hh)
      · rw [List.find?_cons_of_neg _ (by simpa using h2),
          List.find?_cons_of_neg _ (by simpa using h2)]
    · rw [insertField, if_neg h]
      by_cases h2 : k0 = k2
      · subst h2
        rw [List.find?_cons_of_pos _ (by simp), List.find?_cons_of_pos _ (by simp)]
      · rw [List.find?_cons_of_neg _ (by simpa using h2),
          List.find?_cons_of_neg _ (by simpa using h2)]
        exact ih k k2 v hne

theorem setProp_same : ∀ (fs : List (Str × Json)) (k k0 : Str) (v : Json),
    fs.find? (fun p => p.1 = k) = some (k0, v) → insertField fs k v = fs := by
  intro fs
  induction fs with
  | nil =>
    intro k k0 v h
    simp [List.find?] at h
  | cons p rest ih =>
    intro k k0 v h
    obtain ⟨k1, v1⟩ := p
    by_cases hk : k1 = k
    · subst hk
      rw [List.find?_cons_of_pos _ (by simp)] at h
      injection h with h1
      injection h1 with h2 h3
      rw [insertField, if_pos rfl, h3]
    · rw [List.find?_cons_of_neg _ (by simpa using hk)] at h
      rw [insertField, if_neg hk, ih k k0 v h]

theorem delProp_absent (fs : List (Str × Json)) (k : Str)
    (h : ∀ p ∈ fs, ¬ p.1 = k) : delProp fs k = fs := by
  rw [delProp, List.filter_eq_self]
  intro p hp
  simpa using h p hp

theorem mem_delProp (fs : List (Str × Json)) (k : Str) :
    ∀ p ∈ delProp fs k, p ∈ fs ∧ ¬ p.1 = k := by
  intro p hp
  rw [delProp] at hp
  have := List.of_mem_filter hp
  exact ⟨List.mem_of_mem_filter hp, by simpa using this⟩

theorem delProp_keys_nodup (fs : List (Str × Json)) (k : Str)
    (h : (fs.map Prod.fst).Nodup) : ((delProp fs k).map Prod.fst).Nodup := by
  exact ((List.filter_sublist fs).map Prod.fst).nodup h

theorem find?_delProp_ne : ∀ (fs : List (Str × Json)) (k k2 : Str), ¬ k2 = k →
    (delProp fs k).find? (fun p => p.1 = k2) = fs.find? (fun p => p.1 = k2) := by
  intro fs
  induction fs with
  | nil => intro k k2 _; rfl
  | cons p rest ih =>
    intro k k2 hne
    obtain ⟨k0, v0⟩ := p
    by_cases hk : k0 = k
    · subst hk
      rw [show delProp ((k0, v0) :: rest) k0 = delProp rest k0 by
        simp [delProp, List.filter]]
      rw [List.find?_cons_of_neg _ (by simp; intro he; exact hne (he ▸ rfl))]
      exact ih k0 k2 hne
    · rw [show delProp ((k0, v0) :: rest) k = (k0, v0) :: delProp rest k by
        simp [delProp, List.filter, hk]]
      by_cases h2 : k0 = k2
      · subst h2
        rw [List.find?_cons_of_pos _ (by simp), List.find?_cons_of_pos _ (by simp)]
      · rw [List.find?_cons_of_neg _ (by simpa using h2),
          List.find?_cons_of_neg _ (by simpa using h2)]
        exact ih k k2 hne

theorem mem_insertField_keys (fs : List (Str × Json)) (k : Str) (v : Json) (k2 : Str)
    (h : k2 ∈ (insertField fs k v).map Prod.fst) :
    k2 ∈ fs.map Prod.fst ∨ k2 = k := by
  rw [insertField_keys] at h
  by_cases hm : k ∈ fs.map Prod.fst
  · rw [if_pos hm] at h
    exact Or.inl h
  · rw [if_neg hm] at h
    rcases List.mem_append.mp h with h2 | h2
    · exact Or.inl h2
    · simp only [List.mem_singleton] at h2
      exact Or.inr h2

theorem foldl_insertField_fresh : ∀ (fs : List (Str × Json)) (acc : List (Str × Json)),
    (∀ p ∈ fs, ¬ p.1 ∈ acc.map Prod.fst) → (fs.map Prod.fst).Nodup →
    fs.foldl (fun a p => insertField a p.1 p.2) acc = acc ++ fs := by
  intro fs
  induction fs with
  | nil => intro acc _ _; simp
  | cons p rest ih =>
    intro acc hfresh hnd
    simp only [List.foldl_cons]
    rw [show insertField acc p.1 p.2 = acc ++ [p] by
      rw [insertField_fresh acc p.1 p.2 (hfresh p (by simp))]]
    rw [ih (acc ++ [p]) ?_ ?_]
    · simp
    · intro q hq
      simp only [List.map_append, List.mem_append] at *
      push_neg
      constructor
      · exact hfresh q (by simp [hq])
      · intro hq2
        simp only [List.map_cons, List.map_nil, List.mem_singleton] at hq2
        simp only [List.map_cons, List.nodup_cons] at hnd
        exact hnd.1 (hq2 ▸ List.mem_map_of_mem Prod.fst hq)
    · simp only [List.map_cons, List.nodup_cons] at hnd
      exact hnd.2

theorem foldl_insertField_nodup : ∀ (fs acc : List (Str × Json)),
    (acc.map Prod.fst).Nodup →
    ((fs.foldl (fun a p => insertField a p.1 p.2) acc).map Prod.fst).Nodup := by
  intro fs
  induction fs with
  | nil => intro acc h; exact h
  | cons p rest ih =>
    intro acc h
    simp only [List.foldl_cons]
    exact ih _ (insertField_nodup acc p.1 p.2 h)

theorem foldl_insertField_canon : ∀ (fs acc : List (Str × Json)),
    (∀ p ∈ acc, Canon p.2) → (∀ p ∈ fs, Canon p.2) →
    ∀ p ∈ fs.foldl (fun a p => insertField a p.1 p.2) acc, Canon p.2 := by
  intro fs
  induction fs with
  | nil => intro acc ha _ p hp; exact ha p hp
  | cons q rest ih =>
    intro acc ha hf p hp
    simp only [List.foldl_cons] at hp
    exact ih _ (insertField_canon acc q.1 q.2 ha (hf q (by simp))) 
      (fun r hr => hf r (by simp [hr])) p hp

theorem find?_foldl_insert_not_mem : ∀ (fs acc : List (Str × Json)) (k : Str),
    ¬ k ∈ fs.map Prod.fst →
    (fs.foldl (fun a p => insertField a p.1 p.2) acc).find? (fun p => p.1 = k) =
      acc.find? (fun p => p.1 = k) := by
  intro fs
  induction fs with
  | nil => intro acc k _; rfl
  | cons q rest ih =>
    intro acc k h
    simp only [List.map_cons, List.mem_cons] at h
    push_neg at h
    simp only [List.foldl_cons]
    rw [ih _ k h.2]
    exact find?_insertField_ne acc q.1 k q.2 h.1

theorem find?_foldl_insert_mem : ∀ (fs acc : List (Str × Json)) (k : Str) (v : Json),
    (fs.map Prod.fst).Nodup → (k, v) ∈ fs →
    (fs.foldl (fun a p => insertField a p.1 p.2) acc).find? (fun p => p.1 = k) =
      some (k, v) := by
  intro fs
  induction fs with
  | nil => intro acc k v _ hm; simp at hm
  | cons q rest ih =>
    intro acc k v hnd hm
    simp only [List.map_cons, List.nodup_cons] at hnd
    simp only [List.foldl_cons]
    rcases List.mem_cons.mp hm with h | h
    · subst h
      rw [find?_foldl_insert_not_mem rest _ k (by simpa using hnd.1)]
      exact find?_insertField_self acc k v
    · exact ih _ k v hnd.2 h

theorem foldl_insert_same : ∀ (fs B : List (Str × Json)),
    (∀ p ∈ fs, B.find? (fun q => q.1 = p.1) = some p) →
    fs.foldl (fun a p => insertField a p.1 p.2) B = B := by
  intro fs
  induction fs with
  | nil => intro B _; rfl
  | cons q rest ih =>
    intro B h
    simp only [List.foldl_cons]
    rw [show insertField B q.1 q.2 = B from
      setProp_same B q.1 q.1 q.2 (by simpa using h q (by simp))]
    exact ih B (fun p hp => h p (by simp [hp]))

theorem natToStr_inj (a b : Nat) (h : natToStr a = natToStr b) : a = b := by
  have h2 := congrArg ofDecDigits h
  rwa [ofDecDigits_natToStr, ofDecDigits_natToStr] at h2

theorem enumFrom_snd_mem {α : Type} : ∀ (l : List α) (n : Nat) (p : Nat × α),
    p ∈ l.enumFrom n → p.2 ∈ l := by
  intro l
  induction l with
  | nil => intro n p hp; simp at hp
  | cons a t ih =>
    intro n p hp
    simp only [List.enumFrom, List.mem_cons] at hp
    rcases hp with h | h
    · subst h; simp
    · exact List.mem_cons_of_mem a (ih (n + 1) p h)

theorem jsSpread_props (v : Json) (hc : Canon v) :
    ((jsSpread v).map Prod.fst).Nodup ∧ ∀ p ∈ jsSpread v, Canon p.2 := by
  cases hc with
  | cnull => exact ⟨by simp [jsSpread], by simp [jsSpread]⟩
  | cbool b => exact ⟨by simp [jsSpread], by simp [jsSpread]⟩
  | cnum m e h => exact ⟨by simp [jsSpread], by simp [jsSpread]⟩
  | cstr s =>
    constructor
    · have hkeys : (jsSpread (Json.jstr s)).map Prod.fst =
          (s.enum.map Prod.fst).map natToStr := by
        simp only [jsSpread, List.map_map]
        rfl
      rw [hkeys, List.enum_map_fst]
      exact (List.nodup_range _).map (fun a b h => natToStr_inj a b h)
    · intro p hp
      simp only [jsSpread, List.mem_map] at hp
      obtain ⟨⟨i, c⟩, _, he⟩ := hp
      rw [← he]
      exact Canon.cstr [c]
  | carr xs hall =>
    constructor
    · have hkeys : (jsSpread (Json.jarr xs)).map Prod.fst =
          (xs.enum.map Prod.fst).map natToStr := by
        simp only [jsSpread, List.map_map]
        rfl
      rw [hkeys, List.enum_map_fst]
      exact (List.nodup_range _).map (fun a b h => natToStr_inj a b h)
    · intro p hp
      simp only [jsSpread, List.mem_map] at hp
      obtain ⟨⟨i, x⟩, hm, he⟩ := hp
      rw [← he]
      exact hall x (enumFrom_snd_mem xs 0 (i, x) hm)
  | cobj fs hk hall => exact ⟨hk, hall⟩

theorem spreadPropOrEmpty_insert_self (ms : List (Str × Json)) (k : Str)
    (D : List (Str × Json)) :
    spreadPropOrEmpty (insertField ms k (Json.jobj D)) k = D := by
  rw [spreadPropOrEmpty, find?_insertField_self]
  rfl

theorem spreadPropOrEmpty_props (ms : List (Str × Json)) (k : Str)
    (hcanon : ∀ p ∈ ms, Canon p.2) :
    ((spreadPropOrEmpty ms k).map Prod.fst).Nodup ∧
      ∀ p ∈ spreadPropOrEmpty ms k, Canon p.2 := by
  rw [spreadPropOrEmpty]
  rcases hf : (List.find? (fun p => p.1 = k) ms).map Prod.snd with _ | v
  · rw [hf]
    exact ⟨by simp, by simp⟩
  · rw [hf]
    have hv : Canon v := by
      rcases Option.map_eq_some'.mp hf with ⟨p, hfind, hsnd⟩
      exact hsnd ▸ hcanon p (List.mem_of_find?_eq_some hfind)
    cases v <;> exact jsSpread_props _ hv

theorem mergeProps_eq_foldl (a b : List (Str × Json)) :
    mergeProps a b = b.foldl (fun acc p => insertField acc p.1 p.2)
      (a.foldl (fun acc p => insertField acc p.1 p.2) []) := by
  rw [mergeProps, List.foldl_append]

theorem mergeProps_nodup (a b : List (Str × Json)) :
    ((mergeProps a b).map Prod.fst).Nodup := by
  rw [mergeProps]
  exact foldl_insertField_nodup _ [] (by simp)

theorem mergeProps_canon (a b : List (Str × Json)) (ha : ∀ p ∈ a, Canon p.2)
    (hb : ∀ p ∈ b, Canon p.2) : ∀ p ∈ mergeProps a b, Canon p.2 := by
  rw [mergeProps]
  refine foldl_insertField_canon _ [] (by simp) ?_
  intro p hp
  rcases List.mem_append.mp hp with h | h
  · exact ha p h
  · exact hb p h

theorem mergeProps_find?_right (a b : List (Str × Json)) (k : Str) (v : Json)
    (hand : (a.map Prod.fst).Nodup) (hbnd : (b.map Prod.fst).Nodup)
    (hm : (k, v) ∈ b) :
    (mergeProps a b).find? (fun p => p.1 = k) = some (k, v) := by
  rw [mergeProps_eq_foldl]
  rw [show a.foldl (fun acc p => insertField acc p.1 p.2) [] = a by
    have := foldl_insertField_fresh a [] (by simp) hand
    simpa using this]
  exact find?_foldl_insert_mem b a k v hbnd hm

theorem mergeProps_self (a b : List (Str × Json)) (hand : (a.map Prod.fst).Nodup)
    (hbnd : (b.map Prod.fst).Nodup) :
    mergeProps (mergeProps a b) b = mergeProps a b := by
  rw [mergeProps_eq_foldl (mergeProps a b) b]
  rw [show (mergeProps a b).foldl (fun acc p => insertField acc p.1 p.2) [] =
      mergeProps a b by
    have := foldl_insertField_fresh (mergeProps a b) [] (by simp) (mergeProps_nodup a b)
    simpa using this]
  exact foldl_insert_same b (mergeProps a b)
    (fun p hp => mergeProps_find?_right a b p.1 p.2 hand hbnd hp)

theorem not_mem_delProp_keys (fs : List (Str × Json)) (k : Str) :
    ¬ k ∈ (delProp fs k).map Prod.fst := by
  intro h
  obtain ⟨q, hq, he⟩ := List.mem_map.mp h
  exact (mem_delProp fs k q hq).2 he

theorem delProp_absent_keys (fs : List (Str × Json)) (k : Str)
    (h : ¬ k ∈ fs.map Prod.fst) : delProp fs k = fs :=
  delProp_absent fs k (fun p hp he => h (he ▸ List.mem_map_of_mem Prod.fst hp))

theorem keys_delProp_subset (fs : List (Str × Json)) (k0 k : Str)
    (h : k ∈ (delProp fs k0).map Prod.fst) : k ∈ fs.map Prod.fst ∧ ¬ k = k0 := by
  obtain ⟨q, hq, he⟩ := List.mem_map.mp h
  obtain ⟨hmem, hne⟩ := mem_delProp fs k0 q hq
  exact ⟨he ▸ List.mem_map_of_mem Prod.fst hmem, fun h2 => hne (he ▸ h2 ▸ rfl)⟩

theorem delProp_canon (fs : List (Str × Json)) (k : Str)
    (h : ∀ p ∈ fs, Canon p.2) : ∀ p ∈ delProp fs k, Canon p.2 :=
  fun p hp => h p (mem_delProp fs k p hp).1

theorem applyDependencies_eq (data : Json) (fw : FrameworkDefinition)
    (deps : List (Str × Json)) (hdep : fw.dependencies = some deps)
    (hdev : fw.devDependencies = none) :
    applyDependencies data fw = Json.jobj (insertField (jsSpread data)
      (txt "dependencies") (Json.jobj (mergeProps
        (spreadPropOrEmpty (jsSpread data) (txt "dependencies")) deps))) := by
  rw [applyDependencies, hdep, hdev]
  simp only []
  rfl

theorem applyDependencies_canon (data : Json) (fw : FrameworkDefinition)
    (deps : List (Str × Json)) (hdep : fw.dependencies = some deps)
    (hdev : fw.devDependencies = none) (hdata : Canon data)
    (hdc : ∀ p ∈ deps, Canon p.2) :
    Canon (applyDependencies data fw) := by
  rw [applyDependencies_eq data fw deps hdep hdev]
  obtain ⟨hnd0, hc0⟩ := jsSpread_props data hdata
  obtain ⟨hndS, hcS⟩ := spreadPropOrEmpty_props (jsSpread data) (txt "dependencies") hc0
  refine Canon.cobj _ (insertField_nodup _ _ _ hnd0) (insertField_canon _ _ _ hc0 ?_)
  exact Canon.cobj _ (mergeProps_nodup _ _) (mergeProps_canon _ _ hcS hdc)

theorem applyDependencies_idem (data : Json) (fw : FrameworkDefinition)
    (deps : List (Str × Json)) (hdep : fw.dependencies = some deps)
    (hdev : fw.devDependencies = none) (hdata : Canon data)
    (hdnd : (deps.map Prod.fst).Nodup) :
    applyDependencies (applyDependencies data fw) fw = applyDependencies data fw := by
  rw [applyDependencies_eq data fw deps hdep hdev]
  rw [applyDependencies_eq _ fw deps hdep hdev]
  rw [show jsSpread (Json.jobj (insertField (jsSpread data) (txt "dependencies")
      (Json.jobj (mergeProps (spreadPropOrEmpty (jsSpread data) (txt "dependencies"))
        deps)))) = insertField (jsSpread data) (txt "dependencies")
      (Json.jobj (mergeProps (spreadPropOrEmpty (jsSpread data) (txt "dependencies"))
        deps)) from rfl]
  rw [spreadPropOrEmpty_insert_self]
  have hBnd := (spreadPropOrEmpty_props (jsSpread data) (txt "dependencies")
    (jsSpread_props data hdata).2).1
  rw [mergeProps_self _ deps hBnd hdnd]
  rw [setProp_same _ _ _ _ (find?_insertField_self (jsSpread data) (txt "dependencies")
    (Json.jobj (mergeProps (spreadPropOrEmpty (jsSpread data) (txt "dependencies")) deps)))]

theorem nnc_eq_ss (config : Option Json) (fw : FrameworkDefinition)
    (target : FrameworkTarget) (a w : Str)
    (hA : (fw.outputs target).assetsDir = some a)
    (hW : (fw.outputs target).workerEntry = some w) :
    normalizeNimbusConfig config fw target = Json.jobj (insertField (insertField
      (insertField (insertField (match config with | none => [] | some c => jsSpread c)
        (txt "framework") (Json.jstr fw.id)) (txt "target")
        (Json.jstr (targetStr target))) (txt "assetsDir") (Json.jstr a))
      (txt "workerEntry") (Json.jstr w)) := by
  rw [normalizeNimbusConfig.eq_def]
  simp only []
  rw [hA, hW]
  simp only []
  rfl

theorem nnc_eq_sn (config : Option Json) (fw : FrameworkDefinition)
    (target : FrameworkTarget) (a : Str)
    (hA : (fw.outputs target).assetsDir = some a)
    (hW : (fw.outputs target).workerEntry = none) :
    normalizeNimbusConfig config fw target = Json.jobj (delProp (insertField
      (insertField (insertField (match config with | none => [] | some c => jsSpread c)
        (txt "framework") (Json.jstr fw.id)) (txt "target")
        (Json.jstr (targetStr target))) (txt "assetsDir") (Json.jstr a))
      (txt "workerEntry")) := by
  rw [normalizeNimbusConfig.eq_def]
  simp only []
  rw [hA, hW]
  simp only []
  rfl

theorem nnc_eq_ns (config : Option Json) (fw : FrameworkDefinition)
    (target : FrameworkTarget) (w : Str)
    (hA : (fw.outputs target).assetsDir = none)
    (hW : (fw.outputs target).workerEntry = some w) :
    normalizeNimbusConfig config fw target = Json.jobj (insertField (delProp
      (insertField (insertField (match config with | none => [] | some c => jsSpread c)
        (txt "framework") (Json.jstr fw.id)) (txt "target")
        (Json.jstr (targetStr target))) (txt "assetsDir"))
      (txt "workerEntry") (Json.jstr w)) := by
  rw [normalizeNimbusConfig.eq_def]
  simp only []
  rw [hA, hW]
  simp only []
  rfl

theorem nnc_eq_nn (config : Option Json) (fw : FrameworkDefinition)
    (target : FrameworkTarget)
    (hA : (fw.outputs target).assetsDir = none)
    (hW : (fw.outputs target).workerEntry = none) :
    normalizeNimbusConfig config fw target = Json.jobj (delProp (delProp
      (insertField (insertField (match config with | none => [] | some c => jsSpread c)
        (txt "framework") (Json.jstr fw.id)) (txt "target")
        (Json.jstr (targetStr target))) (txt "assetsDir"))
      (txt "workerEntry")) := by
  rw [normalizeNimbusConfig.eq_def]
  simp only []
  rw [hA, hW]
  simp only []
  rfl

theorem chain_idem_ss (ms0 : List (Str × Json)) (F T A Wv : Json) :
    insertField (insertField (insertField (insertField
      (insertField (insertField (insertField (insertField ms0
        (txt "framework") F) (txt "target") T) (txt "assetsDir") A) (txt "workerEntry") Wv)
      (txt "framework") F) (txt "target") T) (txt "assetsDir") A) (txt "workerEntry") Wv =
    insertField (insertField (insertField (insertField ms0
      (txt "framework") F) (txt "target") T) (txt "assetsDir") A) (txt "workerEntry") Wv := by
  have l1 : (insertField (insertField (insertField (insertField ms0
      (txt "framework") F) (txt "target") T) (txt "assetsDir") A) (txt "workerEntry")
        Wv).find? (fun p => p.1 = txt "framework") = some (txt "framework", F) := by
    rw [find?_insertField_ne _ _ _ _ (by decide), find?_insertField_ne _ _ _ _ (by decide),
      find?_insertField_ne _ _ _ _ (by decide), find?_insertField_self]
  have l2 : (insertField (insertField (insertField (insertField ms0
      (txt "framework") F) (txt "target") T) (txt "assetsDir") A) (txt "workerEntry")
        Wv).find? (fun p => p.1 = txt "target") = some (txt "target", T) := by
    rw [find?_insertField_ne _ _ _ _ (by decide), find?_insertField_ne _ _ _ _ (by decide),
      find?_insertField_self]
  have l3 : (insertField (insertField (insertField (insertField ms0
      (txt "framework") F) (txt "target") T) (txt "assetsDir") A) (txt "workerEntry")
        Wv).find? (fun p => p.1 = txt "assetsDir") = some (txt "assetsDir", A) := by
    rw [find?_insertField_ne _ _ _ _ (by decide), find?_insertField_self]
  rw [setProp_same _ _ _ _ l1, setProp_same _ _ _ _ l2, setProp_same _ _ _ _ l3,
    setProp_same _ _ _ _ (find?_insertField_self _ _ _)]

theorem chain_idem_sn (ms0 : List (Str × Json)) (F T A : Json) :
    delProp (insertField (insertField (insertField
      (delProp (insertField (insertField (insertField ms0
        (txt "framework") F) (txt "target") T) (txt "assetsDir") A) (txt "workerEntry"))
      (txt "framework") F) (txt "target") T) (txt "assetsDir") A) (txt "workerEntry") =
    delProp (insertField (insertField (insertField ms0
      (txt "framework") F) (txt "target") T) (txt "assetsDir") A) (txt "workerEntry") := by
  have l1 : (delProp (insertField (insertField (insertField ms0
      (txt "framework") F) (txt "target") T) (txt "assetsDir") A)
        (txt "workerEntry")).find? (fun p => p.1 = txt "framework") =
      some (txt "framework", F) := by
    rw [find?_delProp_ne _ _ _ (by decide), find?_insertField_ne _ _ _ _ (by decide),
      find?_insertField_ne _ _ _ _ (by decide), find?_insertField_self]
  have l2 : (delProp (insertField (insertField (insertField ms0
      (txt "framework") F) (txt "target") T) (txt "assetsDir") A)
        (txt "workerEntry")).find? (fun p => p.1 = txt "target") =
      some (txt "target", T) := by
    rw [find?_delProp_ne _ _ _ (by decide), find?_insertField_ne _ _ _ _ (by decide),
      find?_insertField_self]
  have l3 : (delProp (insertField (insertField (insertField ms0
      (txt "framework") F) (txt "target") T) (txt "assetsDir") A)
        (txt "workerEntry")).find? (fun p => p.1 = txt "assetsDir") =
      some (txt "assetsDir", A) := by
    rw [find?_delProp_ne _ _ _ (by decide), find?_insertField_self]
  rw [setProp_same _ _ _ _ l1, setProp_same _ _ _ _ l2, setProp_same _ _ _ _ l3,
    delProp_absent_keys _ _ (not_mem_delProp_keys _ _)]

theorem chain_idem_ns (ms0 : List (Str × Json)) (F T Wv : Json) :
    insertField (delProp (insertField (insertField
      (insertField (delProp (insertField (insertField ms0
        (txt "framework") F) (txt "target") T) (txt "assetsDir")) (txt "workerEntry") Wv)
      (txt "framework") F) (txt "target") T) (txt "assetsDir")) (txt "workerEntry") Wv =
    insertField (delProp (insertField (insertField ms0
      (txt "framework") F) (txt "target") T) (txt "assetsDir")) (txt "workerEntry") Wv := by
  have l1 : (insertField (delProp (insertField (insertField ms0
      (txt "framework") F) (txt "target") T) (txt "assetsDir")) (txt "workerEntry")
        Wv).find? (fun p => p.1 = txt "framework") = some (txt "framework", F) := by
    rw [find?_insertField_ne _ _ _ _ (by decide), find?_delProp_ne _ _ _ (by decide),
      find?_insertField_ne _ _ _ _ (by decide), find?_insertField_self]
  have l2 : (insertField (delProp (insertField (insertField ms0
      (txt "framework") F) (txt "target") T) (txt "assetsDir")) (txt "workerEntry")
        Wv).find? (fun p => p.1 = txt "target") = some (txt "target", T) := by
    rw [find?_insertField_ne _ _ _ _ (by decide), find?_delProp_ne _ _ _ (by decide),
      find?_insertField_self]
  have l4 : ¬ (txt "assetsDir") ∈ ((insertField (delProp (insertField (insertField ms0
      (txt "framework") F) (txt "target") T) (txt "assetsDir")) (txt "workerEntry")
        Wv).map Prod.fst) := by
    intro h
    rcases mem_insertField_keys _ _ _ _ h with h2 | h2
    · exact not_mem_delProp_keys _ _ h2
    · exact absurd h2 (by decide)
  rw [setProp_same _ _ _ _ l1, setProp_same _ _ _ _ l2,
    delProp_absent_keys _ _ l4,
    setProp_same _ _ _ _ (find?_insertField_self _ _ _)]

theorem chain_idem_nn (ms0 : List (Str × Json)) (F T : Json) :
    delProp (delProp (insertField (insertField
      (delProp (delProp (insertField (insertField ms0
        (txt "framework") F) (txt "target") T) (txt "assetsDir")) (txt "workerEntry"))
      (txt "framework") F) (txt "target") T) (txt "assetsDir")) (txt "workerEntry") =
    delProp (delProp (insertField (insertField ms0
      (txt "framework") F) (txt "target") T) (txt "assetsDir")) (txt "workerEntry") := by
  have l1 : (delProp (delProp (insertField (insertField ms0
      (txt "framework") F) (txt "target") T) (txt "assetsDir"))
        (txt "workerEntry")).find? (fun p => p.1 = txt "framework") =
      some (txt "framework", F) := by
    rw [find?_delProp_ne _ _ _ (by decide), find?_delProp_ne _ _ _ (by decide),
      find?_insertField_ne _ _ _ _ (by decide), find?_insertField_self]
  have l2 : (delProp (delProp (insertField (insertField ms0
      (txt "framework") F) (txt "target") T) (txt "assetsDir"))
        (txt "workerEntry")).find? (fun p => p.1 = txt "target") =
      some (txt "target", T) := by
    rw [find?_delProp_ne _ _ _ (by decide), find?_delProp_ne _ _ _ (by decide),
      find?_insertField_self]
  have l4 : ¬ (txt "assetsDir") ∈ ((delProp (delProp (insertField (insertField ms0
      (txt "framework") F) (txt "target") T) (txt "assetsDir"))
        (txt "workerEntry")).map Prod.fst) := by
    intro h
    exact not_mem_delProp_keys _ _ (keys_delProp_subset _ _ _ h).1
  rw [setProp_same _ _ _ _ l1, setProp_same _ _ _ _ l2,
    delProp_absent_keys _ _ l4,
    delProp_absent_keys _ _ (not_mem_delProp_keys _ _)]

theorem nnc_idem (config : Option Json) (fw : FrameworkDefinition)
    (target : FrameworkTarget) :
    normalizeNimbusConfig (some (normalizeNimbusConfig config fw target)) fw target =
      normalizeNimbusConfig config fw target := by
  rcases hA : (fw.outputs target).assetsDir with _ | a <;>
    rcases hW : (fw.outputs target).workerEntry with _ | w
  · rw [nnc_eq_nn config fw target hA hW, nnc_eq_nn _ fw target hA hW]
    exact congrArg Json.jobj (chain_idem_nn _ _ _)
  · rw [nnc_eq_ns config fw target w hA hW, nnc_eq_ns _ fw target w hA hW]
    exact congrArg Json.jobj (chain_idem_ns _ _ _ _)
  · rw [nnc_eq_sn config fw target a hA hW, nnc_eq_sn _ fw target a hA hW]
    exact congrArg Json.jobj (chain_idem_sn _ _ _ _)
  · rw [nnc_eq_ss config fw target a w hA hW, nnc_eq_ss _ fw target a w hA hW]
    exact congrArg Json.jobj (chain_idem_ss _ _ _ _ _)

theorem nnc_canon (config : Option Json) (fw : FrameworkDefinition)
    (target : FrameworkTarget) (hc : ∀ c, config = some c → Canon c) :
    Canon (normalizeNimbusConfig config fw target) := by
  obtain ⟨hnd0, hc0⟩ : ((match config with
      | none => [] | some c => jsSpread c).map Prod.fst).Nodup ∧
      (∀ p ∈ (match config with | none => [] | some c => jsSpread c), Canon p.2) := by
    rcases config with _ | c
    · exact ⟨by simp, by simp⟩
    · exact jsSpread_props c (hc c rfl)
  have hnd2 := insertField_nodup _ (txt "target") (Json.jstr (targetStr target))
    (insertField_nodup _ (txt "framework") (Json.jstr fw.id) hnd0)
  have hc2 := insertField_canon _ (txt "target") (Json.jstr (targetStr target))
    (insertField_canon _ (txt "framework") (Json.jstr fw.id) hc0 (Canon.cstr _))
    (Canon.cstr _)
  rcases hA : (fw.outputs target).assetsDir with _ | a <;>
    rcases hW : (fw.outputs target).workerEntry with _ | w
  · rw [nnc_eq_nn config fw target hA hW]
    exact Canon.cobj _ (delProp_keys_nodup _ _ (delProp_keys_nodup _ _ hnd2))
      (delProp_canon _ _ (delProp_canon _ _ hc2))
  · rw [nnc_eq_ns config fw target w hA hW]
    exact Canon.cobj _ (insertField_nodup _ _ _ (delProp_keys_nodup _ _ hnd2))
      (insertField_canon _ _ _ (delProp_canon _ _ hc2) (Canon.cstr _))
  · rw [nnc_eq_sn config fw target a hA hW]
    exact Canon.cobj _ (delProp_keys_nodup _ _ (insertField_nodup _ _ _ hnd2))
      (delProp_canon _ _ (insertField_canon _ _ _ hc2 (Canon.cstr _)))
  · rw [nnc_eq_ss config fw target a w hA hW]
    exact Canon.cobj _ (insertField_nodup _ _ _ (insertField_nodup _ _ _ hnd2))
      (insertField_canon _ _ _ (insertField_canon _ _ _ hc2 (Canon.cstr _)) (Canon.cstr _))

theorem nnc_jget_framework (config : Option Json) (fw : FrameworkDefinition)
    (target : FrameworkTarget) :
    jGet (normalizeNimbusConfig config fw target) (txt "framework") =
      some (Json.jstr fw.id) := by
  rcases hA : (fw.outputs target).assetsDir with _ | a <;>
    rcases hW : (fw.outputs target).workerEntry with _ | w
  · rw [nnc_eq_nn config fw target hA hW, jGet]
    rw [find?_delProp_ne _ _ _ (by decide), find?_delProp_ne _ _ _ (by decide),
      find?_insertField_ne _ _ _ _ (by decide), find?_insertField_self]
    rfl
  · rw [nnc_eq_ns config fw target w hA hW, jGet]
    rw [find?_insertField_ne _ _ _ _ (by decide), find?_delProp_ne _ _ _ (by decide),
      find?_insertField_ne _ _ _ _ (by decide), find?_insertField_self]
    rfl
  · rw [nnc_eq_sn config fw target a hA hW, jGet]
    rw [find?_delProp_ne _ _ _ (by decide), find?_insertField_ne _ _ _ _ (by decide),
      find?_insertField_ne _ _ _ _ (by decide), find?_insertField_self]
    rfl
  · rw [nnc_eq_ss config fw target a w hA hW, jGet]
    rw [find?_insertField_ne _ _ _ _ (by decide), find?_insertField_ne _ _ _ _ (by decide),
      find?_insertField_ne _ _ _ _ (by decide), find?_insertField_self]
    rfl

theorem nnc_jget_target (config : Option Json) (fw : FrameworkDefinition)
    (target : FrameworkTarget) :
    jGet (normalizeNimbusConfig config fw target) (txt "target") =
      some (Json.jstr (targetStr target)) := by
  rcases hA : (fw.outputs target).assetsDir with _ | a <;>
    rcases hW : (fw.outputs target).workerEntry with _ | w
  · rw [nnc_eq_nn config fw target hA hW, jGet]
    rw [find?_delProp_ne _ _ _ (by decide), find?_delProp_ne _ _ _ (by decide),
      find?_insertField_self]
    rfl
  · rw [nnc_eq_ns config fw target w hA hW, jGet]
    rw [find?_insertField_ne _ _ _ _ (by decide), find?_delProp_ne _ _ _ (by decide),
      find?_insertField_self]
    rfl
  · rw [nnc_eq_sn config fw target a hA hW, jGet]
    rw [find?_delProp_ne _ _ _ (by decide), find?_insertField_ne _ _ _ _ (by decide),
      find?_insertField_self]
    rfl
  · rw [nnc_eq_ss config fw target a w hA hW, jGet]
    rw [find?_insertField_ne _ _ _ _ (by decide), find?_insertField_ne _ _ _ _ (by decide),
      find?_insertField_self]
    rfl

theorem set_get?_same {α : Type} : ∀ (l : List α) (i : Nat) (a : α),
    l.get? i = some a → l.set i a = l := by
  intro l
  induction l with
  | nil => intro i a h; simp at h
  | cons x t ih =>
    intro i a h
    cases i with
    | zero =>
      simp only [List.get?] at h
      injection h with h1
      rw [h1, List.set]
    | succ j =>
      simp only [List.get?] at h
      rw [List.set, ih j a h]

theorem findIdx?_some_spec {α : Type} (p : α → Bool) : ∀ (l : List α) (j : Nat),
    List.findIdx? p l = some j →
    (∃ x, l.get? j = some x ∧ p x = true) ∧
      ∀ k, k < j → ∀ y, l.get? k = some y → p y = false := by
  intro l
  induction l with
  | nil => intro j h; simp [List.findIdx?] at h
  | cons a t ih =>
    intro j h
    rw [List.findIdx?_cons] at h
    by_cases hp : p a = true
    · rw [if_pos hp] at h
      injection h with h1
      subst h1
      exact ⟨⟨a, rfl, hp⟩, fun k hk y hy => absurd hk (by omega)⟩
    · rw [if_neg hp] at h
      rw [List.findIdx?_succ] at h
      rcases Option.map_eq_some'.mp h with ⟨j0, hj0, he⟩
      subst he
      obtain ⟨⟨x, hx, hpx⟩, hmin⟩ := ih j0 hj0
      refine ⟨⟨x, hx, hpx⟩, ?_⟩
      intro k hk y hy
      cases k with
      | zero =>
        simp only [List.get?] at hy
        injection hy with h2
        subst h2
        simpa using hp
      | succ k0 =>
        simp only [List.get?] at hy
        exact hmin k0 (by omega) y hy

theorem findIdx?_min {α : Type} (p : α → Bool) : ∀ (l : List α) (m : Nat) (x : α),
    l.get? m = some x → p x = true →
    ∃ j, List.findIdx? p l = some j ∧ j ≤ m := by
  intro l
  induction l with
  | nil => intro m x h _; simp at h
  | cons a t ih =>
    intro m x h hp
    rw [List.findIdx?_cons]
    by_cases hpa : p a = true
    · exact ⟨0, by rw [if_pos hpa], by omega⟩
    · rw [if_neg hpa, List.findIdx?_succ]
      cases m with
      | zero =>
        simp only [List.get?] at h
        injection h with h1
        subst h1
        exact absurd hp hpa
      | succ m0 =>
        simp only [List.get?] at h
        obtain ⟨j0, hj0, hle⟩ := ih m0 x h hp
        exact ⟨j0 + 1, by rw [hj0]; rfl, by omega⟩

theorem findIdx?_none_get? {α : Type} (p : α → Bool) (l : List α)
    (h : List.findIdx? p l = none) :
    ∀ k x, l.get? k = some x → p x = false := by
  intro k x hx
  have hmem : x ∈ l := by
    rcases List.get?_eq_some.mp hx with ⟨hlt, hget⟩
    exact hget ▸ List.get_mem l k hlt
  exact List.findIdx?_eq_none_iff.mp h x hmem

theorem findIdx?_set_congr {α : Type} (p : α → Bool) : ∀ (l : List α) (i : Nat) (g : α),
    (∀ f, l.get? i = some f → p g = p f) →
    List.findIdx? p (l.set i g) = List.findIdx? p l := by
  intro l
  induction l with
  | nil => intro i g _; simp
  | cons a t ih =>
    intro i g hpres
    cases i with
    | zero =>
      have hpg : p g = p a := hpres a rfl
      rw [List.set, List.findIdx?_cons, List.findIdx?_cons, hpg]
    | succ j =>
      rw [List.set, List.findIdx?_cons, List.findIdx?_cons]
      by_cases hpa : p a = true
      · rw [if_pos hpa, if_pos hpa]
      · rw [if_neg hpa, if_neg hpa, List.findIdx?_succ, List.findIdx?_succ,
          ih j g (fun f hf => hpres f (by simpa using hf))]

theorem any_set_congr {α : Type} (p : α → Bool) : ∀ (l : List α) (i : Nat) (g : α),
    (∀ f, l.get? i = some f → p g = p f) →
    (l.set i g).any p = l.any p := by
  intro l
  induction l with
  | nil => intro i g _; simp
  | cons a t ih =>
    intro i g hpres
    cases i with
    | zero =>
      have hpg : p g = p a := hpres a rfl
      rw [List.set, List.any_cons, List.any_cons, hpg]
    | succ j =>
      rw [List.set, List.any_cons, List.any_cons,
        ih j g (fun f hf => hpres f (by simpa using hf))]

theorem find?_set_skip {α : Type} (p : α → Bool) : ∀ (l : List α) (i : Nat) (g : α),
    (∀ f, l.get? i = some f → p f = false) → p g = false →
    List.find? p (l.set i g) = List.find? p l := by
  intro l
  induction l with
  | nil => intro i g _ _; simp
  | cons a t ih =>
    intro i g hfalse hg
    cases i with
    | zero =>
      have hpa : p a = false := hfalse a rfl
      rw [List.set, List.find?_cons, List.find?_cons, hpa, hg]
    | succ j =>
      rw [List.set, List.find?_cons, List.find?_cons]
      cases hpa : p a
      · exact ih j g (fun f hf => hfalse f (by simpa using hf)) hg
      · rfl

theorem find?_eq_bind {α : Type} (p : α → Bool) : ∀ (l : List α),
    List.find? p l = (List.findIdx? p l).bind (fun j => l.get? j) := by
  intro l
  induction l with
  | nil => rfl
  | cons a t ih =>
    rw [List.find?_cons, List.findIdx?_cons]
    cases hpa : p a
    · simp only []
      rw [if_neg (by simp), List.findIdx?_succ, ih]
      cases hfi : List.findIdx? p t <;> simp [hfi]
    · rfl

theorem not_natToStr_head (c : Char) (t : Str) (hc : isDigitCh c = false) :
    ∀ n, ¬ c :: t = natToStr n := by
  intro n h
  have := natToStr_digits n c (h ▸ List.mem_cons_self c t)
  rw [this] at hc
  cases hc

theorem find?_jsSpread_nonobj (v : Json) (hv : ∀ fs, ¬ v = Json.jobj fs)
    (c : Char) (t : Str) (hc : isDigitCh c = false) :
    List.find? (fun p => p.1 = c :: t) (jsSpread v) = none := by
  rw [List.find?_eq_none]
  intro p hp
  cases v with
  | jnull => simp [jsSpread] at hp
  | jbool b => simp [jsSpread] at hp
  | jnum m e => simp [jsSpread] at hp
  | jstr s =>
    simp only [jsSpread, List.mem_map] at hp
    obtain ⟨⟨i, ch⟩, _, he⟩ := hp
    simp only [decide_eq_true_eq]
    intro h2
    rw [← he] at h2
    exact not_natToStr_head c t hc i (h2.symm)
  | jarr xs =>
    simp only [jsSpread, List.mem_map] at hp
    obtain ⟨⟨i, x⟩, _, he⟩ := hp
    simp only [decide_eq_true_eq]
    intro h2
    rw [← he] at h2
    exact not_natToStr_head c t hc i (h2.symm)
  | jobj fs => exact absurd rfl (hv fs)

theorem resolveFramework_eq (c : Option Json) (fl : List GeneratedFile)
    (p : Option Json) :
    resolveFramework c fl p =
      match resolveDirect c with
      | some fw => some fw
      | none =>
        FRAMEWORKS.find? (fun fw =>
          match fw.detect with
          | some d => d { files := fl, packageJson := p }
          | none => false) := by
  cases c <;> rfl

theorem frameworkMapGet_astro : frameworkMapGet (txt "astro") = some astroDefinition := by
  rfl

theorem frameworkMapGet_next : frameworkMapGet (txt "next") = some nextDefinition := by
  rfl

theorem resolveDirect_mem (c : Option Json) (fw : FrameworkDefinition)
    (h : resolveDirect c = some fw) : fw = astroDefinition ∨ fw = nextDefinition := by
  rcases c with _ | c0
  · exact absurd h (by simp [resolveDirect])
  rw [resolveDirect] at h
  rcases hg : jGet c0 (txt "framework") with _ | fv
  · rw [hg] at h
    exact absurd h (by simp)
  rw [hg] at h
  simp only [] at h
  split at h
  · split at h
    · have hm := List.mem_of_find?_eq_some h
      simpa [FRAMEWORKS] using hm
    all_goals exact absurd h (by simp)
  · exact absurd h (by simp)

theorem resolveFramework_mem (c : Option Json) (fl : List GeneratedFile) (p : Option Json)
    (fw : FrameworkDefinition) (h : resolveFramework c fl p = some fw) :
    fw = astroDefinition ∨ fw = nextDefinition := by
  rw [resolveFramework_eq] at h
  rcases hd : resolveDirect c with _ | fw0
  · rw [hd] at h
    simp only [] at h
    have hm := List.mem_of_find?_eq_some h
    simpa [FRAMEWORKS] using hm
  · rw [hd] at h
    simp only [] at h
    injection h with h1
    subst h1
    exact resolveDirect_mem c fw0 hd

theorem resolveFramework_of_direct (c : Option Json) (fl : List GeneratedFile)
    (p : Option Json) (fw : FrameworkDefinition) (hd : resolveDirect c = some fw) :
    resolveFramework c fl p = some fw := by
  rw [resolveFramework_eq, hd]

theorem resolveDirect_nnc (config : Option Json) (fw : FrameworkDefinition)
    (target : FrameworkTarget) (hmem : fw = astroDefinition ∨ fw = nextDefinition) :
    resolveDirect (some (normalizeNimbusConfig config fw target)) = some fw := by
  rw [resolveDirect, nnc_jget_framework]
  rcases hmem with h | h <;> subst h <;> rfl

theorem resolveTarget_next (c : Option Json) : resolveTarget c nextDefinition = .workers := by
  rw [resolveTarget]
  split
  · rfl
  split
  · rfl
  · rfl

theorem resolveTarget_astro_rt (c : Json) (target : FrameworkTarget)
    (hg : jGet c (txt "target") = some (Json.jstr (targetStr target))) :
    resolveTarget (some c) astroDefinition = target := by
  cases target <;>
  · rw [resolveTarget]
    simp only [Option.bind, hg]
    rfl

theorem mergeProps_find?_left (a b : List (Str × Json)) (k : Str)
    (hand : (a.map Prod.fst).Nodup) (hk : ¬ k ∈ b.map Prod.fst) :
    (mergeProps a b).find? (fun p => p.1 = k) = a.find? (fun p => p.1 = k) := by
  rw [mergeProps_eq_foldl]
  rw [show a.foldl (fun acc p => insertField acc p.1 p.2) [] = a by
    have := foldl_insertField_fresh a [] (by simp) hand
    simpa using this]
  exact find?_foldl_insert_not_mem b a k hk

theorem spread_find?_eq_jget (data : Json) (c : Char) (t : Str) (hc : isDigitCh c = false) :
    (List.find? (fun p => p.1 = c :: t) (jsSpread data)).map Prod.snd =
      jGet data (c :: t) := by
  cases data with
  | jobj fs => rfl
  | jnull => rfl
  | jbool b => rfl
  | jnum m e => rfl
  | jstr s =>
    rw [find?_jsSpread_nonobj _ (fun fs h => Json.noConfusion h) c t hc]
    rfl
  | jarr xs =>
    rw [find?_jsSpread_nonobj _ (fun fs h => Json.noConfusion h) c t hc]
    rfl

theorem spreadPropOrEmpty_spread_eq (data : Json) :
    spreadPropOrEmpty (jsSpread data) (txt "dependencies") =
      (match jGet data (txt "dependencies") with
        | none => []
        | some Json.jnull => []
        | some v => jsSpread v) := by
  rw [spreadPropOrEmpty]
  rw [show (List.find? (fun p => p.1 = txt "dependencies") (jsSpread data)).map Prod.snd
      = jGet data (txt "dependencies") from
    spread_find?_eq_jget data 'd' (txt "ependencies") (by decide)]

theorem jget_applyDeps_dep_bind (data : Json) (fw : FrameworkDefinition)
    (deps : List (Str × Json)) (hdep : fw.dependencies = some deps)
    (hdev : fw.devDependencies = none) (hdata : Canon data)
    (c : Char) (t2 : Str) (hc : isDigitCh c = false)
    (hkdeps : ¬ (c :: t2) ∈ deps.map Prod.fst) :
    ((jGet (applyDependencies data fw) (txt "dependencies")).bind
      (fun d => jGet d (c :: t2))) =
    ((jGet data (txt "dependencies")).bind (fun d => jGet d (c :: t2))) := by
  rw [applyDependencies_eq data fw deps hdep hdev]
  rw [show jGet (Json.jobj (insertField (jsSpread data) (txt "dependencies") (Json.jobj
      (mergeProps (spreadPropOrEmpty (jsSpread data) (txt "dependencies")) deps))))
      (txt "dependencies") = some (Json.jobj (mergeProps (spreadPropOrEmpty (jsSpread data)
      (txt "dependencies")) deps)) by
    rw [jGet, find?_insertField_self]
    rfl]
  simp only [Option.bind]
  rw [jGet]
  have hBnd := (spreadPropOrEmpty_props (jsSpread data) (txt "dependencies")
    (jsSpread_props data hdata).2).1
  rw [mergeProps_find?_left _ deps _ hBnd hkdeps]
  rw [spreadPropOrEmpty_spread_eq data]
  rcases hdv : jGet data (txt "dependencies") with _ | dv
  · rfl
  · cases dv with
    | jnull => rfl
    | jobj fs => rfl
    | jbool b => rfl
    | jnum m e => rfl
    | jstr s =>
      rw [find?_jsSpread_nonobj _ (fun fs h => Json.noConfusion h) c t2 hc]
      rfl
    | jarr xs =>
      rw [find?_jsSpread_nonobj _ (fun fs h => Json.noConfusion h) c t2 hc]
      rfl

theorem jget_applyDeps_other (data : Json) (fw : FrameworkDefinition)
    (deps : List (Str × Json)) (hdep : fw.dependencies = some deps)
    (hdev : fw.devDependencies = none) (c : Char) (t2 : Str) (hc : isDigitCh c = false)
    (hne : ¬ (c :: t2) = txt "dependencies") :
    jGet (applyDependencies data fw) (c :: t2) = jGet data (c :: t2) := by
  rw [applyDependencies_eq data fw deps hdep hdev, jGet,
    find?_insertField_ne _ _ _ _ hne]
  exact spread_find?_eq_jget data c t2 hc

theorem astroDetect_up_true (fl2 : List GeneratedFile) (data : Json) (hdata : Canon data) :
    astroDetect ⟨fl2, some (applyDependencies data astroDefinition)⟩ = true := by
  have hBnd := (spreadPropOrEmpty_props (jsSpread data) (txt "dependencies")
    (jsSpread_props data hdata).2).1
  have hbind : ((jGet (applyDependencies data astroDefinition) (txt "dependencies")).bind
      (fun d => jGet d (txt "astro"))) = some (Json.jstr (txt "5.16.15")) := by
    rw [applyDependencies_eq data astroDefinition _ rfl rfl]
    rw [show jGet (Json.jobj (insertField (jsSpread data) (txt "dependencies") (Json.jobj
        (mergeProps (spreadPropOrEmpty (jsSpread data) (txt "dependencies"))
          [(txt "astro", Json.jstr (txt "5.16.15")),
           (txt "@astrojs/cloudflare", Json.jstr (txt "12.6.12"))]))))
        (txt "dependencies") = some (Json.jobj
        (mergeProps (spreadPropOrEmpty (jsSpread data) (txt "dependencies"))
          [(txt "astro", Json.jstr (txt "5.16.15")),
           (txt "@astrojs/cloudflare", Json.jstr (txt "12.6.12"))])) by
      rw [jGet, find?_insertField_self]
      rfl]
    simp only [Option.bind]
    rw [jGet, mergeProps_find?_right _ _ _ _ hBnd (by decide)
      (List.mem_cons_self _ _)]
    rfl
  rw [astroDetect]
  simp only []
  rw [hbind]
  rfl

theorem nextDetect_up_true (fl2 : List GeneratedFile) (data : Json) (hdata : Canon data) :
    nextDetect ⟨fl2, some (applyDependencies data nextDefinition)⟩ = true := by
  have hBnd := (spreadPropOrEmpty_props (jsSpread data) (txt "dependencies")
    (jsSpread_props data hdata).2).1
  have hbind : ((jGet (applyDependencies data nextDefinition) (txt "dependencies")).bind
      (fun d => jGet d (txt "next"))) = some (Json.jstr (txt "latest")) := by
    rw [applyDependencies_eq data nextDefinition _ rfl rfl]
    rw [show jGet (Json.jobj (insertField (jsSpread data) (txt "dependencies") (Json.jobj
        (mergeProps (spreadPropOrEmpty (jsSpread data) (txt "dependencies"))
          [(txt "next", Json.jstr (txt "latest")),
           (txt "react", Json.jstr (txt "latest")),
           (txt "react-dom", Json.jstr (txt "latest")),
           (txt "@opennextjs/cloudflare", Json.jstr (txt "latest"))]))))
        (txt "dependencies") = some (Json.jobj
        (mergeProps (spreadPropOrEmpty (jsSpread data) (txt "dependencies"))
          [(txt "next", Json.jstr (txt "latest")),
           (txt "react", Json.jstr (txt "latest")),
           (txt "react-dom", Json.jstr (txt "latest")),
           (txt "@opennextjs/cloudflare", Json.jstr (txt "latest"))])) by
      rw [jGet, find?_insertField_self]
      rfl]
    simp only [Option.bind]
    rw [jGet, mergeProps_find?_right _ _ _ _ hBnd (by decide)
      (List.mem_cons_self _ _)]
    rfl
  rw [nextDetect]
  simp only []
  rw [hbind]
  rfl

theorem astroDetect_up_next_eq (fl fl2 : List GeneratedFile) (data : Json)
    (hdata : Canon data)
    (hany : fl2.any (fun f => cfgPathTest (txt "astro.config") f.path) =
      fl.any (fun f => cfgPathTest (txt "astro.config") f.path)) :
    astroDetect ⟨fl2, some (applyDependencies data nextDefinition)⟩ =
    astroDetect ⟨fl, some data⟩ := by
  rw [astroDetect, astroDetect]
  simp only []
  rw [show ((jGet (applyDependencies data nextDefinition) (txt "dependencies")).bind
      fun d => jGet d (txt "astro")) =
      ((jGet data (txt "dependencies")).bind fun d => jGet d (txt "astro")) from
    jget_applyDeps_dep_bind data nextDefinition _ rfl rfl hdata 'a' (txt "stro")
      (by decide) (by decide)]
  rw [show jGet (applyDependencies data nextDefinition) (txt "devDependencies") =
      jGet data (txt "devDependencies") from
    jget_applyDeps_other data nextDefinition _ rfl rfl 'd' (txt "evDependencies")
      (by decide) (by decide)]
  rw [hany]

theorem ngf_eq (files : List GeneratedFile) :
    normalizeGeneratedFiles files =
      match resolveFramework (parseNimbusConfig files) files
          ((readPackageJson files).map Prod.snd) with
      | none => ⟨files, parseNimbusConfig files, none⟩
      | some fw =>
        ⟨upsertFile
          (match fw.normalizeFiles with
            | some nf => nf ⟨(match readPackageJson files with
                | some (i, data) => (writePackageJson files i (applyDependencies data fw),
                    some (applyDependencies data fw))
                | none => (files, none)).1,
                parseNimbusConfig files,
                resolveTarget (parseNimbusConfig files) fw,
                (match readPackageJson files with
                | some (i, data) => (writePackageJson files i (applyDependencies data fw),
                    some (applyDependencies data fw))
                | none => (files, none)).2⟩
            | none => (match readPackageJson files with
                | some (i, data) => (writePackageJson files i (applyDependencies data fw),
                    some (applyDependencies data fw))
                | none => (files, none)).1)
          NIMBUS_CONFIG_BASENAME
          (stringify2 (normalizeNimbusConfig (parseNimbusConfig files) fw
            (resolveTarget (parseNimbusConfig files) fw)) ++ ['\n']),
        some (normalizeNimbusConfig (parseNimbusConfig files) fw
          (resolveTarget (parseNimbusConfig files) fw)),
        some fw⟩ := by
  rfl

theorem readPackageJson_spec (files : List GeneratedFile) (i : Nat) (data : Json)
    (h : readPackageJson files = some (i, data)) :
    files.findIdx? (fun f => f.path = txt "package.json") = some i ∧
    ∃ f0, files.get? i = some f0 ∧ f0.path = txt "package.json" ∧
      parseJson f0.content = some data ∧
      ((∃ fs, data = Json.jobj fs) ∨ (∃ xs, data = Json.jarr xs)) := by
  rw [readPackageJson] at h
  rcases hIdx : files.findIdx? (fun f => f.path = txt "package.json") with _ | i0
  · rw [hIdx] at h
    exact absurd h (by simp)
  rw [hIdx] at h
  simp only [] at h
  rcases hget : files.get? i0 with _ | f0
  · rw [hget] at h
    exact absurd h (by simp)
  rw [hget] at h
  simp only [] at h
  rcases hp : parseJson f0.content with _ | v
  · rw [hp] at h
    exact absurd h (by simp)
  rw [hp] at h
  have hpath : f0.path = txt "package.json" := by
    obtain ⟨⟨x, hx, hpx⟩, _⟩ := findIdx?_some_spec _ files i0 hIdx
    rw [hget] at hx
    injection hx with hx1
    subst hx1
    simpa using hpx
  cases v with
  | jobj fs =>
    simp only [] at h
    injection h with h1
    injection h1 with h2 h3
    subst h2
    subst h3
    exact ⟨hIdx, f0, hget, hpath, hp, Or.inl ⟨fs, rfl⟩⟩
  | jarr xs =>
    simp only [] at h
    injection h with h1
    injection h1 with h2 h3
    subst h2
    subst h3
    exact ⟨hIdx, f0, hget, hpath, hp, Or.inr ⟨xs, rfl⟩⟩
  | jnull => exact absurd h (by simp)
  | jbool b => exact absurd h (by simp)
  | jnum m e => exact absurd h (by simp)
  | jstr s => exact absurd h (by simp)

theorem writePackageJson_eq (files : List GeneratedFile) (i : Nat) (f0 : GeneratedFile)
    (d : Json) (hget : files.get? i = some f0) :
    writePackageJson files i d = files.set i ⟨f0.path, stringify2 d ++ ['\n']⟩ := by
  rw [writePackageJson, hget]

theorem upsertFile_found (files : List GeneratedFile) (path c : Str) (i2 : Nat)
    (f : GeneratedFile) (hIdx : files.findIdx? (fun f => f.path = path) = some i2)
    (hget : files.get? i2 = some f) :
    upsertFile files path c = files.set i2 ⟨f.path, c⟩ := by
  rw [upsertFile, hIdx]
  simp only []
  rw [hget]

theorem upsertFile_notfound (files : List GeneratedFile) (path c : Str)
    (hIdx : files.findIdx? (fun f => f.path = path) = none) :
    upsertFile files path c = files ++ [⟨path, c⟩] := by
  rw [upsertFile, hIdx]

theorem readPackageJson_readback (files2 : List GeneratedFile) (i : Nat) (up : Json)
    (hIdx2 : files2.findIdx? (fun f => f.path = txt "package.json") = some i)
    (hget2 : files2.get? i = some ⟨txt "package.json", stringify2 up ++ ['\n']⟩)
    (hcanon : Canon up) (hobj : ∃ fs, up = Json.jobj fs) :
    readPackageJson files2 = some (i, up) := by
  obtain ⟨fs, rfl⟩ := hobj
  rw [readPackageJson, hIdx2]
  simp only []
  rw [hget2]
  simp only []
  rw [parseJson_stringify2_newline _ hcanon]

theorem readPackageJson_none_find (files : List GeneratedFile)
    (h : readPackageJson files = none) :
    files.findIdx? (fun f => f.path = txt "package.json") = none ∨
    (∃ i0 f0, files.findIdx? (fun f => f.path = txt "package.json") = some i0 ∧
      files.get? i0 = some f0 ∧
      (∀ v, parseJson f0.content = some v →
        (∀ fs, ¬ v = Json.jobj fs) ∧ (∀ xs, ¬ v = Json.jarr xs))) := by
  rw [readPackageJson] at h
  rcases hIdx : files.findIdx? (fun f => f.path = txt "package.json") with _ | i0
  · exact Or.inl hIdx
  rw [hIdx] at h
  simp only [] at h
  rcases hget : files.get? i0 with _ | f0
  · obtain ⟨⟨x, hx, _⟩, _⟩ := findIdx?_some_spec _ files i0 hIdx
    rw [hget] at hx
    exact absurd hx (by simp)
  rw [hget] at h
  simp only [] at h
  refine Or.inr ⟨i0, f0, hIdx, hget, ?_⟩
  intro v hv
  rw [hv] at h
  cases v with
  | jobj fs => exact absurd h (by simp)
  | jarr xs => exact absurd h (by simp)
  | jnull => exact ⟨fun fs he => Json.noConfusion he, fun xs he => Json.noConfusion he⟩
  | jbool b => exact ⟨fun fs he => Json.noConfusion he, fun xs he => Json.noConfusion he⟩
  | jnum m e => exact ⟨fun fs he => Json.noConfusion he, fun xs he => Json.noConfusion he⟩
  | jstr s => exact ⟨fun fs he => Json.noConfusion he, fun xs he => Json.noConfusion he⟩

theorem findIdx?_eq_of_witness {α : Type} (p : α → Bool) (l : List α) (j : Nat) (x : α)
    (hw : l.get? j = some x) (hx : p x = true)
    (hmin : ∀ k, k < j → ∀ y, l.get? k = some y → p y = false) :
    List.findIdx? p l = some j := by
  obtain ⟨j2, hj2, hle⟩ := findIdx?_min p l j x hw hx
  obtain ⟨⟨x2, hx2, hpx2⟩, _⟩ := findIdx?_some_spec p l j2 hj2
  rcases Nat.lt_or_ge j2 j with hlt | hge
  · rw [hmin j2 hlt x2 hx2] at hpx2
    cases hpx2
  · have : j2 = j := by omega
    rw [← this]
    exact hj2

theorem nnc_is_jobj (config : Option Json) (fw : FrameworkDefinition)
    (target : FrameworkTarget) :
    ∃ ms, normalizeNimbusConfig config fw target = Json.jobj ms := by
  rcases hA : (fw.outputs target).assetsDir with _ | a <;>
    rcases hW : (fw.outputs target).workerEntry with _ | w
  · exact ⟨_, nnc_eq_nn config fw target hA hW⟩
  · exact ⟨_, nnc_eq_ns config fw target w hA hW⟩
  · exact ⟨_, nnc_eq_sn config fw target a hA hW⟩
  · exact ⟨_, nnc_eq_ss config fw target a w hA hW⟩

theorem npred_false_astro (p : Str) (h : cfgPathTest (txt "astro.config") p = true) :
    (p = NIMBUS_CONFIG_BASENAME || ('/' :: NIMBUS_CONFIG_BASENAME).isSuffixOf p) = false := by
  rw [cfgPathTest, List.any_eq_true] at h
  obtain ⟨ext, hext, hmatch⟩ := h
  rw [Bool.or_eq_true] at hmatch
  rw [Bool.or_eq_false_iff]
  constructor
  · rw [decide_eq_false_iff_not]
    intro hp
    subst hp
    fin_cases hext <;> revert hmatch <;> decide
  · by_contra hsuf
    rw [Bool.not_eq_false] at hsuf
    have hs1 := List.isSuffixOf_iff_suffix.mp hsuf
    rcases hmatch with hm | hm
    · rw [decide_eq_true_eq] at hm
      subst hm
      fin_cases hext <;> revert hsuf <;> decide
    · have hs2 := List.isSuffixOf_iff_suffix.mp hm
      have hle : (('/' :: txt "astro.config") ++ '.' :: ext).length ≤
          ('/' :: NIMBUS_CONFIG_BASENAME).length := by
        fin_cases hext <;> decide
      have hss := List.suffix_of_suffix_length_le hs2 hs1 hle
      have h2 := List.isSuffixOf_iff_suffix.mpr hss
      fin_cases hext <;> revert h2 <;> decide

theorem upsert_nimbus_same (A2 : List GeneratedFile) (nc : Json) (iN : Nat)
    (hIdx : A2.findIdx? (fun f => f.path = NIMBUS_CONFIG_BASENAME) = some iN)
    (hget : A2.get? iN = some ⟨NIMBUS_CONFIG_BASENAME, stringify2 nc ++ ['\n']⟩) :
    upsertFile A2 NIMBUS_CONFIG_BASENAME (stringify2 nc ++ ['\n']) = A2 := by
  rw [upsertFile_found A2 _ _ iN _ hIdx hget]
  exact set_get?_same _ _ _ hget

theorem normalizeAstro_static (fl : List GeneratedFile) (cfg : Option Json)
    (pj : Option Json) :
    normalizeAstroConfigFiles ⟨fl, cfg, FrameworkTarget.staticT, pj⟩ = fl := by
  rw [normalizeAstroConfigFiles]
  rw [if_pos (by decide : FrameworkTarget.staticT ≠ FrameworkTarget.workers)]

theorem normalizeAstro_workers (fl : List GeneratedFile) (cfg : Option Json)
    (pj : Option Json) (ja : Nat) (fa : GeneratedFile)
    (hja : fl.findIdx? (fun f => cfgPathTest (txt "astro.config") f.path) = some ja)
    (hfa : fl.get? ja = some fa) :
    normalizeAstroConfigFiles ⟨fl, cfg, FrameworkTarget.workers, pj⟩ =
      fl.set ja ⟨fa.path, ensureOutputServer (ensureCloudflareAdapter fa.content)⟩ := by
  rw [normalizeAstroConfigFiles]
  rw [if_neg (by simp : ¬ (FrameworkTarget.workers ≠ FrameworkTarget.workers))]
  simp only []
  rw [hja]
  simp only []
  rw [hfa]

theorem run2_core (files2 : List GeneratedFile) (fw : FrameworkDefinition)
    (tgt : FrameworkTarget) (cfg1 : Option Json) (nc : Json)
    (hmem : fw = astroDefinition ∨ fw = nextDefinition)
    (hnc : normalizeNimbusConfig cfg1 fw tgt = nc)
    (h1 : parseNimbusConfig files2 = cfg1 ∨ parseNimbusConfig files2 = some nc)
    (h4 : resolveTarget (parseNimbusConfig files2) fw = tgt)
    (h3 : resolveFramework (parseNimbusConfig files2) files2
      ((readPackageJson files2).map Prod.snd) = some fw)
    (hpk : readPackageJson files2 = none ∨
      ∃ i fs0, readPackageJson files2 = some (i, Json.jobj fs0) ∧
        applyDependencies (Json.jobj fs0) fw = Json.jobj fs0 ∧
        files2.get? i = some ⟨txt "package.json", stringify2 (Json.jobj fs0) ++ ['\n']⟩)
    (h5 : fw = astroDefinition → tgt = FrameworkTarget.workers →
      ∃ ja fa, files2.findIdx? (fun f => cfgPathTest (txt "astro.config") f.path) = some ja ∧
        files2.get? ja = some fa)
    (h6 : ∃ iN, files2.findIdx? (fun f => f.path = NIMBUS_CONFIG_BASENAME) = some iN ∧
      files2.get? iN = some ⟨NIMBUS_CONFIG_BASENAME, stringify2 nc ++ ['\n']⟩) :
    (normalizeGeneratedFiles files2).config = some nc ∧
    (normalizeGeneratedFiles files2).framework = some fw ∧
    (normalizeGeneratedFiles files2).files.length = files2.length ∧
    (∀ m, ((normalizeGeneratedFiles files2).files.get? m).map GeneratedFile.path =
      (files2.get? m).map GeneratedFile.path) ∧
    (∀ m f1, files2.get? m = some f1 →
      cfgPathTest (txt "astro.config") f1.path = false →
      (normalizeGeneratedFiles files2).files.get? m = some f1) := by
  obtain ⟨iN, hIdxN, hgetN⟩ := h6
  have hnc2 : normalizeNimbusConfig (parseNimbusConfig files2) fw tgt = nc := by
    rcases h1 with h | h
    · rw [h, hnc]
    · rw [h, ← hnc, nnc_idem, hnc]
  have hstep1 : (match readPackageJson files2 with
      | some (i, data) => (writePackageJson files2 i (applyDependencies data fw),
          some (applyDependencies data fw))
      | none => (files2, none)).1 = files2 := by
    rcases hpk with hnone | ⟨i, fs0, hsome, hfix, hget⟩
    · rw [hnone]
    · rw [hsome]
      simp only []
      rw [hfix, writePackageJson_eq files2 i _ _ hget]
      exact set_get?_same _ _ _ hget
  have hngf : ∃ A2, normalizeGeneratedFiles files2 =
      ⟨upsertFile A2 NIMBUS_CONFIG_BASENAME (stringify2 nc ++ ['\n']), some nc, some fw⟩ ∧
      (A2 = files2 ∨ ∃ ja fa, files2.findIdx?
          (fun f => cfgPathTest (txt "astro.config") f.path) = some ja ∧
        files2.get? ja = some fa ∧
        A2 = files2.set ja ⟨fa.path,
          ensureOutputServer (ensureCloudflareAdapter fa.content)⟩) := by
    rw [ngf_eq files2, h3]
    simp only []
    rw [hstep1, h4, hnc2]
    rcases hmem with rfl | rfl
    · rw [show astroDefinition.normalizeFiles = some normalizeAstroConfigFiles from rfl]
      simp only []
      cases tgt with
      | staticT =>
        refine ⟨files2, ?_, Or.inl rfl⟩
        rw [normalizeAstro_static]
      | workers =>
        obtain ⟨ja, fa, hja, hfa⟩ := h5 rfl rfl
        refine ⟨files2.set ja ⟨fa.path,
            ensureOutputServer (ensureCloudflareAdapter fa.content)⟩, ?_,
          Or.inr ⟨ja, fa, hja, hfa, rfl⟩⟩
        rw [normalizeAstro_workers _ _ _ ja fa hja hfa]
    · rw [show nextDefinition.normalizeFiles =
          (none : Option (FrameworkNormalizeContext → List GeneratedFile)) from rfl]
      exact ⟨files2, rfl, Or.inl rfl⟩
  obtain ⟨A2, hngf2, hA2⟩ := hngf
  have hup : upsertFile A2 NIMBUS_CONFIG_BASENAME (stringify2 nc ++ ['\n']) = A2 := by
    rcases hA2 with rfl | ⟨ja, fa, hja, hfa, rfl⟩
    · exact upsert_nimbus_same _ nc iN hIdxN hgetN
    · have hastro : cfgPathTest (txt "astro.config") fa.path = true := by
        obtain ⟨⟨x, hx, hpx⟩, _⟩ := findIdx?_some_spec _ files2 ja hja
        rw [hfa] at hx
        injection hx with hx1
        subst hx1
        exact hpx
      have hne : ja ≠ iN := by
        intro he
        subst he
        rw [hfa] at hgetN
        injection hgetN with h7
        subst h7
        have h8 : cfgPathTest (txt "astro.config") NIMBUS_CONFIG_BASENAME = true := hastro
        exact absurd h8 (by decide)
      refine upsert_nimbus_same _ nc iN ?_ ?_
      · rw [findIdx?_set_congr _ files2 ja _ (fun f hf => by
          rw [hfa] at hf
          injection hf with hf1
          subst hf1
          rfl)]
        exact hIdxN
      · rw [List.get?_set, if_neg hne]
        exact hgetN
  rw [hngf2]
  simp only []
  rw [hup]
  rcases hA2 with rfl | ⟨ja, fa, hja, hfa, rfl⟩
  · refine ⟨trivial, trivial, rfl, fun m => rfl, fun m f1 h _ => h⟩
  · have hastro : cfgPathTest (txt "astro.config") fa.path = true := by
      obtain ⟨⟨x, hx, hpx⟩, _⟩ := findIdx?_some_spec _ files2 ja hja
      rw [hfa] at hx
      injection hx with hx1
      subst hx1
      exact hpx
    refine ⟨trivial, trivial, List.length_set _ _ _, ?_, ?_⟩
    · intro m
      rw [List.get?_set]
      by_cases he : ja = m
      · rw [if_pos he]
        subst he
        rw [hfa]
        rfl
      · rw [if_neg he]
    · intro m f1 hm hfalse
      rw [List.get?_set]
      by_cases he : ja = m
      · subst he
        rw [hfa] at hm
        injection hm with hm1
        subst hm1
        rw [hastro] at hfalse
        cases hfalse
      · rw [if_neg he]
        exact hm

theorem parseNimbus_congr (l l2 : List GeneratedFile)
    (h : l.find? (fun f => f.path = NIMBUS_CONFIG_BASENAME ||
        ('/' :: NIMBUS_CONFIG_BASENAME).isSuffixOf f.path) =
      l2.find? (fun f => f.path = NIMBUS_CONFIG_BASENAME ||
        ('/' :: NIMBUS_CONFIG_BASENAME).isSuffixOf f.path)) :
    parseNimbusConfig l = parseNimbusConfig l2 := by
  rw [parseNimbusConfig, parseNimbusConfig, h]

theorem parseNimbusConfig_canon (l : List GeneratedFile) (c : Json)
    (h : parseNimbusConfig l = some c) : Canon c := by
  rw [parseNimbusConfig] at h
  rcases hf : l.find? (fun f => f.path = NIMBUS_CONFIG_BASENAME ||
      ('/' :: NIMBUS_CONFIG_BASENAME).isSuffixOf f.path) with _ | cf
  · rw [hf] at h
    exact absurd h (by simp)
  rw [hf] at h
  simp only [] at h
  rcases hp : parseJson cf.content with _ | v
  · rw [hp] at h
    exact absurd h (by simp)
  rw [hp] at h
  cases v with
  | jobj fs =>
    simp only [] at h
    injection h with h1
    subst h1
    exact parseJson_canon _ _ hp
  | jarr xs =>
    simp only [] at h
    injection h with h1
    subst h1
    exact parseJson_canon _ _ hp
  | jnull => exact absurd h (by simp)
  | jbool b => exact absurd h (by simp)
  | jnum m e => exact absurd h (by simp)
  | jstr s => exact absurd h (by simp)

theorem readPackageJson_none_of_idx (l : List GeneratedFile)
    (h : l.findIdx? (fun f => f.path = txt "package.json") = none) :
    readPackageJson l = none := by
  rw [readPackageJson, h]

theorem readPackageJson_none_of_bad (l : List GeneratedFile) (i0 : Nat) (f0 : GeneratedFile)
    (hIdx : l.findIdx? (fun f => f.path = txt "package.json") = some i0)
    (hget : l.get? i0 = some f0)
    (hbad : ∀ v, parseJson f0.content = some v →
      (∀ fs, ¬ v = Json.jobj fs) ∧ (∀ xs, ¬ v = Json.jarr xs)) :
    readPackageJson l = none := by
  rw [readPackageJson, hIdx]
  simp only []
  rw [hget]
  simp only []
  rcases hp : parseJson f0.content with _ | v
  · rfl
  obtain ⟨hno, hna⟩ := hbad v hp
  cases v with
  | jobj fs => exact absurd rfl (hno fs)
  | jarr xs => exact absurd rfl (hna xs)
  | jnull => rfl
  | jbool b => rfl
  | jnum m e => rfl
  | jstr s => rfl

theorem astro_ne_next : ¬ astroDefinition = nextDefinition := by
  intro h
  exact absurd (congrArg FrameworkDefinition.id h) (by decide)

theorem astroDetect_nonepk (fl : List GeneratedFile) :
    astroDetect ⟨fl, none⟩ = fl.any (fun f => cfgPathTest (txt "astro.config") f.path) := rfl

theorem nextDetect_nonepk (fl : List GeneratedFile) :
    nextDetect ⟨fl, none⟩ = fl.any (fun f => cfgPathTest (txt "next.config") f.path) := rfl

theorem detPred_eq (fl : List GeneratedFile) (p : Option Json) :
    (fun fw => match fw.detect with
      | some d => d (⟨fl, p⟩ : FrameworkDetectContext)
      | none => false) = detPred fl p := rfl

theorem detPred_astro (fl : List GeneratedFile) (p : Option Json) :
    detPred fl p astroDefinition = astroDetect ⟨fl, p⟩ := rfl

theorem detPred_next (fl : List GeneratedFile) (p : Option Json) :
    detPred fl p nextDefinition = nextDetect ⟨fl, p⟩ := rfl

theorem frameworks_find_astro (fl : List GeneratedFile) (p : Option Json)
    (h : astroDetect ⟨fl, p⟩ = true) :
    FRAMEWORKS.find? (detPred fl p) = some astroDefinition := by
  rw [show FRAMEWORKS = [astroDefinition, nextDefinition] from rfl]
  exact List.find?_cons_of_pos _ (show detPred fl p astroDefinition = true from h)

theorem frameworks_find_next (fl : List GeneratedFile) (p : Option Json)
    (hA : astroDetect ⟨fl, p⟩ = false) (hN : nextDetect ⟨fl, p⟩ = true) :
    FRAMEWORKS.find? (detPred fl p) = some nextDefinition := by
  rw [show FRAMEWORKS = [astroDefinition, nextDefinition] from rfl]
  have e1 : List.find? (detPred fl p) [astroDefinition, nextDefinition] =
      List.find? (detPred fl p) [nextDefinition] :=
    List.find?_cons_of_neg _
      (show ¬ detPred fl p astroDefinition = true by rw [detPred_astro, hA]; decide)
  rw [e1]
  exact List.find?_cons_of_pos _ (show detPred fl p nextDefinition = true from hN)

theorem frameworks_find_spec (fl : List GeneratedFile) (p : Option Json)
    (fw : FrameworkDefinition)
    (h : FRAMEWORKS.find? (detPred fl p) = some fw) :
    (fw = astroDefinition ∧ astroDetect ⟨fl, p⟩ = true) ∨
    (fw = nextDefinition ∧ astroDetect ⟨fl, p⟩ = false ∧ nextDetect ⟨fl, p⟩ = true) := by
  rw [show FRAMEWORKS = [astroDefinition, nextDefinition] from rfl] at h
  cases hA : astroDetect ⟨fl, p⟩ with
  | false =>
    have h2 : List.find? (detPred fl p) [nextDefinition] = some fw :=
      (List.find?_cons_of_neg _
        (show ¬ detPred fl p astroDefinition = true by
          rw [detPred_astro, hA]; decide)).symm.trans h
    cases hN : nextDetect ⟨fl, p⟩ with
    | false =>
      have h3 : (none : Option FrameworkDefinition) = some fw :=
        (List.find?_cons_of_neg _
          (show ¬ detPred fl p nextDefinition = true by
            rw [detPred_next, hN]; decide)).symm.trans h2
      exact absurd h3 (by simp)
    | true =>
      have h3 : some nextDefinition = some fw :=
        (List.find?_cons_of_pos _
          (show detPred fl p nextDefinition = true from hN)).symm.trans h2
      injection h3 with h1
      exact Or.inr ⟨h1.symm, rfl, rfl⟩
  | true =>
    have h2 : some astroDefinition = some fw :=
      (List.find?_cons_of_pos _
        (show detPred fl p astroDefinition = true from hA)).symm.trans h
    injection h2 with h1
    exact Or.inl ⟨h1.symm, rfl⟩

theorem findIdx?_append_some {α : Type} (p : α → Bool) : ∀ (l : List α) (e : List α) (j : Nat),
    List.findIdx? p l = some j → List.findIdx? p (l ++ e) = some j := by
  intro l
  induction l with
  | nil => intro e j h; simp [List.findIdx?] at h
  | cons a t ih =>
    intro e j h
    rw [List.findIdx?_cons] at h
    rw [List.cons_append, List.findIdx?_cons]
    by_cases hpa : p a = true
    · rw [if_pos hpa] at h ⊢
      exact h
    · rw [if_neg hpa] at h ⊢
      rw [List.findIdx?_succ] at h ⊢
      rcases Option.map_eq_some'.mp h with ⟨j0, hj0, he⟩
      subst he
      rw [ih e j0 hj0]
      rfl

theorem findIdx?_append_falseright {α : Type} (p : α → Bool) : ∀ (l : List α) (e : List α),
    (∀ y ∈ e, p y = false) → List.findIdx? p (l ++ e) = List.findIdx? p l := by
  intro l
  induction l with
  | nil =>
    intro e he
    rw [List.nil_append]
    rw [List.findIdx?_eq_none_iff.mpr he]
    rfl
  | cons a t ih =>
    intro e he
    rw [List.cons_append, List.findIdx?_cons, List.findIdx?_cons]
    by_cases hpa : p a = true
    · rw [if_pos hpa, if_pos hpa]
    · rw [if_neg hpa, if_neg hpa, List.findIdx?_succ, List.findIdx?_succ, ih e he]

theorem findIdx?_exists_of_witness {α : Type} (p : α → Bool) (l : List α) (m : Nat) (x : α)
    (hw : l.get? m = some x) (hx : p x = true) :
    ∃ j y, List.findIdx? p l = some j ∧ l.get? j = some y := by
  obtain ⟨j, hj, _⟩ := findIdx?_min p l m x hw hx
  obtain ⟨⟨y, hy, _⟩, _⟩ := findIdx?_some_spec p l j hj
  exact ⟨j, y, hj, hy⟩

theorem resolveTarget_transfer (files2 : List GeneratedFile) (cfg : Option Json)
    (fw : FrameworkDefinition) (tgt : FrameworkTarget)
    (hmem : fw = astroDefinition ∨ fw = nextDefinition)
    (htgt : resolveTarget cfg fw = tgt)
    (hcfg2 : parseNimbusConfig files2 = cfg ∨
      parseNimbusConfig files2 = some (normalizeNimbusConfig cfg fw tgt)) :
    resolveTarget (parseNimbusConfig files2) fw = tgt := by
  rcases hcfg2 with h | h
  · rw [h, htgt]
  · rw [h]
    rcases hmem with rfl | rfl
    · exact resolveTarget_astro_rt _ tgt (nnc_jget_target cfg astroDefinition tgt)
    · rw [resolveTarget_next] at htgt
      rw [resolveTarget_next]
      exact htgt

theorem resolveFramework_transfer (files files2 : List GeneratedFile)
    (pk1m pk2m : Option Json) (fw : FrameworkDefinition) (tgt : FrameworkTarget)
    (hmem : fw = astroDefinition ∨ fw = nextDefinition)
    (hfw : resolveFramework (parseNimbusConfig files) files pk1m = some fw)
    (hcfg2 : parseNimbusConfig files2 = parseNimbusConfig files ∨
      parseNimbusConfig files2 =
        some (normalizeNimbusConfig (parseNimbusConfig files) fw tgt))
    (hdet : FRAMEWORKS.find? (detPred files pk1m) = some fw →
      FRAMEWORKS.find? (detPred files2 pk2m) = some fw) :
    resolveFramework (parseNimbusConfig files2) files2 pk2m = some fw := by
  rcases hcfg2 with h | h
  · rw [h, resolveFramework_eq]
    rw [resolveFramework_eq] at hfw
    rcases hdir : resolveDirect (parseNimbusConfig files) with _ | fwd
    · rw [hdir] at hfw
      simp only [] at hfw ⊢
      rw [detPred_eq] at hfw ⊢
      exact hdet hfw
    · rw [hdir] at hfw
      simp only [] at hfw ⊢
      exact hfw
  · rw [h]
    exact resolveFramework_of_direct _ _ _ _ (resolveDirect_nnc _ fw tgt hmem)

theorem fw_deps_pack (fw : FrameworkDefinition)
    (hmem : fw = astroDefinition ∨ fw = nextDefinition) :
    ∃ deps, fw.dependencies = some deps ∧ fw.devDependencies = none ∧
      (deps.map Prod.fst).Nodup ∧ ∀ p ∈ deps, Canon p.2 := by
  rcases hmem with rfl | rfl
  · refine ⟨_, rfl, rfl, by decide, ?_⟩
    intro p hp
    fin_cases hp <;> exact Canon.cstr _
  · refine ⟨_, rfl, rfl, by decide, ?_⟩
    intro p hp
    fin_cases hp <;> exact Canon.cstr _

theorem pkg_set_pack (files : List GeneratedFile) (i : Nat) (f0 : GeneratedFile) (y : Str)
    (hget : files.get? i = some f0) (hpf0 : f0.path = txt "package.json") :
    (files.set i ⟨txt "package.json", y⟩).findIdx? (fun f => f.path = txt "package.json") =
      files.findIdx? (fun f => f.path = txt "package.json") ∧
    (files.set i ⟨txt "package.json", y⟩).get? i = some ⟨txt "package.json", y⟩ ∧
    (files.set i ⟨txt "package.json", y⟩).any
        (fun f => cfgPathTest (txt "astro.config") f.path) =
      files.any (fun f => cfgPathTest (txt "astro.config") f.path) ∧
    (files.set i ⟨txt "package.json", y⟩).any
        (fun f => cfgPathTest (txt "next.config") f.path) =
      files.any (fun f => cfgPathTest (txt "next.config") f.path) ∧
    (files.set i ⟨txt "package.json", y⟩).find? (fun f => f.path = NIMBUS_CONFIG_BASENAME ||
        ('/' :: NIMBUS_CONFIG_BASENAME).isSuffixOf f.path) =
      files.find? (fun f => f.path = NIMBUS_CONFIG_BASENAME ||
        ('/' :: NIMBUS_CONFIG_BASENAME).isSuffixOf f.path) ∧
    (∀ m f, files.get? m = some f → ¬ m = i →
      (files.set i ⟨txt "package.json", y⟩).get? m = some f) := by
  obtain ⟨p0, c0⟩ := f0
  have hp0 : p0 = txt "package.json" := hpf0
  subst hp0
  refine ⟨?_, ?_, ?_, ?_, ?_, ?_⟩
  · refine findIdx?_set_congr _ files i _ (fun f hf => ?_)
    rw [hget] at hf
    injection hf with h1
    subst h1
    rfl
  · rw [List.get?_set, if_pos rfl, hget]
    rfl
  · refine any_set_congr _ files i _ (fun f hf => ?_)
    rw [hget] at hf
    injection hf with h1
    subst h1
    rfl
  · refine any_set_congr _ files i _ (fun f hf => ?_)
    rw [hget] at hf
    injection hf with h1
    subst h1
    rfl
  · refine find?_set_skip _ files i _ (fun f hf => ?_) ?_
    · rw [hget] at hf
      injection hf with h1
      subst h1
      rfl
    · rfl
  · intro m f h hne
    rw [List.get?_set, if_neg (fun he => hne he.symm)]
    exact h

theorem astro_set_pack (B : List GeneratedFile) (ia : Nat) (fia : GeneratedFile) (x : Str)
    (hget : B.get? ia = some fia)
    (hastro : cfgPathTest (txt "astro.config") fia.path = true) :
    (B.set ia ⟨fia.path, x⟩).findIdx? (fun f => f.path = txt "package.json") =
      B.findIdx? (fun f => f.path = txt "package.json") ∧
    (∀ m f, B.get? m = some f → cfgPathTest (txt "astro.config") f.path = false →
      (B.set ia ⟨fia.path, x⟩).get? m = some f) ∧
    (B.set ia ⟨fia.path, x⟩).any (fun f => cfgPathTest (txt "astro.config") f.path) =
      B.any (fun f => cfgPathTest (txt "astro.config") f.path) ∧
    (B.set ia ⟨fia.path, x⟩).find? (fun f => f.path = NIMBUS_CONFIG_BASENAME ||
        ('/' :: NIMBUS_CONFIG_BASENAME).isSuffixOf f.path) =
      B.find? (fun f => f.path = NIMBUS_CONFIG_BASENAME ||
        ('/' :: NIMBUS_CONFIG_BASENAME).isSuffixOf f.path) ∧
    (B.set ia ⟨fia.path, x⟩).get? ia = some ⟨fia.path, x⟩ := by
  refine ⟨?_, ?_, ?_, ?_, ?_⟩
  · refine findIdx?_set_congr _ B ia _ (fun f hf => ?_)
    rw [hget] at hf
    injection hf with h1
    subst h1
    rfl
  · intro m f h hfalse
    have hne : ¬ ia = m := by
      intro he
      subst he
      rw [hget] at h
      injection h with h1
      subst h1
      rw [hastro] at hfalse
      cases hfalse
    rw [List.get?_set, if_neg hne]
    exact h
  · refine any_set_congr _ B ia _ (fun f hf => ?_)
    rw [hget] at hf
    injection hf with h1
    subst h1
    rfl
  · refine find?_set_skip _ B ia _ (fun f hf => ?_) ?_
    · rw [hget] at hf
      injection hf with h1
      subst h1
      exact npred_false_astro _ hastro
    · exact npred_false_astro _ hastro
  · rw [List.get?_set, if_pos rfl, hget]
    rfl

theorem astro_append_pack (B : List GeneratedFile) (x : Str) :
    (B ++ [(⟨txt "astro.config.mjs", x⟩ : GeneratedFile)]).findIdx? (fun f => f.path = txt "package.json") =
      B.findIdx? (fun f => f.path = txt "package.json") ∧
    (∀ m f, B.get? m = some f →
      (B ++ [(⟨txt "astro.config.mjs", x⟩ : GeneratedFile)]).get? m = some f) ∧
    (B ++ [(⟨txt "astro.config.mjs", x⟩ : GeneratedFile)]).any
      (fun f => cfgPathTest (txt "astro.config") f.path) = true ∧
    (B ++ [(⟨txt "astro.config.mjs", x⟩ : GeneratedFile)]).find? (fun f => f.path = NIMBUS_CONFIG_BASENAME ||
        ('/' :: NIMBUS_CONFIG_BASENAME).isSuffixOf f.path) =
      B.find? (fun f => f.path = NIMBUS_CONFIG_BASENAME ||
        ('/' :: NIMBUS_CONFIG_BASENAME).isSuffixOf f.path) ∧
    (B ++ [(⟨txt "astro.config.mjs", x⟩ : GeneratedFile)]).get? B.length =
      some ⟨txt "astro.config.mjs", x⟩ := by
  refine ⟨?_, ?_, ?_, ?_, ?_⟩
  · refine findIdx?_append_falseright _ B _ (fun y hy => ?_)
    rw [List.mem_singleton] at hy
    subst hy
    rfl
  · intro m f h
    rcases List.get?_eq_some.mp h with ⟨hlt, _⟩
    rw [List.get?_append hlt]
    exact h
  · have h1 : ([(⟨txt "astro.config.mjs", x⟩ : GeneratedFile)] : List GeneratedFile).any
        (fun f => cfgPathTest (txt "astro.config") f.path) = true := rfl
    rw [List.any_append, h1, Bool.or_true]
  · have h2 : ([(⟨txt "astro.config.mjs", x⟩ : GeneratedFile)] : List GeneratedFile).find?
        (fun f => f.path = NIMBUS_CONFIG_BASENAME ||
          ('/' :: NIMBUS_CONFIG_BASENAME).isSuffixOf f.path) = none := rfl
    rw [List.find?_append, h2, Option.or_none]
  · exact List.get?_concat_length B _

theorem upsert_pack (A : List GeneratedFile) (nc : Json)
    (hCanonNc : Canon nc) (hobjNc : ∃ ms, nc = Json.jobj ms) :
    ∃ files2, upsertFile A NIMBUS_CONFIG_BASENAME (stringify2 nc ++ ['\n']) = files2 ∧
      files2.findIdx? (fun f => f.path = txt "package.json") =
        A.findIdx? (fun f => f.path = txt "package.json") ∧
      (∀ m f, A.get? m = some f → ¬ f.path = NIMBUS_CONFIG_BASENAME →
        files2.get? m = some f) ∧
      files2.any (fun f => cfgPathTest (txt "astro.config") f.path) =
        A.any (fun f => cfgPathTest (txt "astro.config") f.path) ∧
      files2.any (fun f => cfgPathTest (txt "next.config") f.path) =
        A.any (fun f => cfgPathTest (txt "next.config") f.path) ∧
      (parseNimbusConfig files2 = parseNimbusConfig A ∨
        parseNimbusConfig files2 = some nc) ∧
      (∃ iN, files2.findIdx? (fun f => f.path = NIMBUS_CONFIG_BASENAME) = some iN ∧
        files2.get? iN = some ⟨NIMBUS_CONFIG_BASENAME, stringify2 nc ++ ['\n']⟩) := by
  rcases hIdx : A.findIdx? (fun f => f.path = NIMBUS_CONFIG_BASENAME) with _ | i2
  · have hup := upsertFile_notfound A NIMBUS_CONFIG_BASENAME (stringify2 nc ++ ['\n']) hIdx
    refine ⟨A ++ [(⟨NIMBUS_CONFIG_BASENAME, stringify2 nc ++ ['\n']⟩ : GeneratedFile)],
      hup, ?_, ?_, ?_, ?_, ?_, ?_⟩
    · refine findIdx?_append_falseright _ A _ (fun y hy => ?_)
      rw [List.mem_singleton] at hy
      subst hy
      rfl
    · intro m f h _
      rcases List.get?_eq_some.mp h with ⟨hlt, _⟩
      rw [List.get?_append hlt]
      exact h
    · have h1 : ([(⟨NIMBUS_CONFIG_BASENAME, stringify2 nc ++ ['\n']⟩ : GeneratedFile)]).any
          (fun f => cfgPathTest (txt "astro.config") f.path) = false := rfl
      rw [List.any_append, h1, Bool.or_false]
    · have h1 : ([(⟨NIMBUS_CONFIG_BASENAME, stringify2 nc ++ ['\n']⟩ : GeneratedFile)]).any
          (fun f => cfgPathTest (txt "next.config") f.path) = false := rfl
      rw [List.any_append, h1, Bool.or_false]
    · rcases hf : A.find? (fun f => f.path = NIMBUS_CONFIG_BASENAME ||
          ('/' :: NIMBUS_CONFIG_BASENAME).isSuffixOf f.path) with _ | cf
      · right
        have h2 : (A ++ [(⟨NIMBUS_CONFIG_BASENAME, stringify2 nc ++ ['\n']⟩ :
            GeneratedFile)]).find? (fun f => f.path = NIMBUS_CONFIG_BASENAME ||
              ('/' :: NIMBUS_CONFIG_BASENAME).isSuffixOf f.path) =
            some ⟨NIMBUS_CONFIG_BASENAME, stringify2 nc ++ ['\n']⟩ := by
          rw [List.find?_append, hf]
          rfl
        obtain ⟨ms, rfl⟩ := hobjNc
        rw [parseNimbusConfig, h2]
        simp only []
        rw [show parseJson (⟨NIMBUS_CONFIG_BASENAME,
            stringify2 (Json.jobj ms) ++ ['\n']⟩ : GeneratedFile).content =
          some (Json.jobj ms) from parseJson_stringify2_newline _ hCanonNc]
      · left
        have h2 : (A ++ [(⟨NIMBUS_CONFIG_BASENAME, stringify2 nc ++ ['\n']⟩ :
            GeneratedFile)]).find? (fun f => f.path = NIMBUS_CONFIG_BASENAME ||
              ('/' :: NIMBUS_CONFIG_BASENAME).isSuffixOf f.path) = some cf := by
          rw [List.find?_append, hf]
          rfl
        exact parseNimbus_congr _ _ (h2.trans hf.symm)
    · refine ⟨A.length, findIdx?_eq_of_witness _ _ A.length
        ⟨NIMBUS_CONFIG_BASENAME, stringify2 nc ++ ['\n']⟩
        (List.get?_concat_length A _) rfl ?_, List.get?_concat_length A _⟩
      intro k hk y hy
      rw [List.get?_append hk] at hy
      exact findIdx?_none_get? _ A hIdx k y hy
  · obtain ⟨⟨f2N, hgN, hpN⟩, hminN⟩ := findIdx?_some_spec _ A i2 hIdx
    obtain ⟨pN, cN2⟩ := f2N
    have hp2 : pN = NIMBUS_CONFIG_BASENAME := of_decide_eq_true hpN
    subst hp2
    have hup : upsertFile A NIMBUS_CONFIG_BASENAME (stringify2 nc ++ ['\n']) =
        A.set i2 ⟨NIMBUS_CONFIG_BASENAME, stringify2 nc ++ ['\n']⟩ :=
      upsertFile_found A NIMBUS_CONFIG_BASENAME (stringify2 nc ++ ['\n']) i2 _ hIdx hgN
    refine ⟨A.set i2 ⟨NIMBUS_CONFIG_BASENAME, stringify2 nc ++ ['\n']⟩,
      hup, ?_, ?_, ?_, ?_, ?_, ?_⟩
    · refine findIdx?_set_congr _ A i2 _ (fun f hf => ?_)
      rw [hgN] at hf
      injection hf with h1
      subst h1
      rfl
    · intro m f h hnp
      have hne : ¬ i2 = m := by
        intro he
        subst he
        rw [hgN] at h
        injection h with h1
        subst h1
        exact hnp rfl
      rw [List.get?_set, if_neg hne]
      exact h
    · refine any_set_congr _ A i2 _ (fun f hf => ?_)
      rw [hgN] at hf
      injection hf with h1
      subst h1
      rfl
    · refine any_set_congr _ A i2 _ (fun f hf => ?_)
      rw [hgN] at hf
      injection hf with h1
      subst h1
      rfl
    · rcases hfB : A.findIdx? (fun f => f.path = NIMBUS_CONFIG_BASENAME ||
          ('/' :: NIMBUS_CONFIG_BASENAME).isSuffixOf f.path) with _ | jB
      · exfalso
        have h9 := findIdx?_none_get? _ A hfB i2 _ hgN
        exact Bool.noConfusion (show true = false from h9)
      · obtain ⟨⟨cf, hcf, hpcf⟩, hminB⟩ := findIdx?_some_spec _ A jB hfB
        have hle : jB ≤ i2 := by
          rcases Nat.lt_or_ge i2 jB with hlt | hge
          · have h9 := hminB i2 hlt _ hgN
            exact absurd (show jB ≤ i2 from Bool.noConfusion (show true = false from h9))
              (by omega)
          · exact hge
        rcases Nat.lt_or_ge jB i2 with hlt | hge
        · left
          have hIdx2 : (A.set i2 ⟨NIMBUS_CONFIG_BASENAME,
              stringify2 nc ++ ['\n']⟩).findIdx? (fun f =>
                f.path = NIMBUS_CONFIG_BASENAME ||
                ('/' :: NIMBUS_CONFIG_BASENAME).isSuffixOf f.path) = some jB := by
            refine findIdx?_eq_of_witness _ _ jB cf ?_ hpcf ?_
            · rw [List.get?_set, if_neg (show ¬ i2 = jB by omega)]
              exact hcf
            · intro k hk y hy
              rw [List.get?_set, if_neg (show ¬ i2 = k by omega)] at hy
              exact hminB k hk y hy
          have hf2 : (A.set i2 ⟨NIMBUS_CONFIG_BASENAME,
              stringify2 nc ++ ['\n']⟩).find? (fun f =>
                f.path = NIMBUS_CONFIG_BASENAME ||
                ('/' :: NIMBUS_CONFIG_BASENAME).isSuffixOf f.path) = some cf := by
            rw [find?_eq_bind, hIdx2]
            simp only [Option.bind]
            rw [List.get?_set, if_neg (show ¬ i2 = jB by omega)]
            exact hcf
          have hfA : A.find? (fun f => f.path = NIMBUS_CONFIG_BASENAME ||
              ('/' :: NIMBUS_CONFIG_BASENAME).isSuffixOf f.path) = some cf := by
            rw [find?_eq_bind, hfB]
            simp only [Option.bind]
            exact hcf
          exact parseNimbus_congr _ _ (hf2.trans hfA.symm)
        · have heq : jB = i2 := by omega
          subst heq
          right
          have hIdx2 : (A.set jB ⟨NIMBUS_CONFIG_BASENAME,
              stringify2 nc ++ ['\n']⟩).findIdx? (fun f =>
                f.path = NIMBUS_CONFIG_BASENAME ||
                ('/' :: NIMBUS_CONFIG_BASENAME).isSuffixOf f.path) = some jB := by
            refine findIdx?_eq_of_witness _ _ jB
              ⟨NIMBUS_CONFIG_BASENAME, stringify2 nc ++ ['\n']⟩ ?_ rfl ?_
            · rw [List.get?_set, if_pos rfl, hgN]
              rfl
            · intro k hk y hy
              rw [List.get?_set, if_neg (show ¬ jB = k by omega)] at hy
              exact hminB k hk y hy
          have hf2 : (A.set jB ⟨NIMBUS_CONFIG_BASENAME,
              stringify2 nc ++ ['\n']⟩).find? (fun f =>
                f.path = NIMBUS_CONFIG_BASENAME ||
                ('/' :: NIMBUS_CONFIG_BASENAME).isSuffixOf f.path) =
              some ⟨NIMBUS_CONFIG_BASENAME, stringify2 nc ++ ['\n']⟩ := by
            rw [find?_eq_bind, hIdx2]
            simp only [Option.bind]
            rw [List.get?_set, if_pos rfl, hgN]
            rfl
          obtain ⟨ms, rfl⟩ := hobjNc
          rw [parseNimbusConfig, hf2]
          simp only []
          rw [show parseJson (⟨NIMBUS_CONFIG_BASENAME,
              stringify2 (Json.jobj ms) ++ ['\n']⟩ : GeneratedFile).content =
            some (Json.jobj ms) from parseJson_stringify2_newline _ hCanonNc]
    · refine ⟨i2, ?_, ?_⟩
      · rw [findIdx?_set_congr _ A i2 _ (fun f hf => by
          rw [hgN] at hf
          injection hf with h1
          subst h1
          rfl)]
        exact hIdx
      · rw [List.get?_set, if_pos rfl, hgN]
        rfl

theorem stage2_pack (B : List GeneratedFile) (fw : FrameworkDefinition)
    (cfg : Option Json) (tgt : FrameworkTarget) (pj2 : Option Json) (nc : Json)
    (hmem : fw = astroDefinition ∨ fw = nextDefinition)
    (hCanonNc : Canon nc) (hobjNc : ∃ ms, nc = Json.jobj ms) :
    ∃ files2,
      upsertFile (match fw.normalizeFiles with
          | some nf => nf ⟨B, cfg, tgt, pj2⟩
          | none => B) NIMBUS_CONFIG_BASENAME (stringify2 nc ++ ['\n']) = files2 ∧
      files2.findIdx? (fun f => f.path = txt "package.json") =
        B.findIdx? (fun f => f.path = txt "package.json") ∧
      (∀ m f, B.get? m = some f → cfgPathTest (txt "astro.config") f.path = false →
        ¬ f.path = NIMBUS_CONFIG_BASENAME → files2.get? m = some f) ∧
      (B.any (fun f => cfgPathTest (txt "astro.config") f.path) = true →
        files2.any (fun f => cfgPathTest (txt "astro.config") f.path) = true) ∧
      (fw = nextDefinition →
        files2.any (fun f => cfgPathTest (txt "astro.config") f.path) =
          B.any (fun f => cfgPathTest (txt "astro.config") f.path) ∧
        files2.any (fun f => cfgPathTest (txt "next.config") f.path) =
          B.any (fun f => cfgPathTest (txt "next.config") f.path)) ∧
      (parseNimbusConfig files2 = parseNimbusConfig B ∨
        parseNimbusConfig files2 = some nc) ∧
      (∃ iN, files2.findIdx? (fun f => f.path = NIMBUS_CONFIG_BASENAME) = some iN ∧
        files2.get? iN = some ⟨NIMBUS_CONFIG_BASENAME, stringify2 nc ++ ['\n']⟩) ∧
      (fw = astroDefinition → tgt = FrameworkTarget.workers →
        ∃ ja fa, files2.findIdx?
            (fun f => cfgPathTest (txt "astro.config") f.path) = some ja ∧
          files2.get? ja = some fa) := by
  rcases hmem with rfl | rfl
  · rw [show astroDefinition.normalizeFiles = some normalizeAstroConfigFiles from rfl]
    simp only []
    cases tgt with
    | staticT =>
      rw [normalizeAstro_static B cfg pj2]
      obtain ⟨files2, hup, u1, u2, u3, u4, u5, u6⟩ := upsert_pack B nc hCanonNc hobjNc
      exact ⟨files2, hup, u1, fun m f h _ hnp => u2 m f h hnp, fun h => u3.trans h,
        fun h => absurd h astro_ne_next, u5, u6,
        fun _ h => FrameworkTarget.noConfusion h⟩
    | workers =>
      rcases hia : B.findIdx? (fun f => cfgPathTest (txt "astro.config") f.path) with _ | ia
      · have hA2 : normalizeAstroConfigFiles ⟨B, cfg, FrameworkTarget.workers, pj2⟩ =
            B ++ [(⟨txt "astro.config.mjs", buildDefaultAstroConfig
              ⟨B, cfg, FrameworkTarget.workers, pj2⟩⟩ : GeneratedFile)] := by
          rw [normalizeAstroConfigFiles,
            if_neg (by simp : ¬ (FrameworkTarget.workers ≠ FrameworkTarget.workers))]
          simp only []
          rw [hia]
        rw [hA2]
        obtain ⟨p1, p2, p3, p4, p5⟩ := astro_append_pack B
          (buildDefaultAstroConfig ⟨B, cfg, FrameworkTarget.workers, pj2⟩)
        obtain ⟨files2, hup, u1, u2, u3, u4, u5, u6⟩ := upsert_pack
          (B ++ [(⟨txt "astro.config.mjs", buildDefaultAstroConfig
            ⟨B, cfg, FrameworkTarget.workers, pj2⟩⟩ : GeneratedFile)]) nc hCanonNc hobjNc
        refine ⟨files2, hup, u1.trans p1, ?_, fun _ => u3.trans p3,
          fun h => absurd h astro_ne_next, ?_, u6, ?_⟩
        · intro m f h _ hnp
          exact u2 m f (p2 m f h) hnp
        · rcases u5 with h | h
          · exact Or.inl (h.trans (parseNimbus_congr _ _ p4))
          · exact Or.inr h
        · intro _ _
          have hw : files2.get? B.length = some ⟨txt "astro.config.mjs",
              buildDefaultAstroConfig ⟨B, cfg, FrameworkTarget.workers, pj2⟩⟩ :=
            u2 B.length _ p5 (fun he => absurd (show txt "astro.config.mjs" =
              NIMBUS_CONFIG_BASENAME from he) (by decide))
          exact findIdx?_exists_of_witness _ files2 B.length _ hw rfl
      · obtain ⟨⟨fia, hgfa, hpfa⟩, _⟩ := findIdx?_some_spec _ B ia hia
        have hastro : cfgPathTest (txt "astro.config") fia.path = true := hpfa
        have hA2 := normalizeAstro_workers B cfg pj2 ia fia hia hgfa
        rw [hA2]
        obtain ⟨p1, p2, p3, p4, p5⟩ := astro_set_pack B ia fia
          (ensureOutputServer (ensureCloudflareAdapter fia.content)) hgfa hastro
        obtain ⟨files2, hup, u1, u2, u3, u4, u5, u6⟩ := upsert_pack
          (B.set ia ⟨fia.path, ensureOutputServer (ensureCloudflareAdapter fia.content)⟩)
          nc hCanonNc hobjNc
        refine ⟨files2, hup, u1.trans p1, ?_, fun h => u3.trans (p3.trans h),
          fun h => absurd h astro_ne_next, ?_, u6, ?_⟩
        · intro m f h hfalse hnp
          exact u2 m f (p2 m f h hfalse) hnp
        · rcases u5 with h | h
          · exact Or.inl (h.trans (parseNimbus_congr _ _ p4))
          · exact Or.inr h
        · intro _ _
          have hnp : ¬ (⟨fia.path, ensureOutputServer (ensureCloudflareAdapter
              fia.content)⟩ : GeneratedFile).path = NIMBUS_CONFIG_BASENAME := by
            intro he
            have he2 : fia.path = NIMBUS_CONFIG_BASENAME := he
            rw [he2] at hastro
            exact absurd hastro (by decide)
          have hw := u2 ia _ p5 hnp
          exact findIdx?_exists_of_witness _ files2 ia _ hw hastro
  · rw [show nextDefinition.normalizeFiles =
        (none : Option (FrameworkNormalizeContext → List GeneratedFile)) from rfl]
    simp only []
    obtain ⟨files2, hup, u1, u2, u3, u4, u5, u6⟩ := upsert_pack B nc hCanonNc hobjNc
    exact ⟨files2, hup, u1, fun m f h _ hnp => u2 m f h hnp, fun h => u3.trans h,
      fun _ => ⟨u3, u4⟩, u5, u6, fun h => absurd h.symm astro_ne_next⟩

/-- C7 (corrected). The second application of `normalizeGeneratedFiles` to its
own output is not byte-identical in general (see the counterexample: the astro
config rewriter inserts the cloudflare adapter again), but everything else in
the claim holds, for every input file list: the second run reproduces the
first run's config and framework, keeps the file count and every file path,
and leaves every file whose path is not an astro config file — in particular
the rewritten `package.json` and `nimbus.config.json` — byte-identical. -/
theorem c7_normalize_second_run (files : List GeneratedFile) :
    (normalizeGeneratedFiles (normalizeGeneratedFiles files).files).config =
      (normalizeGeneratedFiles files).config ∧
    (normalizeGeneratedFiles (normalizeGeneratedFiles files).files).framework =
      (normalizeGeneratedFiles files).framework ∧
    (normalizeGeneratedFiles (normalizeGeneratedFiles files).files).files.length =
      (normalizeGeneratedFiles files).files.length ∧
    (∀ m, ((normalizeGeneratedFiles (normalizeGeneratedFiles files).files).files.get? m).map
        GeneratedFile.path =
      ((normalizeGeneratedFiles files).files.get? m).map GeneratedFile.path) ∧
    (∀ m f1, (normalizeGeneratedFiles files).files.get? m = some f1 →
      cfgPathTest (txt "astro.config") f1.path = false →
      (normalizeGeneratedFiles (normalizeGeneratedFiles files).files).files.get? m =
        some f1) := by
  rcases hfw : resolveFramework (parseNimbusConfig files) files
      ((readPackageJson files).map Prod.snd) with _ | fw
  · have hr1 : normalizeGeneratedFiles files = ⟨files, parseNimbusConfig files, none⟩ := by
      rw [ngf_eq files, hfw]
    have hfl : (normalizeGeneratedFiles files).files = files := by rw [hr1]
    simp only [hfl]
    exact ⟨trivial, trivial, trivial, fun m => trivial, fun m f1 h _ => h⟩
  · have hmem := resolveFramework_mem _ _ _ _ hfw
    have hCanonNc : Canon (normalizeNimbusConfig (parseNimbusConfig files) fw
        (resolveTarget (parseNimbusConfig files) fw)) :=
      nnc_canon _ fw _ (fun c hc => parseNimbusConfig_canon files c hc)
    have hobjNc := nnc_is_jobj (parseNimbusConfig files) fw
      (resolveTarget (parseNimbusConfig files) fw)
    rcases hpk1 : readPackageJson files with _ | pk0
    · obtain ⟨files2, hup, t1, t2, t3, t4, t5, t6, t7⟩ := stage2_pack files fw
        (parseNimbusConfig files) (resolveTarget (parseNimbusConfig files) fw) none
        (normalizeNimbusConfig (parseNimbusConfig files) fw
          (resolveTarget (parseNimbusConfig files) fw)) hmem hCanonNc hobjNc
      have hr1 : normalizeGeneratedFiles files = ⟨files2,
          some (normalizeNimbusConfig (parseNimbusConfig files) fw
            (resolveTarget (parseNimbusConfig files) fw)), some fw⟩ := by
        rw [ngf_eq files, hfw]
        simp only []
        rw [hpk1]
        simp only []
        rw [hup]
      have hrp2 : readPackageJson files2 = none := by
        rcases readPackageJson_none_find files hpk1 with hidx | ⟨i0, f0, hIdx0, hget0, hbad⟩
        · exact readPackageJson_none_of_idx files2 (t1.trans hidx)
        · have hpath0 : f0.path = txt "package.json" := by
            obtain ⟨⟨xx, hxx, hpxx⟩, _⟩ := findIdx?_some_spec _ files i0 hIdx0
            rw [hget0] at hxx
            injection hxx with h1
            subst h1
            exact of_decide_eq_true hpxx
          have hget2 : files2.get? i0 = some f0 := t2 i0 f0 hget0
            (by rw [hpath0]; decide) (by rw [hpath0]; decide)
          exact readPackageJson_none_of_bad files2 i0 f0 (t1.trans hIdx0) hget2 hbad
      have hm1 : (readPackageJson files).map Prod.snd = none := by rw [hpk1]; rfl
      have hm2 : (readPackageJson files2).map Prod.snd = none := by rw [hrp2]; rfl
      have hdet : FRAMEWORKS.find?
            (detPred files ((readPackageJson files).map Prod.snd)) = some fw →
          FRAMEWORKS.find?
            (detPred files2 ((readPackageJson files2).map Prod.snd)) = some fw := by
        rw [hm1, hm2]
        intro h
        rcases frameworks_find_spec files none fw h with ⟨rfl, hdA⟩ | ⟨rfl, hdA, hdN⟩
        · refine frameworks_find_astro files2 none ?_
          rw [astroDetect_nonepk] at hdA ⊢
          exact t3 hdA
        · refine frameworks_find_next files2 none ?_ ?_
          · rw [astroDetect_nonepk] at hdA ⊢
            rw [(t4 rfl).1]
            exact hdA
          · rw [nextDetect_nonepk] at hdN ⊢
            rw [(t4 rfl).2]
            exact hdN
      have h4 := resolveTarget_transfer files2 (parseNimbusConfig files) fw
        (resolveTarget (parseNimbusConfig files) fw) hmem rfl t5
      have h3 := resolveFramework_transfer files files2
        ((readPackageJson files).map Prod.snd) ((readPackageJson files2).map Prod.snd)
        fw (resolveTarget (parseNimbusConfig files) fw) hmem hfw t5 hdet
      obtain ⟨R1, R2, R3, R4, R5⟩ := run2_core files2 fw
        (resolveTarget (parseNimbusConfig files) fw) (parseNimbusConfig files)
        (normalizeNimbusConfig (parseNimbusConfig files) fw
          (resolveTarget (parseNimbusConfig files) fw)) hmem rfl t5 h4 h3
        (Or.inl hrp2) t7 t6
      rw [hr1]
      exact ⟨R1, R2, R3, R4, R5⟩
    · obtain ⟨i, data⟩ := pk0
      obtain ⟨hIdxP, f0, hgf0, hpf0, hparse0, _⟩ := readPackageJson_spec files i data hpk1
      have hCanonD : Canon data := parseJson_canon _ _ hparse0
      obtain ⟨deps, hdep, hdev, hnodup, hvcanon⟩ := fw_deps_pack fw hmem
      have hupfix := applyDependencies_idem data fw deps hdep hdev hCanonD hnodup
      have hupcanon := applyDependencies_canon data fw deps hdep hdev hCanonD hvcanon
      have hobju : ∃ ms, applyDependencies data fw = Json.jobj ms :=
        ⟨_, applyDependencies_eq data fw deps hdep hdev⟩
      have hstep1 : writePackageJson files i (applyDependencies data fw) =
          files.set i ⟨txt "package.json",
            stringify2 (applyDependencies data fw) ++ ['\n']⟩ := by
        rw [writePackageJson_eq files i f0 _ hgf0, hpf0]
      obtain ⟨q1, q2, q3, q4, q5, q6⟩ := pkg_set_pack files i f0
        (stringify2 (applyDependencies data fw) ++ ['\n']) hgf0 hpf0
      obtain ⟨files2, hup, t1, t2, t3, t4, t5, t6, t7⟩ := stage2_pack
        (files.set i ⟨txt "package.json",
          stringify2 (applyDependencies data fw) ++ ['\n']⟩)
        fw (parseNimbusConfig files) (resolveTarget (parseNimbusConfig files) fw)
        (some (applyDependencies data fw))
        (normalizeNimbusConfig (parseNimbusConfig files) fw
          (resolveTarget (parseNimbusConfig files) fw)) hmem hCanonNc hobjNc
      have hr1 : normalizeGeneratedFiles files = ⟨files2,
          some (normalizeNimbusConfig (parseNimbusConfig files) fw
            (resolveTarget (parseNimbusConfig files) fw)), some fw⟩ := by
        rw [ngf_eq files, hfw]
        simp only []
        rw [hpk1]
        simp only []
        rw [hstep1]
        rw [hup]
      have hcfg2 : parseNimbusConfig files2 = parseNimbusConfig files ∨
          parseNimbusConfig files2 =
            some (normalizeNimbusConfig (parseNimbusConfig files) fw
              (resolveTarget (parseNimbusConfig files) fw)) := by
        rcases t5 with h | h
        · exact Or.inl (h.trans (parseNimbus_congr _ _ q5))
        · exact Or.inr h
      have hIdx2 : files2.findIdx? (fun f => f.path = txt "package.json") = some i := by
        rw [t1, q1]
        exact hIdxP
      have hget2 : files2.get? i = some ⟨txt "package.json",
          stringify2 (applyDependencies data fw) ++ ['\n']⟩ :=
        t2 i _ q2 rfl (fun he => absurd (show txt "package.json" =
          NIMBUS_CONFIG_BASENAME from he) (by decide))
      have hrp2 : readPackageJson files2 = some (i, applyDependencies data fw) :=
        readPackageJson_readback files2 i _ hIdx2 hget2 hupcanon hobju
      have hpkB : readPackageJson files2 = none ∨
          ∃ i2 fs0, readPackageJson files2 = some (i2, Json.jobj fs0) ∧
            applyDependencies (Json.jobj fs0) fw = Json.jobj fs0 ∧
            files2.get? i2 = some ⟨txt "package.json",
              stringify2 (Json.jobj fs0) ++ ['\n']⟩ := by
        obtain ⟨ms, hms⟩ := hobju
        refine Or.inr ⟨i, ms, ?_, ?_, ?_⟩
        · rw [← hms]
          exact hrp2
        · rw [← hms]
          exact hupfix
        · rw [← hms]
          exact hget2
      have hm1 : (readPackageJson files).map Prod.snd = some data := by rw [hpk1]; rfl
      have hm2 : (readPackageJson files2).map Prod.snd =
          some (applyDependencies data fw) := by rw [hrp2]; rfl
      have hdet : FRAMEWORKS.find?
            (detPred files ((readPackageJson files).map Prod.snd)) = some fw →
          FRAMEWORKS.find?
            (detPred files2 ((readPackageJson files2).map Prod.snd)) = some fw := by
        rw [hm1, hm2]
        intro h
        rcases frameworks_find_spec files (some data) fw h with ⟨rfl, _⟩ | ⟨rfl, hdA, _⟩
        · exact frameworks_find_astro files2 _ (astroDetect_up_true files2 data hCanonD)
        · refine frameworks_find_next files2 _ ?_ (nextDetect_up_true files2 data hCanonD)
          rw [astroDetect_up_next_eq files files2 data hCanonD
            (by rw [(t4 rfl).1, q3])]
          exact hdA
      have h4 := resolveTarget_transfer files2 (parseNimbusConfig files) fw
        (resolveTarget (parseNimbusConfig files) fw) hmem rfl hcfg2
      have h3 := resolveFramework_transfer files files2
        ((readPackageJson files).map Prod.snd) ((readPackageJson files2).map Prod.snd)
        fw (resolveTarget (parseNimbusConfig files) fw) hmem hfw hcfg2 hdet
      obtain ⟨R1, R2, R3, R4, R5⟩ := run2_core files2 fw
        (resolveTarget (parseNimbusConfig files) fw) (parseNimbusConfig files)
        (normalizeNimbusConfig (parseNimbusConfig files) fw
          (resolveTarget (parseNimbusConfig files) fw)) hmem rfl hcfg2 h4 h3
        hpkB t7 t6
      rw [hr1]
      exact ⟨R1, R2, R3, R4, R5⟩
